import Mathlib

/-!
Verification development for the calendar.md task-date engine.

The TypeScript sources are shallowly embedded:
* lines are `List Char` (one entry per Unicode code point),
* `moment` values are whole minutes on a proleptic-Gregorian timeline
  (plain `Int`, minutes since 0000-01-01T00:00); every date handled by
  the parser/formatter is constructed from `YYYY-MM-DD` literals plus
  minute-valued time-of-day offsets, so minute granularity is exact,
* the regular expressions of the date grammars are translated into
  recursive scanners with explicit `exec`-style cursor semantics
  (advance by one on failure, jump past a match on success),
* JavaScript truthiness of optional struct members (`hasTime?: boolean`)
  is modelled by `Bool` with `false` for `undefined`.
-/

/-! ## Character helpers (JS string semantics) -/

/-- Decimal digit character for `n % 10`, i.e. the code point `48 + n % 10`. -/
def digitChar10 (n : Nat) : Char := Char.ofNat (48 + n % 10)

/-- Test for an ASCII decimal digit (regex `\d`). -/
def isDigitCh (c : Char) : Bool := 48 ≤ c.toNat && c.toNat ≤ 57

/-- Numeric value of an ASCII digit character. -/
def digitVal (c : Char) : Nat := c.toNat - 48

/-- JavaScript `\s` whitespace class (the code points matched by `/\s/`). -/
def isJsWs (c : Char) : Bool :=
  c = ' ' || c = '\t' || c = '\n' || c = '\r' ||
  c.toNat = 11 || c.toNat = 12 ||
  c.toNat = 0xa0 || c.toNat = 0x1680 ||
  (0x2000 ≤ c.toNat && c.toNat ≤ 0x200a) ||
  c.toNat = 0x2028 || c.toNat = 0x2029 || c.toNat = 0x202f ||
  c.toNat = 0x205f || c.toNat = 0x3000 || c.toNat = 0xfeff

/-- JS `String.prototype.trim` on a list of characters. -/
def trimJs (l : List Char) : List Char :=
  ((l.dropWhile isJsWs).reverse.dropWhile isJsWs).reverse

/-- JS `String.prototype.trimEnd`. -/
def trimEndJs (l : List Char) : List Char :=
  (l.reverse.dropWhile isJsWs).reverse

/-- ASCII lower-casing, the only case mapping the key tables exercise
(non-ASCII letters never match an alias either way). -/
def toLowerAscii (l : List Char) : List Char :=
  l.map (fun c => if 'A' ≤ c && c ≤ 'Z' then Char.ofNat (c.toNat + 32) else c)

/-- JS `substring(a, b)` with `a ≤ b`: the characters in `[a, b)`. -/
def jsSubstring (l : List Char) (a b : Nat) : List Char := (l.take b).drop a

/-- Helper for `indexOfFrom`: first index at which `pat` occurs in `l`. -/
def indexOfAux (pat : List Char) : List Char → Nat → Option Nat
  | [], _ => none
  | c :: r, i => if pat.isPrefixOf (c :: r) then some i else indexOfAux pat r (i + 1)

/-- JS `String.prototype.indexOf(pat, start)` for a non-empty pattern,
returning `none` for `-1`. -/
def indexOfFrom (l pat : List Char) (start : Nat) : Option Nat :=
  (indexOfAux pat (l.drop start) 0).map (· + start)

/-- Length of the leading run of JS whitespace together with the rest (regex `\s*`). -/
def spanWs : List Char → Nat × List Char
  | [] => (0, [])
  | c :: r => if isJsWs c then let (n, r') := spanWs r; (n + 1, r') else (0, c :: r)

/-- Replace every run of whitespace by a single space, JS `replace(/\s+/g, " ")`. -/
def collapseWsAux : Bool → List Char → List Char
  | _, [] => []
  | prev, c :: r =>
    if isJsWs c then
      if prev then collapseWsAux true r else ' ' :: collapseWsAux true r
    else c :: collapseWsAux false r

/-- Collapse whitespace runs to single spaces. -/
def collapseWs (l : List Char) : List Char := collapseWsAux false l

/-! ## Fixed-width decimal printing and parsing -/

/-- Two-digit zero-padded print (`HH`, `MM`, `DD`, `mm` fields). -/
def pad2 (n : Nat) : List Char := [digitChar10 (n / 10), digitChar10 n]

/-- Four-digit zero-padded print (the `YYYY` field for years below 10000). -/
def pad4 (n : Nat) : List Char :=
  [digitChar10 (n / 1000), digitChar10 (n / 100), digitChar10 (n / 10), digitChar10 n]

/-- Plain decimal digits of `n`, no padding (moment's output for years ≥ 10000). -/
def natDigitsAux : Nat → Nat → List Char → List Char
  | 0, _, acc => acc
  | f + 1, n, acc =>
    if n < 10 then digitChar10 n :: acc else natDigitsAux f (n / 10) (digitChar10 n :: acc)

/-- Decimal digit string of a natural number. -/
def natDigits (n : Nat) : List Char := natDigitsAux (n + 1) n []

/-- Read exactly two digit characters (regex `\d{2}`). -/
def read2 : List Char → Option (Nat × List Char)
  | c1 :: c2 :: r =>
    if isDigitCh c1 && isDigitCh c2 then some (10 * digitVal c1 + digitVal c2, r) else none
  | _ => none

/-- Read exactly four digit characters (regex `\d{4}`). -/
def read4 : List Char → Option (Nat × List Char)
  | c1 :: c2 :: c3 :: c4 :: r =>
    if isDigitCh c1 && isDigitCh c2 && isDigitCh c3 && isDigitCh c4 then
      some (1000 * digitVal c1 + 100 * digitVal c2 + 10 * digitVal c3 + digitVal c4, r)
    else none
  | _ => none

/-- Match the literal date pattern `\d{4}-\d{2}-\d{2}` at the head of the input. -/
def parseIso (s : List Char) : Option ((Nat × Nat × Nat) × List Char) :=
  match read4 s with
  | none => none
  | some (y, r1) =>
    match r1 with
    | '-' :: r2 =>
      match read2 r2 with
      | none => none
      | some (mo, r3) =>
        match r3 with
        | '-' :: r4 =>
          match read2 r4 with
          | none => none
          | some (d, r5) => some ((y, mo, d), r5)
        | _ => none
    | _ => none

/-- Match `\d{1,2}:\d{2}` at the head of the input, with the regex engine's
greedy-then-backtrack choice on the hour width.  Returns consumed length,
hours and minutes. -/
def matchTime : List Char → Option (Nat × Nat × Nat)
  | c1 :: c2 :: c3 :: c4 :: c5 :: _ =>
    if isDigitCh c1 && isDigitCh c2 && c3 = ':' && isDigitCh c4 && isDigitCh c5 then
      some (5, 10 * digitVal c1 + digitVal c2, 10 * digitVal c4 + digitVal c5)
    else if isDigitCh c1 && c2 = ':' && isDigitCh c3 && isDigitCh c4 then
      some (4, digitVal c1, 10 * digitVal c3 + digitVal c4)
    else none
  | [c1, c2, c3, c4] =>
    if isDigitCh c1 && c2 = ':' && isDigitCh c3 && isDigitCh c4 then
      some (4, digitVal c1, 10 * digitVal c3 + digitVal c4)
    else none
  | _ => none

/-! ## Proleptic-Gregorian calendar -/

/-- Gregorian leap-year rule on a year number. -/
def isLeapYear (y : Nat) : Bool := y % 4 = 0 && (y % 100 ≠ 0 || y % 400 = 0)

/-- Days in month `mo` of a year with leap flag `leap`. -/
def daysInMonthB (leap : Bool) (mo : Nat) : Nat :=
  if mo = 2 then (if leap then 29 else 28)
  else if mo = 4 || mo = 6 || mo = 9 || mo = 11 then 30
  else 31

/-- Days in month `mo` of year `y`. -/
def daysInMonth (y mo : Nat) : Nat := daysInMonthB (isLeapYear y) mo

/-- Days in a year with leap flag `leap`. -/
def daysInYearB (leap : Bool) : Nat := if leap then 366 else 365

/-- Days in year `y`. -/
def daysInYear (y : Nat) : Nat := daysInYearB (isLeapYear y)

/-- Days before month `mo` within a year with leap flag `leap`. -/
def daysBeforeMonthB (leap : Bool) : Nat → Nat
  | 0 => 0
  | 1 => 0
  | m + 1 => daysBeforeMonthB leap m + daysInMonthB leap m

/-- Leap years in `[0, y)` (year 0 is a leap year): closed form. -/
def leapsBefore (y : Nat) : Nat :=
  ((y + 3) / 4 - (y + 99) / 100) + (y + 399) / 400

/-- Days elapsed from 0000-01-01 to the start of year `y`. -/
def yearStartDays (y : Nat) : Nat := 365 * y + leapsBefore y

/-- Day index (days since 0000-01-01) of a civil date. -/
def daysOfYmd (y mo d : Nat) : Nat :=
  yearStartDays y + daysBeforeMonthB (isLeapYear y) mo + (d - 1)

/-- Validity of a civil date as moment's strict ISO `YYYY-MM-DD` parser checks it:
month 1–12 and day 1–daysInMonth. -/
def validYmdB (y mo d : Nat) : Bool :=
  1 ≤ mo && mo ≤ 12 && 1 ≤ d && d ≤ daysInMonth y mo

/-- Month and day-of-month from a day index within one year (leap flag given). -/
def mdAux (leap : Bool) : Nat → Nat → Nat → Nat × Nat
  | 0, mo, n => (mo, n + 1)
  | f + 1, mo, n =>
    if n < daysInMonthB leap mo then (mo, n + 1)
    else mdAux leap f (mo + 1) (n - daysInMonthB leap mo)

/-- Month and day-of-month of day `n` (0-based) within a year with leap flag `leap`. -/
def mdOfYearDay (leap : Bool) (n : Nat) : Nat × Nat := mdAux leap 12 1 n

/-- Civil date from a day index: peel whole years starting at year `y`. -/
def ymdAux : Nat → Nat → Nat → Nat × Nat × Nat
  | 0, y, n => (y, 1, n + 1)
  | f + 1, y, n =>
    if n < daysInYear y then
      let (mo, d) := mdOfYearDay (isLeapYear y) n
      (y, mo, d)
    else ymdAux f (y + 1) (n - daysInYear y)

/-- Civil date of a nonnegative day index (days since 0000-01-01).  Peeling
starts at the underestimate `n / 366`, so only a bounded number of years is
walked. -/
def ymdOfDay (n : Nat) : Nat × Nat × Nat :=
  let y0 := n / 366
  ymdAux (n + 1) y0 (n - yearStartDays y0)

/-! ## Moments: whole minutes on the timeline -/

/-- Midnight moment of a civil date. -/
def momentOfYmd (y mo d : Nat) : Int := 1440 * (daysOfYmd y mo d : Int)

/-- The `moment(dateStr)` constructor on an already-shape-matched `YYYY-MM-DD`
literal: range validity decides `isValid()`. -/
def momentOfValid (y mo d : Nat) : Option Int :=
  if validYmdB y mo d then some (momentOfYmd y mo d) else none

/-- Day index of a moment. -/
def mDayIdx (m : Int) : Int := m / 1440

/-- Minute-of-day of a moment (always in `[0, 1440)`). -/
def mClock (m : Int) : Nat := (m % 1440).toNat

/-- moment `.hours()`. -/
def mHours (m : Int) : Nat := mClock m / 60

/-- moment `.minutes()`. -/
def mMinutes (m : Int) : Nat := mClock m % 60

/-- moment `.hour(h)` setter: native `setHours` semantics, hours beyond 23
bubble into following days. -/
def setHours (m : Int) (h : Nat) : Int :=
  m - (mClock m : Int) + 60 * (h : Int) + ((mClock m % 60 : Nat) : Int)

/-- moment `.minute(x)` setter: native `setMinutes` semantics, minutes beyond
59 bubble into following hours. -/
def setMinutes (m : Int) (x : Nat) : Int :=
  m - ((mClock m % 60 : Nat) : Int) + (x : Int)

/-- Print a year the way moment's zero-padded `YYYY` token does: four digits
zero-padded below 10000, plain digits above, sign-prefixed when negative. -/
def printYear (y : Int) : List Char :=
  if y < 0 then '-' :: (if (-y).toNat < 10000 then pad4 (-y).toNat else natDigits (-y).toNat)
  else if y.toNat < 10000 then pad4 y.toNat else natDigits y.toNat

/-- Civil date of a (possibly negative) day index.  Negative day indices walk
backwards from year 0; they are unreachable from parsed dates and carry no
proofs, but keep the formatter total and faithful. -/
def ymdOfNegAux : Nat → Nat → Nat → Nat × Nat × Nat
  | 0, y, _ => (y, 1, 1)
  | f + 1, y, k =>
    let len := daysInYear y
    if k ≤ len then
      let (mo, d) := mdOfYearDay (isLeapYear y) (len - k)
      (y, mo, d)
    else ymdOfNegAux f (y + 1) (k - len)

/-- Year (as an Int, negated), month and day for a moment `k` days before 0000-01-01. -/
def ymdOfDayI (n : Int) : Int × Nat × Nat :=
  if 0 ≤ n then
    let (y, mo, d) := ymdOfDay n.toNat
    ((y : Int), mo, d)
  else
    let (y, mo, d) := ymdOfNegAux ((-n).toNat + 1) 1 (-n).toNat
    (-(y : Int), mo, d)

/-- moment `.format("YYYY-MM-DD")`. -/
def fmtYmd (m : Int) : List Char :=
  let (y, mo, d) := ymdOfDayI (mDayIdx m)
  printYear y ++ '-' :: pad2 mo ++ '-' :: pad2 d

/-- moment `.format("HH:mm")`. -/
def fmtHm (m : Int) : List Char := pad2 (mHours m) ++ ':' :: pad2 (mMinutes m)

/-- moment `.format("YYYY-MM-DD HH:mm")` (the calendar wire format). -/
def fmtYmdHm (m : Int) : List Char := fmtYmd m ++ ' ' :: fmtHm m

/-! ## Data model (dateParser.ts) -/

/-- Supported date field types (enum `DateFieldType`). -/
inductive DateFieldType
  | Due | Start | Scheduled | Created | Done | Cancelled
deriving DecidableEq, Repr, Fintype

/-- The TS enum's string values (`Due = "due"`, …, `Done = "completed"`). -/
def DateFieldType.value : DateFieldType → List Char
  | .Due => "due".toList
  | .Start => "start".toList
  | .Scheduled => "scheduled".toList
  | .Created => "created".toList
  | .Done => "completed".toList
  | .Cancelled => "cancelled".toList

/-- Format tag stored on a field (`ParsedDateField.format`). -/
inductive FieldFormat
  | tasks | dataviewBracket | dataviewParen | simple | kanban
deriving DecidableEq, Repr

/-- The `DateFormatType` settings value used as `formatFilter`. -/
inductive DateFormatType
  | tasks | dataview | simple | kanban
deriving DecidableEq, Repr

/-- One recognized date occurrence in a line (`ParsedDateField`).  The TS
interface's `end` is spelt `stop` (Lean keyword); `hasTime?: boolean` is a
`Bool` with `false` standing for the absent/`undefined` case. -/
structure ParsedDateField where
  type : DateFieldType
  date : Int
  raw : List Char
  start : Nat
  stop : Nat
  format : FieldFormat
  hasTime : Bool
deriving DecidableEq, Repr

/-- `DATE_SYMBOLS`: emoji symbol aliases per field type. -/
def DATE_SYMBOLS : DateFieldType → List Char
  | .Due => ['📅', '📆', '🗓']
  | .Start => ['🛫']
  | .Scheduled => ['⏳', '⌛']
  | .Created => ['➕']
  | .Done => ['✅']
  | .Cancelled => ['❌']

/-- `EMOJI_DATE_PATTERNS` in source order: each entry scans one symbol class. -/
def EMOJI_DATE_PATTERNS : List (DateFieldType × List Char) :=
  [(.Due, DATE_SYMBOLS .Due), (.Start, DATE_SYMBOLS .Start),
   (.Scheduled, DATE_SYMBOLS .Scheduled), (.Created, DATE_SYMBOLS .Created),
   (.Done, DATE_SYMBOLS .Done), (.Cancelled, DATE_SYMBOLS .Cancelled)]

/-- `DATAVIEW_KEY_ALIASES` as an association list in source order. -/
def DATAVIEW_KEY_ALIASES : List (List Char × DateFieldType) :=
  [("due".toList, .Due), ("due date".toList, .Due), ("duedate".toList, .Due),
   ("start".toList, .Start), ("start date".toList, .Start), ("startdate".toList, .Start),
   ("scheduled".toList, .Scheduled), ("scheduled date".toList, .Scheduled),
   ("scheduleddate".toList, .Scheduled),
   ("created".toList, .Created), ("created date".toList, .Created),
   ("createddate".toList, .Created),
   ("done".toList, .Done), ("done date".toList, .Done), ("donedate".toList, .Done),
   ("completed".toList, .Done), ("completion date".toList, .Done),
   ("completion".toList, .Done),
   ("cancelled".toList, .Cancelled), ("canceled".toList, .Cancelled),
   ("cancelled date".toList, .Cancelled), ("canceled date".toList, .Cancelled)]

/-- JS object property lookup into the alias table. -/
def aliasLookup (k : List Char) : Option DateFieldType :=
  (DATAVIEW_KEY_ALIASES.find? (fun p => p.1 == k)).map (·.2)

/-! ## Emoji ("tasks") grammar -/

/-- The variation selector `\uFE0F` optionally accepted after an emoji symbol. -/
def vs16 : Char := Char.ofNat 0xFE0F

/-- The optional `\uFE0F` after an emoji symbol: consumed length and rest. -/
def skipVs16 (rest : List Char) : Nat × List Char :=
  match rest with
  | v :: r' => if v = vs16 then (1, r') else (0, rest)
  | [] => (0, rest)

/-- The optional time group `(?:\s+(\d{1,2}:\d{2}))?`: consumed length and
captures when the whole group matches (it consumes nothing otherwise). -/
def matchEmojiTimeSuffix (s : List Char) : Option (Nat × Nat × Nat) :=
  let ws := spanWs s
  if ws.1 ≥ 1 then
    match matchTime ws.2 with
    | some (tl, h, mi) => some (ws.1 + tl, h, mi)
    | none => none
  else none

/-- Match one emoji-format date at the head of the input: regex
`[syms]️?\s*(\d{4}-\d{2}-\d{2})(?:\s+(\d{1,2}:\d{2}))?`.
Returns consumed length, the date literal's components and the optional
time capture. -/
def matchEmojiAt (syms : List Char) : List Char → Option (Nat × (Nat × Nat × Nat) × Option (Nat × Nat))
  | [] => none
  | c :: rest =>
    if syms.contains c then
      let fe := skipVs16 rest
      let wsp := spanWs fe.2
      match parseIso wsp.2 with
      | none => none
      | some ((y, mo, d), r3) =>
        let dateLen := 1 + fe.1 + wsp.1 + 10
        match matchEmojiTimeSuffix r3 with
        | some (tl, h, mi) => some (dateLen + tl, (y, mo, d), some (h, mi))
        | none => some (dateLen, (y, mo, d), none)
    else none

/-- One `regex.exec` loop of `extractEmojiDates` for a single pattern:
advance one position on failure, jump past the match on success, emit a
field only when the date literal is valid. -/
def scanEmojiAux (tp : DateFieldType) (syms : List Char) : Nat → List Char → Nat → List ParsedDateField
  | 0, _, _ => []
  | _ + 1, [], _ => []
  | f + 1, s@(_ :: rest), i =>
    match matchEmojiAt syms s with
    | some (len, (y, mo, d), topt) =>
      match momentOfValid y mo d with
      | some base =>
        let (date, hasTime) :=
          match topt with
          | some (h, mi) => (setMinutes (setHours base h) mi, true)
          | none => (base, false)
        { type := tp, date := date, raw := s.take len, start := i, stop := i + len,
          format := .tasks, hasTime := hasTime } :: scanEmojiAux tp syms f (s.drop len) (i + len)
      | none => scanEmojiAux tp syms f (s.drop len) (i + len)
    | none => scanEmojiAux tp syms f rest (i + 1)

/-- `extractEmojiDates`: six independent global scans, one per field type. -/
def extractEmojiDates (line : List Char) : List ParsedDateField :=
  (EMOJI_DATE_PATTERNS.map (fun p => scanEmojiAux p.1 p.2 (line.length + 1) line 0)).flatten

/-! ## Dataview inline-field grammar -/

/-- `findDataviewSeparator`: locate `::` from `start`, give back the trimmed
lower-cased key and the index just after the separator. -/
def findDataviewSeparator (line : List Char) (start : Nat) : Option (List Char × Nat) :=
  match indexOfFrom line [':', ':'] start with
  | none => none
  | some sep => some (toLowerAscii (trimJs (jsSubstring line start sep)), sep + 2)

/-- Inner loop of `findClosingBracket`, index-tracked over the tail of the
line, with the source's nesting counter and backslash-escape toggle. -/
def fcbAux (openC closeC : Char) : List Char → Nat → Int → Bool → Option Nat
  | [], _, _, _ => none
  | c :: r, i, nesting, escaped =>
    if c = '\\' then fcbAux openC closeC r (i + 1) nesting (!escaped)
    else if escaped then fcbAux openC closeC r (i + 1) nesting false
    else
      let nesting' := if c = openC then nesting + 1 else if c = closeC then nesting - 1 else nesting
      if nesting' < 0 then some i
      else fcbAux openC closeC r (i + 1) nesting' false

/-- `findClosingBracket`: matching close bracket respecting nesting/escapes;
returns the trimmed captured value and the index just after the bracket. -/
def findClosingBracket (line : List Char) (start : Nat) (openC closeC : Char) : Option (List Char × Nat) :=
  match fcbAux openC closeC (line.drop start) start 0 false with
  | none => none
  | some i => some (trimJs (jsSubstring line start i), i + 1)

/-- Prefix regex `/^\d{4}-\d{2}-\d{2}/` of `extractDataviewDates`; only the
matched ten characters reach the `moment` constructor (`moment(dateMatch[0])`),
so a trailing `T`-time in the value never flows into the date. -/
def isoPrefixMatch (s : List Char) : Option (Nat × Nat × Nat) :=
  (parseIso s).map (·.1)

/-- The `while (searchIndex < line.length)` loop of `extractDataviewDates`
for one wrapper family, fuelled by the line length (the cursor strictly
advances each iteration). -/
def dvLoop (line : List Char) (openC closeC : Char) (fmt : FieldFormat) : Nat → Nat → List ParsedDateField
  | 0, _ => []
  | f + 1, searchIndex =>
    if searchIndex < line.length then
      match indexOfFrom line [openC] searchIndex with
      | none => []
      | some foundIndex =>
        match findDataviewSeparator line (foundIndex + 1) with
        | none => dvLoop line openC closeC fmt f (foundIndex + 1)
        | some (key, valueIndex) =>
          let keyPart := jsSubstring line (foundIndex + 1) (valueIndex - 2)
          let hasInvalidChar := keyPart.any (fun c => c = '[' || c = '(' || c = ']' || c = ')')
          if hasInvalidChar then dvLoop line openC closeC fmt f (foundIndex + 1)
          else
            match findClosingBracket line valueIndex openC closeC with
            | none => dvLoop line openC closeC fmt f (foundIndex + 1)
            | some (value, endIndex) =>
              match aliasLookup key with
              | none => dvLoop line openC closeC fmt f endIndex
              | some dateType =>
                let dateStr := trimJs value
                match isoPrefixMatch dateStr with
                | none => dvLoop line openC closeC fmt f endIndex
                | some (y, mo, d) =>
                  match momentOfValid y mo d with
                  | none => dvLoop line openC closeC fmt f endIndex
                  | some date =>
                    { type := dateType, date := date,
                      raw := jsSubstring line foundIndex endIndex,
                      start := foundIndex, stop := endIndex,
                      format := fmt, hasTime := false } :: dvLoop line openC closeC fmt f endIndex
    else []

/-- `extractDataviewDates`: both wrapper styles, `[...]` then `(...)`. -/
def extractDataviewDates (line : List Char) : List ParsedDateField :=
  dvLoop line '[' ']' .dataviewBracket (line.length + 1) 0 ++
  dvLoop line '(' ')' .dataviewParen (line.length + 1) 0

/-! ## Simple grammar -/

/-- Match `@\s*(\d{4}-\d{2}-\d{2})` at the head of the input. -/
def matchSimpleAt (s : List Char) : Option (Nat × (Nat × Nat × Nat)) :=
  match s with
  | '@' :: r =>
    let (w, r1) := spanWs r
    match parseIso r1 with
    | none => none
    | some ((y, mo, d), _) => some (1 + w + 10, (y, mo, d))
  | _ => none

/-- `exec` loop of `extractSimpleDates`. -/
def scanSimpleAux : Nat → List Char → Nat → List ParsedDateField
  | 0, _, _ => []
  | _ + 1, [], _ => []
  | f + 1, s@(_ :: rest), i =>
    match matchSimpleAt s with
    | some (len, (y, mo, d)) =>
      match momentOfValid y mo d with
      | some date =>
        { type := .Due, date := date, raw := s.take len, start := i, stop := i + len,
          format := .simple, hasTime := false } :: scanSimpleAux f (s.drop len) (i + len)
      | none => scanSimpleAux f (s.drop len) (i + len)
    | none => scanSimpleAux f rest (i + 1)

/-- `extractSimpleDates`: the simple `@` grammar, always mapping to `Due`. -/
def extractSimpleDates (line : List Char) : List ParsedDateField :=
  scanSimpleAux (line.length + 1) line 0

/-! ## Kanban grammar -/

/-- Match the Kanban date token `@\{(\d{4}-\d{2}-\d{2})\}` at the head. -/
def matchKanbanDateAt (s : List Char) : Option (Nat × Nat × Nat) :=
  match s with
  | '@' :: '{' :: r =>
    match parseIso r with
    | some ((y, mo, d), '}' :: _) => some (y, mo, d)
    | _ => none
  | _ => none

/-- Match the Kanban time token `@@\{(\d{1,2}:\d{2})\}` at the head. -/
def matchKanbanTimeAt (s : List Char) : Option (Nat × Nat) :=
  match s with
  | '@' :: '@' :: '{' :: c1 :: c2 :: c3 :: c4 :: c5 :: c6 :: _ =>
    if isDigitCh c1 && isDigitCh c2 && c3 = ':' && isDigitCh c4 && isDigitCh c5 && c6 = '}' then
      some (10 * digitVal c1 + digitVal c2, 10 * digitVal c4 + digitVal c5)
    else if isDigitCh c1 && c2 = ':' && isDigitCh c3 && isDigitCh c4 && c5 = '}' then
      some (digitVal c1, 10 * digitVal c3 + digitVal c4)
    else none
  | '@' :: '@' :: '{' :: c1 :: c2 :: c3 :: c4 :: c5 :: [] =>
    if isDigitCh c1 && c2 = ':' && isDigitCh c3 && isDigitCh c4 && c5 = '}' then
      some (digitVal c1, 10 * digitVal c3 + digitVal c4)
    else none
  | _ => none

/-- The single `timeRe.exec(line)` call: first time-token match on the line. -/
def firstKanbanTime : List Char → Option (Nat × Nat)
  | [] => none
  | c :: r =>
    match matchKanbanTimeAt (c :: r) with
    | some hm => some hm
    | none => firstKanbanTime r

/-- `exec` loop over Kanban date tokens; a line-level time (if any) is applied
to every date found. -/
def scanKanbanAux (timeOpt : Option (Nat × Nat)) : Nat → List Char → Nat → List ParsedDateField
  | 0, _, _ => []
  | _ + 1, [], _ => []
  | f + 1, s@(_ :: rest), i =>
    match matchKanbanDateAt s with
    | some (y, mo, d) =>
      match momentOfValid y mo d with
      | some base =>
        let date :=
          match timeOpt with
          | some (h, mi) => setMinutes (setHours base h) mi
          | none => base
        { type := .Due, date := date, raw := s.take 13, start := i, stop := i + 13,
          format := .kanban, hasTime := timeOpt.isSome } :: scanKanbanAux timeOpt f (s.drop 13) (i + 13)
      | none => scanKanbanAux timeOpt f (s.drop 13) (i + 13)
    | none => scanKanbanAux timeOpt f rest (i + 1)

/-- `extractKanbanDates`: time token first (line-scoped), then all date tokens. -/
def extractKanbanDates (line : List Char) : List ParsedDateField :=
  scanKanbanAux (firstKanbanTime line) (line.length + 1) line 0

/-! ## Extraction engine -/

/-- Stable insertion by ascending `start`; models the ES2019-stable
`allDates.sort((a, b) => a.start - b.start)`. -/
def insertByStart (f : ParsedDateField) : List ParsedDateField → List ParsedDateField
  | [] => [f]
  | g :: gs => if f.start ≤ g.start then f :: g :: gs else g :: insertByStart f gs

/-- Stable sort by ascending `start`. -/
def sortByStart (l : List ParsedDateField) : List ParsedDateField :=
  l.foldr insertByStart []

/-- The overlap-removal walk: keep a field only when its `start` is at or
past the `end` of the last kept field. -/
def dropOverlapsAux : Option ParsedDateField → List ParsedDateField → List ParsedDateField
  | _, [] => []
  | none, d :: ds => d :: dropOverlapsAux (some d) ds
  | some last, d :: ds =>
    if last.stop ≤ d.start then d :: dropOverlapsAux (some d) ds
    else dropOverlapsAux (some last) ds

/-- Greedy earliest-match-wins overlap filter. -/
def dropOverlaps (l : List ParsedDateField) : List ParsedDateField :=
  dropOverlapsAux none l

/-- Raw concatenation of the per-grammar extractions selected by the filter,
in source order (emoji, dataview, simple, kanban). -/
def collectAllDates (line : List Char) (formatFilter : Option DateFormatType) : List ParsedDateField :=
  (if formatFilter = none || formatFilter = some .tasks then extractEmojiDates line else []) ++
  (if formatFilter = none || formatFilter = some .dataview then extractDataviewDates line else []) ++
  (if formatFilter = none || formatFilter = some .simple then extractSimpleDates line else []) ++
  (if formatFilter = none || formatFilter = some .kanban then extractKanbanDates line else [])

/-- `extractAllDates`: run the selected grammars, sort by position, remove
overlapping entries. -/
def extractAllDates (line : List Char) (formatFilter : Option DateFormatType := none) : List ParsedDateField :=
  dropOverlaps (sortByStart (collectAllDates line formatFilter))

/-! ## Primary date, stripping, formatting -/

/-- Default priority order of `getPrimaryDate`. -/
def defaultPriority : List DateFieldType :=
  [.Due, .Scheduled, .Start, .Created, .Done, .Cancelled]

/-- The priority scan of `getPrimaryDate`: first find for the first matching type. -/
def findByPriority : List DateFieldType → List ParsedDateField → Option ParsedDateField
  | [], _ => none
  | t :: ts, all =>
    match all.find? (fun d => d.type == t) with
    | some f => some f
    | none => findByPriority ts all

/-- `getPrimaryDate`. -/
def getPrimaryDate (line : List Char)
    (priorityOrder : List DateFieldType := defaultPriority)
    (formatFilter : Option DateFormatType := none) : Option ParsedDateField :=
  let allDates := extractAllDates line formatFilter
  if allDates.length = 0 then none
  else
    match findByPriority priorityOrder allDates with
    | some f => some f
    | none => allDates.head?

/-- `getDateByType`. -/
def getDateByType (line : List Char) (type : DateFieldType) : Option ParsedDateField :=
  (extractAllDates line).find? (fun d => d.type == type)

/-- `hasDate`. -/
def hasDate (line : List Char) : Bool :=
  (extractAllDates line).length > 0

/-- `stripDates`: remove every matched span (highest `start` first), then
normalize whitespace — but return the line untouched when nothing matched. -/
def stripDates (line : List Char) : List Char :=
  let dates := extractAllDates line
  if dates.length = 0 then line
  else
    let result := dates.reverse.foldl (fun r d => r.take d.start ++ r.drop d.stop) line
    trimJs (collapseWs result)

/-- `formatDate`: pure formatter back into one of the five textual conventions. -/
def formatDate (type : DateFieldType) (date : Int)
    (format : FieldFormat := .tasks) (includeTime : Bool := false) : List Char :=
  let dateStr := fmtYmd date
  let timeStr := fmtHm date
  let hasValidTime := includeTime && (mHours date ≠ 0 || mMinutes date ≠ 0)
  match format with
  | .tasks =>
    let sym := (DATE_SYMBOLS type).getD 0 ' '
    if hasValidTime then sym :: ' ' :: dateStr ++ ' ' :: timeStr
    else sym :: ' ' :: dateStr
  | .dataviewBracket =>
    if hasValidTime then '[' :: type.value ++ ':' :: ':' :: ' ' :: dateStr ++ 'T' :: timeStr ++ [']']
    else '[' :: type.value ++ ':' :: ':' :: ' ' :: dateStr ++ [']']
  | .dataviewParen =>
    if hasValidTime then '(' :: type.value ++ ':' :: ':' :: ' ' :: dateStr ++ 'T' :: timeStr ++ [')']
    else '(' :: type.value ++ ':' :: ':' :: ' ' :: dateStr ++ [')']
  | .simple => '@' :: ' ' :: dateStr
  | .kanban =>
    if hasValidTime then '@' :: '{' :: dateStr ++ '}' :: ' ' :: '@' :: '@' :: '{' :: timeStr ++ ['}']
    else '@' :: '{' :: dateStr ++ ['}']

/-- `hasTimeComponent`: nonzero hours or minutes. -/
def hasTimeComponent (m : Int) : Bool :=
  mHours m ≠ 0 || mMinutes m ≠ 0

/-! ## CalendarView / ColorService layer -/

/-- The slice of `TaskLine` consumed by projection and rescheduling:
primary date and type, all parsed fields, time flag, Kanban flag.
`hasTime?`/`isKanban?` are optional in TS; `false` models `undefined`. -/
structure TaskLine where
  date : Int
  dateType : DateFieldType
  allDates : List ParsedDateField
  hasTime : Bool
  isKanban : Bool
deriving DecidableEq, Repr

/-- First `Start` field of a task (`allDates.find(d => d.type === Start)`). -/
def taskStartField (task : TaskLine) : Option ParsedDateField :=
  task.allDates.find? (fun d => d.type == .Start)

/-- First `Due` field of a task. -/
def taskDueField (task : TaskLine) : Option ParsedDateField :=
  task.allDates.find? (fun d => d.type == .Due)

/-- The per-task start/end computation of `updateCalendarEvents`, emitting
the `"YYYY-MM-DD HH:mm"` / `"YYYY-MM-DD"` strings handed to the calendar. -/
def eventTimes (task : TaskLine) : List Char × List Char :=
  if task.isKanban && task.hasTime then
    (fmtYmdHm task.date, fmtYmdHm (task.date + 30))
  else
    match taskStartField task, taskDueField task with
    | some startField, some dueField =>
      if startField.hasTime || dueField.hasTime then
        let startStr := fmtYmdHm startField.date
        let endStr :=
          if dueField.hasTime then fmtYmdHm dueField.date
          else fmtYmdHm (setMinutes (setHours dueField.date 23) 59)
        (startStr, endStr)
      else (fmtYmd startField.date, fmtYmd dueField.date)
    | some startField, none =>
      if startField.hasTime then
        (fmtYmdHm startField.date, fmtYmdHm (startField.date + 30))
      else (fmtYmd startField.date, fmtYmd startField.date)
    | none, some dueField =>
      if dueField.hasTime then
        (fmtYmdHm dueField.date, fmtYmdHm (dueField.date + 30))
      else (fmtYmd dueField.date, fmtYmd dueField.date)
    | none, none =>
      if task.hasTime then (fmtYmdHm task.date, fmtYmdHm (task.date + 30))
      else (fmtYmd task.date, fmtYmd task.date)

/-- Mapping of field types to formatted strings (`Map<DateFieldType, string>`). -/
abbrev DateUpdateMap := DateFieldType → Option (List Char)

/-- Empty update map. -/
def emptyUpdates : DateUpdateMap := fun _ => none

/-- `Map.set`. -/
def mapSet (m : DateUpdateMap) (t : DateFieldType) (v : List Char) : DateUpdateMap :=
  fun u => if u = t then some v else m u

/-- `reconstructLine`: trim the end of the base line, then append the mapped
strings in canonical order.  JS `if (formatted)` skips empty strings. -/
def reconstructLine (baseLine : List Char) (dateUpdates : DateUpdateMap) : List Char :=
  let order : List DateFieldType := [.Start, .Scheduled, .Due, .Created, .Done, .Cancelled]
  order.foldl
    (fun result type =>
      match dateUpdates type with
      | some formatted => if formatted.isEmpty then result else result ++ ' ' :: formatted
      | none => result)
    (trimEndJs baseLine)

/-- `isDefaultDropTime`: exactly midnight or noon. -/
def isDefaultDropTime (m : Int) : Bool :=
  (mHours m = 0 && mMinutes m = 0) || (mHours m = 12 && mMinutes m = 0)

/-- `normalizeAllDayEnd`: shift an exclusive calendar end back to an inclusive
one when the calendar reported a default (midnight/noon) end time. -/
def normalizeAllDayEnd (newStart newEnd : Int) (task : TaskLine)
    (startField dueField : Option ParsedDateField) : Int :=
  let hasExplicitTime := task.hasTime ||
    (match startField with | some f => f.hasTime | none => false) ||
    (match dueField with | some f => f.hasTime | none => false)
  let endIsDefault := isDefaultDropTime newEnd
  if endIsDefault then
    if mDayIdx newEnd > mDayIdx newStart then
      let endMoment := newEnd - 1440
      if hasExplicitTime then setMinutes (setHours endMoment 23) 59 else endMoment
    else newEnd
  else newEnd

/-- The `newEndMoment` computation of `handleEventDrop`: for Start+Due pairs,
the old due shifted by the new-start minus old-start delta (in milliseconds);
otherwise the calendar-reported end, normalized.  Moments are whole minutes,
so the millisecond delta is an exact multiple of 60000. -/
def dropNewEndMoment (task : TaskLine) (newStart newEnd : Int) : Int :=
  match taskStartField task, taskDueField task with
  | some startField, some dueField =>
    let deltaMs : Int := (newStart - startField.date) * 60000
    dueField.date + deltaMs / 60000
  | sf, df => normalizeAllDayEnd newStart newEnd task sf df

/-- The `dateUpdates` map as `handleEventDrop` hands it to `reconstructLine`:
seed every parsed field with its own re-formatted text, then overwrite the
rescheduled entries. -/
def dropDateUpdates (task : TaskLine) (newStart newEnd : Int) : DateUpdateMap :=
  let seeded := task.allDates.foldl
    (fun m d => mapSet m d.type (formatDate d.type d.date d.format d.hasTime)) emptyUpdates
  let startField := taskStartField task
  let dueField := taskDueField task
  let startHasTime := mHours newStart ≠ 0 || mMinutes newStart ≠ 0
  let endHasTime := mHours newEnd ≠ 0 || mMinutes newEnd ≠ 0
  let newEndMoment := dropNewEndMoment task newStart newEnd
  match startField, dueField with
  | some sf, some df =>
    let finalStart0 := newStart
    let finalStart :=
      if sf.hasTime && isDefaultDropTime newStart then
        setMinutes (setHours finalStart0 (mHours sf.date)) (mMinutes sf.date)
      else finalStart0
    let finalEnd0 := newEndMoment
    let finalEnd1 :=
      if df.hasTime && isDefaultDropTime newEnd then
        setMinutes (setHours finalEnd0 (mHours df.date)) (mMinutes df.date)
      else finalEnd0
    let wasMultiDay := !(mDayIdx sf.date == mDayIdx df.date)
    let isNowSingleDay := mDayIdx finalStart == mDayIdx finalEnd1
    let finalEnd :=
      if wasMultiDay && isNowSingleDay && finalEnd1 ≤ finalStart then
        setMinutes (setHours finalEnd1 23) 59
      else finalEnd1
    let startIncludeTime := sf.hasTime || (startHasTime && !isDefaultDropTime newStart)
    let endIncludeTime := df.hasTime || (endHasTime && !isDefaultDropTime newEnd)
    mapSet
      (mapSet seeded .Start (formatDate .Start finalStart sf.format startIncludeTime))
      .Due (formatDate .Due finalEnd df.format endIncludeTime)
  | _, _ =>
    match task.allDates.find? (fun d => d.type == task.dateType) with
    | some primaryDateField =>
      let includeTime := startHasTime || primaryDateField.hasTime
      mapSet seeded primaryDateField.type
        (formatDate primaryDateField.type newStart primaryDateField.format includeTime)
    | none =>
      -- `task.dateType || DateFieldType.Due`: every enum value is a non-empty
      -- string, so the fallback can never fire.
      mapSet seeded task.dateType (formatDate task.dateType newStart .tasks startHasTime)

/-- The `dateUpdates` map as `handleEventResize` hands it to `reconstructLine`. -/
def resizeDateUpdates (task : TaskLine) (newStart newEnd : Int) : DateUpdateMap :=
  let seeded := task.allDates.foldl
    (fun m d => mapSet m d.type (formatDate d.type d.date d.format d.hasTime)) emptyUpdates
  let startHasTime := mHours newStart ≠ 0 || mMinutes newStart ≠ 0
  let endHasTime := mHours newEnd ≠ 0 || mMinutes newEnd ≠ 0
  let startField := taskStartField task
  let dueField := taskDueField task
  let primaryField := task.allDates.find? (fun d => d.type == task.dateType)
  let newEndMoment := normalizeAllDayEnd newStart newEnd task startField dueField
  let isMultiDay := !(fmtYmd newStart == fmtYmd newEndMoment)
  let wasMultiDay :=
    match startField, dueField with
    | some sf, some df => !(mDayIdx sf.date == mDayIdx df.date)
    | _, _ => false
  let isNowSingleDay := fmtYmd newStart == fmtYmd newEndMoment
  let adjusted :=
    match startField, dueField with
    | some sf, some df =>
      if wasMultiDay && isNowSingleDay then
        let fs :=
          if sf.hasTime && isDefaultDropTime newStart then
            setMinutes (setHours newStart (mHours sf.date)) (mMinutes sf.date)
          else newStart
        let fe :=
          if df.hasTime && isDefaultDropTime newEnd then
            setMinutes (setHours newEndMoment (mHours df.date)) (mMinutes df.date)
          else newEndMoment
        if fe ≤ fs then (fs, setMinutes (setHours fe 23) 59) else (fs, fe)
      else (newStart, newEndMoment)
    | _, _ => (newStart, newEndMoment)
  let finalStart := adjusted.1
  let finalEnd := adjusted.2
  let m1 :=
    match startField with
    | some sf =>
      mapSet seeded .Start (formatDate .Start finalStart sf.format
        (sf.hasTime || (startHasTime && !isDefaultDropTime newStart)))
    | none => seeded
  let m2 :=
    match dueField with
    | some df =>
      mapSet m1 .Due (formatDate .Due finalEnd df.format
        (df.hasTime || (endHasTime && !isDefaultDropTime newEnd)))
    | none => m1
  if isMultiDay || (startHasTime && endHasTime) then
    let m3 :=
      match startField with
      | some _ => m2
      | none => mapSet m2 .Start (formatDate .Start finalStart .tasks startHasTime)
    match dueField with
    | some _ => m3
    | none => mapSet m3 .Due (formatDate .Due finalEnd .tasks endHasTime)
  else
    match startField, dueField, primaryField with
    | none, none, some p =>
      mapSet m2 p.type (formatDate p.type finalStart p.format (startHasTime || p.hasTime))
    | _, _, _ => m2

/-! ## Claim C4: stripDates behavior -/

/-- Helper: the high-to-low removal loop of `stripDates` is the right fold
over the position-sorted field list. -/
theorem stripDates_foldr (line : List Char) :
    stripDates line =
      if extractAllDates line = [] then line
      else
        trimJs (collapseWs ((extractAllDates line).foldr
          (fun d r => r.take d.start ++ r.drop d.stop) line)) := by
  unfold stripDates
  rcases h : extractAllDates line with _ | ⟨d, ds⟩
  · simp [h]
  · simp [h, List.foldl_reverse]

/-- C4: `stripDates` returns the line untouched (original whitespace intact)
when no date field is found; otherwise it removes each matched span working
from the highest `start` to the lowest, collapses whitespace runs to single
spaces, and trims both ends. -/
theorem claim_C4_stripDates (line : List Char) :
    stripDates line =
      if extractAllDates line = [] then line
      else
        trimJs (collapseWs ((extractAllDates line).foldr
          (fun d r => r.take d.start ++ r.drop d.stop) line)) :=
  stripDates_foldr line

/-! ## Claim C5: canonical-order line reconstruction -/

/-- Helper: one pass of the reconstruction fold appends, for each type of the
order list that the map carries (with a non-empty value), a space plus that
string, after the accumulator. -/
theorem reconstruct_foldl (m : DateUpdateMap) (hne : ∀ t, m t ≠ some []) :
    ∀ (order : List DateFieldType) (acc : List Char),
      order.foldl
        (fun result type =>
          match m type with
          | some formatted => if formatted.isEmpty then result else result ++ ' ' :: formatted
          | none => result) acc =
      acc ++ ((order.filterMap m).map (fun s => ' ' :: s)).flatten := by
  intro order
  induction order with
  | nil => intro acc; simp
  | cons t ts ih =>
    intro acc
    rw [List.foldl_cons]
    rcases h : m t with _ | s
    · simp only [h, List.filterMap_cons]
      exact ih acc
    · rcases s with _ | ⟨c, cs⟩
      · exact absurd h (hne t)
      · simp only [h, List.filterMap_cons, List.isEmpty_cons]
        rw [if_neg (by simp), ih]
        simp

/-- C5: `reconstructLine` appends exactly the strings present in the update
map, in the fixed canonical order Start, Scheduled, Due, Created, Done,
Cancelled (regardless of any original in-line order — the map carries no
order), to the end-trimmed base line; absent types contribute nothing.
Update maps built from `formatDate` never carry the empty string. -/
theorem claim_C5_reconstructLine (baseLine : List Char) (m : DateUpdateMap)
    (hne : ∀ t, m t ≠ some []) :
    reconstructLine baseLine m =
      trimEndJs baseLine ++
        ((([DateFieldType.Start, DateFieldType.Scheduled, DateFieldType.Due,
            DateFieldType.Created, DateFieldType.Done, DateFieldType.Cancelled].filterMap m).map
          (fun s => ' ' :: s)).flatten) := by
  unfold reconstructLine
  exact reconstruct_foldl m hne _ _

/-- C5 witness: a concrete map carrying `Due` and `Start` reconstructs with
`Start` first, then `Due`, appended to the trimmed base. -/
theorem claim_C5_witness :
    reconstructLine "- [ ] task ".toList
        (fun t => if t = .Due then some "D".toList
                  else if t = .Start then some "S".toList else none) =
      trimEndJs "- [ ] task ".toList ++
        ((([DateFieldType.Start, DateFieldType.Scheduled, DateFieldType.Due,
            DateFieldType.Created, DateFieldType.Done, DateFieldType.Cancelled].filterMap
            (fun t => if t = .Due then some "D".toList
                      else if t = .Start then some "S".toList else none)).map
          (fun s => ' ' :: s)).flatten) :=
  claim_C5_reconstructLine _ _ (by decide)

/-! ## Claim C6: primary-date resolution -/

/-- Resolver described by the specification: empty extraction gives "no
date"; otherwise the first extracted field whose type matches the earliest
present priority entry, falling back to the first field by position. -/
def primaryDateSpec (fields : List ParsedDateField) (prio : List DateFieldType) :
    Option ParsedDateField :=
  match fields with
  | [] => none
  | f :: _ =>
    match (prio.filterMap (fun t => fields.find? (fun d => d.type == t))).head? with
    | some g => some g
    | none => some f

/-- Helper: the priority loop returns the first successful find. -/
theorem findByPriority_eq (prio : List DateFieldType) (all : List ParsedDateField) :
    findByPriority prio all =
      (prio.filterMap (fun t => all.find? (fun d => d.type == t))).head? := by
  induction prio with
  | nil => rfl
  | cons t ts ih =>
    unfold findByPriority
    rcases h : all.find? (fun d => d.type == t) with _ | f
    · simp [h, List.filterMap_cons, ih]
    · simp [h, List.filterMap_cons]

/-- C6: `getPrimaryDate` is `null` exactly on empty extraction, otherwise
returns the first extracted field of the earliest present priority type,
and falls back to the first field by position (in particular for an empty
priority list); the default priority order is Due, Scheduled, Start,
Created, Done, Cancelled. -/
theorem claim_C6_getPrimaryDate (line : List Char) (prio : List DateFieldType)
    (fil : Option DateFormatType) :
    getPrimaryDate line prio fil = primaryDateSpec (extractAllDates line fil) prio ∧
    defaultPriority = [DateFieldType.Due, DateFieldType.Scheduled, DateFieldType.Start,
      DateFieldType.Created, DateFieldType.Done, DateFieldType.Cancelled] := by
  refine ⟨?_, rfl⟩
  unfold getPrimaryDate primaryDateSpec
  rcases h : extractAllDates line fil with _ | ⟨f, fs⟩
  · simp [h]
  · simp only [h, List.length_cons]
    rw [if_neg (by simp), findByPriority_eq]
    rcases hp : ((prio.filterMap (fun t => (f :: fs).find? (fun d => d.type == t))).head?) with _ | g
    · simp
    · simp

/-! ## Claim C9: drag moves preserve the Start-to-Due duration -/

/-- C9: when both a `Start` and a `Due` field are parsed on the task, the new
due moment is the old due plus the delta between the new start and the old
start (computed in milliseconds, exact on whole-minute moments), and the
result does not depend on the calendar-reported end position at all. -/
theorem claim_C9_dropDelta (task : TaskLine) (ns ne₁ ne₂ : Int)
    (sf df : ParsedDateField)
    (hs : taskStartField task = some sf) (hd : taskDueField task = some df) :
    dropNewEndMoment task ns ne₁ = df.date + (ns - sf.date) ∧
    dropNewEndMoment task ns ne₁ = dropNewEndMoment task ns ne₂ := by
  unfold dropNewEndMoment
  rw [hs, hd]
  refine ⟨?_, rfl⟩
  simp only []
  rw [Int.mul_ediv_cancel _ (by norm_num : (60000 : Int) ≠ 0)]

/-- Concrete two-field task used by witnesses. -/
def wTask : TaskLine :=
  { date := momentOfYmd 2025 1 12
    dateType := .Due
    allDates :=
      [{ type := .Start, date := momentOfYmd 2025 1 10, raw := "🛫 2025-01-10".toList,
         start := 0, stop := 12, format := .tasks, hasTime := false },
       { type := .Scheduled, date := momentOfYmd 2025 1 11, raw := "⏳ 2025-01-11".toList,
         start := 13, stop := 25, format := .tasks, hasTime := false },
       { type := .Due, date := momentOfYmd 2025 1 12, raw := "📅 2025-01-12".toList,
         start := 26, stop := 38, format := .tasks, hasTime := false }]
    hasTime := false
    isKanban := false }

/-- C9 witness: on a concrete Start+Due task the dropped end is the old due
shifted by the start delta, independent of the reported end. -/
theorem claim_C9_witness :
    dropNewEndMoment wTask (momentOfYmd 2025 2 1) (momentOfYmd 2025 2 7) =
      momentOfYmd 2025 1 12 + (momentOfYmd 2025 2 1 - momentOfYmd 2025 1 10) ∧
    dropNewEndMoment wTask (momentOfYmd 2025 2 1) (momentOfYmd 2025 2 7) =
      dropNewEndMoment wTask (momentOfYmd 2025 2 1) 0 :=
  claim_C9_dropDelta wTask (momentOfYmd 2025 2 1) (momentOfYmd 2025 2 7) 0
    { type := .Start, date := momentOfYmd 2025 1 10, raw := "🛫 2025-01-10".toList,
      start := 0, stop := 12, format := .tasks, hasTime := false }
    { type := .Due, date := momentOfYmd 2025 1 12, raw := "📅 2025-01-12".toList,
      start := 26, stop := 38, format := .tasks, hasTime := false }
    (by decide) (by decide)

/-! ## Claim C10: reschedules carry forward all parsed date fields -/

/-- Updating a key other than `t` leaves `t`'s entry unchanged. -/
theorem mapSet_ne {m : DateUpdateMap} {k t : DateFieldType} {v : List Char}
    (h : t ≠ k) : mapSet m k v t = m t := by
  simp [mapSet, h]

/-- Updating any key preserves definedness of every defined entry. -/
theorem mapSet_isSome {m : DateUpdateMap} {k t : DateFieldType} {v : List Char}
    (h : (m t).isSome) : ((mapSet m k v) t).isSome := by
  by_cases hk : t = k <;> simp [mapSet, hk, h]

/-- The seeding fold keeps, for each type, the formatted text of the last
parsed field of that type (later fields overwrite earlier ones in the map). -/
theorem seeded_foldl (l : List ParsedDateField) (m0 : DateUpdateMap) (t : DateFieldType) :
    (l.foldl (fun m d => mapSet m d.type (formatDate d.type d.date d.format d.hasTime)) m0) t =
      match l.reverse.find? (fun d => d.type == t) with
      | some d => some (formatDate d.type d.date d.format d.hasTime)
      | none => m0 t := by
  induction l generalizing m0 with
  | nil => rfl
  | cons d ds ih =>
    rw [List.foldl_cons, ih, List.reverse_cons, List.find?_append]
    rcases h : ds.reverse.find? (fun x => x.type == t) with _ | g
    · by_cases hdt : d.type = t
      · simp [h, List.find?, hdt, mapSet, Option.or]
      · simp [h, List.find?, mapSet, Option.or,
          show (d.type == t) = false from beq_eq_false_iff_ne.mpr hdt,
          show ¬(t = d.type) from fun hh => hdt hh.symm]
    · simp [h, Option.or]

/-- Helper for C10: `handleEventDrop` keeps the seeded formatted entry for
every type it does not overwrite. -/
theorem dropPreserved (task : TaskLine) (ns ne : Int) (t : DateFieldType)
    (f : ParsedDateField)
    (hf : task.allDates.reverse.find? (fun d => d.type == t) = some f)
    (hcond : match taskStartField task, taskDueField task with
             | some _, some _ => t ≠ .Start ∧ t ≠ .Due
             | _, _ => t ≠ task.dateType) :
    dropDateUpdates task ns ne t = some (formatDate f.type f.date f.format f.hasTime) := by
  have hseed : (task.allDates.foldl
      (fun m d => mapSet m d.type (formatDate d.type d.date d.format d.hasTime)) emptyUpdates) t =
      some (formatDate f.type f.date f.format f.hasTime) := by
    rw [seeded_foldl]; simp [hf]
  unfold dropDateUpdates
  rcases hs : taskStartField task with _ | sf <;> rcases hd : taskDueField task with _ | df <;>
    simp only [hs, hd] at hcond ⊢
  · rcases hp : task.allDates.find? (fun d => d.type == task.dateType) with _ | p
    · simp [hp, mapSet, hcond, hseed]
    · have hpe : p.type = task.dateType := by
        simpa [beq_iff_eq] using List.find?_some hp
      simp [hp, mapSet, hpe, hcond, hseed]
  · rcases hp : task.allDates.find? (fun d => d.type == task.dateType) with _ | p
    · simp [hp, mapSet, hcond, hseed]
    · have hpe : p.type = task.dateType := by
        simpa [beq_iff_eq] using List.find?_some hp
      simp [hp, mapSet, hpe, hcond, hseed]
  · rcases hp : task.allDates.find? (fun d => d.type == task.dateType) with _ | p
    · simp [hp, mapSet, hcond, hseed]
    · have hpe : p.type = task.dateType := by
        simpa [beq_iff_eq] using List.find?_some hp
      simp [hp, mapSet, hpe, hcond, hseed]
  · simp [mapSet, hcond.1, hcond.2, hseed]

/-- Helper for C10: `handleEventResize` keeps the seeded formatted entry for
every type outside `Start`, `Due` and the primary type. -/
theorem resizePreserved (task : TaskLine) (ns ne : Int) (t : DateFieldType)
    (f : ParsedDateField)
    (hf : task.allDates.reverse.find? (fun d => d.type == t) = some f)
    (ht1 : t ≠ .Start) (ht2 : t ≠ .Due) (ht3 : t ≠ task.dateType) :
    resizeDateUpdates task ns ne t = some (formatDate f.type f.date f.format f.hasTime) := by
  have hseed : (task.allDates.foldl
      (fun m d => mapSet m d.type (formatDate d.type d.date d.format d.hasTime)) emptyUpdates) t =
      some (formatDate f.type f.date f.format f.hasTime) := by
    rw [seeded_foldl]; simp [hf]
  unfold resizeDateUpdates
  rcases hs : taskStartField task with _ | sf <;> rcases hd : taskDueField task with _ | df <;>
    simp only [hs, hd]
  · rcases hp : task.allDates.find? (fun d => d.type == task.dateType) with _ | p
    · split <;> simp [hp, mapSet, ht1, ht2, hseed]
    · have hpe : p.type = task.dateType := by
        simpa [beq_iff_eq] using List.find?_some hp
      split <;> simp [hp, mapSet, ht1, ht2, ht3, hpe, hseed]
  · split <;> simp [mapSet, ht1, ht2, hseed]
  · split <;> simp [mapSet, ht1, ht2, hseed]
  · split <;> simp [mapSet, ht1, ht2, hseed]

/-- Helper for C10: both update maps are defined on every type that has a
parsed field on the task line. -/
theorem updatesSeedDefined (task : TaskLine) (ns ne : Int) (u : DateFieldType)
    (hu : ∃ g ∈ task.allDates, g.type = u) :
    (dropDateUpdates task ns ne u).isSome ∧ (resizeDateUpdates task ns ne u).isSome := by
  have hsome : ((task.allDates.foldl
      (fun m d => mapSet m d.type (formatDate d.type d.date d.format d.hasTime)) emptyUpdates) u).isSome := by
    rw [seeded_foldl]
    obtain ⟨g, hg, hgu⟩ := hu
    have hx : (task.allDates.reverse.find? (fun d => d.type == u)).isSome := by
      rw [List.find?_isSome]
      exact ⟨g, by simpa using hg, by simp [hgu]⟩
    rcases hr : task.allDates.reverse.find? (fun d => d.type == u) with _ | g2
    · rw [hr] at hx; simp at hx
    · rw [hr]; simp
  constructor
  · unfold dropDateUpdates
    rcases hs : taskStartField task with _ | sf <;> rcases hd : taskDueField task with _ | df <;>
      simp only [hs, hd] <;>
      try (rcases hp : task.allDates.find? (fun d => d.type == task.dateType) with _ | p <;>
        simp only [hp])
    all_goals
      first
        | exact hsome
        | exact mapSet_isSome hsome
        | exact mapSet_isSome (mapSet_isSome hsome)
  · unfold resizeDateUpdates
    rcases hs : taskStartField task with _ | sf <;> rcases hd : taskDueField task with _ | df <;>
      simp only [hs, hd] <;>
      try (rcases hp : task.allDates.find? (fun d => d.type == task.dateType) with _ | p <;>
        simp only [hp])
    all_goals split
    all_goals
      first
        | exact hsome
        | exact mapSet_isSome hsome
        | exact mapSet_isSome (mapSet_isSome hsome)

/-- C10: both reschedule handlers seed the update map with a formatted entry
for every parsed field before applying the new values, so (a) a type not
being rescheduled keeps exactly its original field's formatted text (the
last field of that type when duplicated), and (b) every type present on the
line is defined in the final map and hence reappears in the reconstructed
line. -/
theorem claim_C10_carryForward (task : TaskLine) (ns ne : Int) (t : DateFieldType)
    (f : ParsedDateField)
    (hf : task.allDates.reverse.find? (fun d => d.type == t) = some f) :
    ((match taskStartField task, taskDueField task with
      | some _, some _ => t ≠ .Start ∧ t ≠ .Due
      | _, _ => t ≠ task.dateType) →
        dropDateUpdates task ns ne t = some (formatDate f.type f.date f.format f.hasTime)) ∧
    (t ≠ .Start → t ≠ .Due → t ≠ task.dateType →
        resizeDateUpdates task ns ne t = some (formatDate f.type f.date f.format f.hasTime)) ∧
    (∀ u : DateFieldType, (∃ g ∈ task.allDates, g.type = u) →
        (dropDateUpdates task ns ne u).isSome ∧ (resizeDateUpdates task ns ne u).isSome) :=
  ⟨fun hcond => dropPreserved task ns ne t f hf hcond,
   fun h1 h2 h3 => resizePreserved task ns ne t f hf h1 h2 h3,
   fun u hu => updatesSeedDefined task ns ne u hu⟩

/-- C10 witness: on a concrete Start+Scheduled+Due task, the `Scheduled`
entry survives both handlers verbatim, and all three types stay defined. -/
theorem claim_C10_witness :
    dropDateUpdates wTask (momentOfYmd 2025 2 1) (momentOfYmd 2025 2 7) .Scheduled =
      some (formatDate .Scheduled (momentOfYmd 2025 1 11) .tasks false) ∧
    resizeDateUpdates wTask (momentOfYmd 2025 2 1) (momentOfYmd 2025 2 7) .Scheduled =
      some (formatDate .Scheduled (momentOfYmd 2025 1 11) .tasks false) ∧
    (dropDateUpdates wTask (momentOfYmd 2025 2 1) (momentOfYmd 2025 2 7) .Due).isSome :=
  ⟨(claim_C10_carryForward wTask (momentOfYmd 2025 2 1) (momentOfYmd 2025 2 7) .Scheduled
      { type := .Scheduled, date := momentOfYmd 2025 1 11, raw := "⏳ 2025-01-11".toList,
        start := 13, stop := 25, format := .tasks, hasTime := false }
      (by decide)).1 (show DateFieldType.Scheduled ≠ DateFieldType.Start ∧
        DateFieldType.Scheduled ≠ DateFieldType.Due by exact ⟨by decide, by decide⟩),
   (claim_C10_carryForward wTask (momentOfYmd 2025 2 1) (momentOfYmd 2025 2 7) .Scheduled
      { type := .Scheduled, date := momentOfYmd 2025 1 11, raw := "⏳ 2025-01-11".toList,
        start := 13, stop := 25, format := .tasks, hasTime := false }
      (by decide)).2.1 (by decide) (by decide) (by decide),
   ((claim_C10_carryForward wTask (momentOfYmd 2025 2 1) (momentOfYmd 2025 2 7) .Scheduled
      { type := .Scheduled, date := momentOfYmd 2025 1 11, raw := "⏳ 2025-01-11".toList,
        start := 13, stop := 25, format := .tasks, hasTime := false }
      (by decide)).2.2 .Due (by decide)).1⟩

/-! ## Claim C3: task-to-event projection -/

/-- Setting the clock of a moment to 23:59 lands on minute 1439 of its own day. -/
theorem setClock2359 (m : Int) :
    setMinutes (setHours m 23) 59 = 1440 * (m / 1440) + 1439 := by
  simp only [setMinutes, setHours, mClock]
  omega

/-- The projection's case analysis exactly as the specification states it:
Kanban-with-time gets a 30-minute block; a Start+Due pair is used directly
(date-time form when either side carries a time, the end defaulting to
23:59 of its day only when Due has no time of its own); a single Start or
Due gives a point or a 30-minute block; a timed primary date gives a
30-minute block; otherwise a date-only all-day point. -/
def eventTimesSpec (task : TaskLine) : List Char × List Char :=
  if task.isKanban && task.hasTime then
    (fmtYmdHm task.date, fmtYmdHm (task.date + 30))
  else
    match taskStartField task, taskDueField task with
    | some sf, some df =>
      if sf.hasTime || df.hasTime then
        (fmtYmdHm sf.date,
         fmtYmdHm (if df.hasTime then df.date else 1440 * (df.date / 1440) + 1439))
      else (fmtYmd sf.date, fmtYmd df.date)
    | some sf, none =>
      if sf.hasTime then (fmtYmdHm sf.date, fmtYmdHm (sf.date + 30))
      else (fmtYmd sf.date, fmtYmd sf.date)
    | none, some df =>
      if df.hasTime then (fmtYmdHm df.date, fmtYmdHm (df.date + 30))
      else (fmtYmd df.date, fmtYmd df.date)
    | none, none =>
      if task.hasTime then (fmtYmdHm task.date, fmtYmdHm (task.date + 30))
      else (fmtYmd task.date, fmtYmd task.date)

/-- C3: the calendar projection of `updateCalendarEvents` follows the
specified case analysis exactly, for every task. -/
theorem claim_C3_eventTimes (task : TaskLine) : eventTimes task = eventTimesSpec task := by
  unfold eventTimes eventTimesSpec
  cases hk : (task.isKanban && task.hasTime) with
  | true => simp
  | false =>
    simp only [Bool.false_eq_true, if_false]
    rcases taskStartField task with _ | sf <;> rcases taskDueField task with _ | df
    · simp
    · simp
    · simp
    · cases hdf : df.hasTime <;> simp [hdf, setClock2359]

/-! ## Claim C1: ordering, stability and non-overlap of extraction -/

/-- Membership through stable insertion. -/
theorem insertByStart_mem (f a : ParsedDateField) (l : List ParsedDateField) :
    a ∈ insertByStart f l ↔ a = f ∨ a ∈ l := by
  induction l with
  | nil => simp [insertByStart]
  | cons g gs ih =>
    unfold insertByStart
    split
    · simp
    · simp [ih]
      tauto

/-- Membership through the stable sort. -/
theorem sortByStart_mem (a : ParsedDateField) (l : List ParsedDateField) :
    a ∈ sortByStart l ↔ a ∈ l := by
  induction l with
  | nil => simp [sortByStart]
  | cons g gs ih =>
    unfold sortByStart at ih ⊢
    rw [List.foldr_cons, insertByStart_mem]
    simp [ih]

/-- Stable insertion preserves sortedness by `start`. -/
theorem insertByStart_sorted (f : ParsedDateField) (l : List ParsedDateField)
    (h : l.Pairwise (fun a b => a.start ≤ b.start)) :
    (insertByStart f l).Pairwise (fun a b => a.start ≤ b.start) := by
  induction l with
  | nil => simp [insertByStart]
  | cons g gs ih =>
    unfold insertByStart
    rcases List.pairwise_cons.mp h with ⟨hg, hgs⟩
    split
    · rename_i hle
      refine List.pairwise_cons.mpr ⟨?_, h⟩
      intro b hb
      rcases List.mem_cons.mp hb with rfl | hb
      · exact hle
      · exact Nat.le_trans hle (hg b hb)
    · rename_i hgt
      refine List.pairwise_cons.mpr ⟨?_, ih hgs⟩
      intro b hb
      rcases (insertByStart_mem f b gs).mp hb with rfl | hb
      · exact Nat.le_of_not_le hgt
      · exact hg b hb

/-- The modelled `Array.prototype.sort` really sorts by ascending `start`. -/
theorem sortByStart_sorted (l : List ParsedDateField) :
    (sortByStart l).Pairwise (fun a b => a.start ≤ b.start) := by
  induction l with
  | nil => simp [sortByStart]
  | cons g gs ih =>
    unfold sortByStart at ih ⊢
    rw [List.foldr_cons]
    exact insertByStart_sorted g _ ih

/-- Stability of the insertion: fields with any fixed `start` keep their
original relative order. -/
theorem insertByStart_filter (f : ParsedDateField) (l : List ParsedDateField) (k : Nat) :
    (insertByStart f l).filter (fun x => x.start == k) =
      (if f.start = k then [f] else []) ++ l.filter (fun x => x.start == k) := by
  induction l with
  | nil =>
    by_cases hf : f.start = k <;>
      simp [insertByStart, List.filter_cons, beq_iff_eq, hf]
  | cons g gs ih =>
    unfold insertByStart
    split
    · rename_i hle
      by_cases hf : f.start = k <;> simp [List.filter_cons, beq_iff_eq, hf]
    · rename_i hgt
      by_cases hf : f.start = k
      · have hgk : ¬(g.start = k) := by omega
        simp [List.filter_cons, beq_iff_eq, hf, hgk, ih]
      · by_cases hgk : g.start = k <;> simp [List.filter_cons, beq_iff_eq, hf, hgk, ih]

/-- Stability of the modelled sort, phrased as filter preservation. -/
theorem sortByStart_stable (l : List ParsedDateField) (k : Nat) :
    (sortByStart l).filter (fun x => x.start == k) = l.filter (fun x => x.start == k) := by
  induction l with
  | nil => rfl
  | cons g gs ih =>
    unfold sortByStart at ih ⊢
    rw [List.foldr_cons, insertByStart_filter]
    by_cases hg : g.start = k <;> simp [List.filter_cons, beq_iff_eq, hg, ih]

/-- Members of the greedy walk come from its input. -/
theorem dropOverlapsAux_subset (l : List ParsedDateField) :
    ∀ (opt : Option ParsedDateField) (a : ParsedDateField),
      a ∈ dropOverlapsAux opt l → a ∈ l := by
  induction l with
  | nil => intro opt a h; simp [dropOverlapsAux] at h
  | cons d ds ih =>
    intro opt a h
    rcases opt with _ | last
    · rcases List.mem_cons.mp h with rfl | h
      · exact List.mem_cons_self _ _
      · exact List.mem_cons_of_mem _ (ih _ _ h)
    · unfold dropOverlapsAux at h
      split at h
      · rcases List.mem_cons.mp h with rfl | h
        · exact List.mem_cons_self _ _
        · exact List.mem_cons_of_mem _ (ih _ _ h)
      · exact List.mem_cons_of_mem _ (ih _ _ h)

/-- Every field the greedy walk keeps (under a last-kept bound) starts at or
after the bound's `end`, given the input is position-sorted and spans are
well-formed. -/
theorem dropOverlapsAux_lb (l : List ParsedDateField)
    (hwf : ∀ f ∈ l, f.start ≤ f.stop) :
    ∀ (last : ParsedDateField) (a : ParsedDateField),
      a ∈ dropOverlapsAux (some last) l → last.stop ≤ a.start := by
  induction l with
  | nil => intro last a h; simp [dropOverlapsAux] at h
  | cons d ds ih =>
    intro last a h
    have hwf' : ∀ f ∈ ds, f.start ≤ f.stop := fun f hf => hwf f (List.mem_cons_of_mem _ hf)
    unfold dropOverlapsAux at h
    split at h
    · rename_i hle
      rcases List.mem_cons.mp h with rfl | h
      · exact hle
      · have hd := ih hwf' d a h
        have hdwf := hwf d (List.mem_cons_self _ _)
        omega
    · exact ih hwf' last a h

/-- The greedy walk produces pairwise non-overlapping spans (each field ends
at or before the next one starts), for well-formed inputs. -/
theorem dropOverlapsAux_pairwise (l : List ParsedDateField)
    (hwf : ∀ f ∈ l, f.start ≤ f.stop) :
    ∀ (opt : Option ParsedDateField),
      (dropOverlapsAux opt l).Pairwise (fun a b => a.stop ≤ b.start) := by
  induction l with
  | nil => intro opt; cases opt <;> simp [dropOverlapsAux]
  | cons d ds ih =>
    intro opt
    have hwf' : ∀ f ∈ ds, f.start ≤ f.stop := fun f hf => hwf f (List.mem_cons_of_mem _ hf)
    rcases opt with _ | last
    · refine List.pairwise_cons.mpr ⟨?_, ih hwf' (some d)⟩
      intro b hb
      exact dropOverlapsAux_lb ds hwf' d b hb
    · unfold dropOverlapsAux
      split
      · refine List.pairwise_cons.mpr ⟨?_, ih hwf' (some d)⟩
        intro b hb
        exact dropOverlapsAux_lb ds hwf' d b hb
      · exact ih hwf' (some last)

/-! ## Per-grammar field invariants -/

/-- An ASCII digit's value is at most 9. -/
theorem digitVal_le (c : Char) (h : isDigitCh c = true) : digitVal c ≤ 9 := by
  simp only [isDigitCh, Bool.and_eq_true, decide_eq_true_eq] at h
  unfold digitVal
  omega

/-- The clock setters applied to a midnight moment add the (possibly
overflowing, moment-style bubbled) hour and minute values. -/
theorem setClock_from_midnight (D h mi : Nat) :
    setMinutes (setHours (1440 * (D : Int)) h) mi = 1440 * (D : Int) + 60 * (h : Int) + (mi : Int) := by
  simp only [setMinutes, setHours, mClock]
  omega

/-- Same statement phrased on `momentOfYmd`. -/
theorem setClock_momentOfYmd (y mo d h mi : Nat) :
    setMinutes (setHours (momentOfYmd y mo d) h) mi =
      momentOfYmd y mo d + 60 * (h : Int) + (mi : Int) :=
  setClock_from_midnight (daysOfYmd y mo d) h mi

/-- Hour/minute captures of the time regex stay within two digits. -/
theorem matchTime_bounds {s : List Char} {tl h mi : Nat}
    (hm : matchTime s = some (tl, h, mi)) : h ≤ 99 ∧ mi ≤ 99 := by
  unfold matchTime at hm
  split at hm
  · rename_i c1 c2 c3 c4 c5 r
    split at hm
    · rename_i hc
      simp only [Bool.and_eq_true, decide_eq_true_eq] at hc
      obtain ⟨⟨⟨⟨h1, h2⟩, -⟩, h4⟩, h5⟩ := hc
      simp only [Option.some.injEq, Prod.mk.injEq] at hm
      obtain ⟨-, hh, hmi⟩ := hm
      subst hh; subst hmi
      have := digitVal_le _ h1
      have := digitVal_le _ h2
      have := digitVal_le _ h4
      have := digitVal_le _ h5
      omega
    · split at hm
      · rename_i hc
        simp only [Bool.and_eq_true, decide_eq_true_eq] at hc
        obtain ⟨⟨⟨h1, -⟩, h3⟩, h4⟩ := hc
        simp only [Option.some.injEq, Prod.mk.injEq] at hm
        obtain ⟨-, hh, hmi⟩ := hm
        subst hh; subst hmi
        have := digitVal_le _ h1
        have := digitVal_le _ h3
        have := digitVal_le _ h4
        omega
      · exact absurd hm (by simp)
  · rename_i c1 c2 c3 c4
    split at hm
    · rename_i hc
      simp only [Bool.and_eq_true, decide_eq_true_eq] at hc
      obtain ⟨⟨⟨h1, -⟩, h3⟩, h4⟩ := hc
      simp only [Option.some.injEq, Prod.mk.injEq] at hm
      obtain ⟨-, hh, hmi⟩ := hm
      subst hh; subst hmi
      have := digitVal_le _ h1
      have := digitVal_le _ h3
      have := digitVal_le _ h4
      omega
    · exact absurd hm (by simp)
  · exact absurd hm (by simp)

/-- The time-suffix group only ever yields two-digit-bounded captures. -/
theorem matchEmojiTimeSuffix_bounds {s : List Char} {tl h mi : Nat}
    (hm : matchEmojiTimeSuffix s = some (tl, h, mi)) : h ≤ 99 ∧ mi ≤ 99 := by
  simp only [matchEmojiTimeSuffix] at hm
  split at hm
  · split at hm
    · rename_i hmt
      simp only [Option.some.injEq, Prod.mk.injEq] at hm
      obtain ⟨-, hh, hmi⟩ := hm
      subst hh; subst hmi
      exact matchTime_bounds hmt
    · exact absurd hm (by simp)
  · exact absurd hm (by simp)

/-- Facts delivered by a successful emoji-pattern match: positive consumed
length and two-digit-bounded time captures. -/
theorem matchEmojiAt_some {syms s : List Char} {len y mo d : Nat} {topt : Option (Nat × Nat)}
    (hm : matchEmojiAt syms s = some (len, (y, mo, d), topt)) :
    1 ≤ len ∧ (∀ h mi, topt = some (h, mi) → h ≤ 99 ∧ mi ≤ 99) := by
  simp only [matchEmojiAt] at hm
  split at hm
  · exact absurd hm (by simp)
  · split at hm
    · split at hm
      · exact absurd hm (by simp)
      · split at hm
        · rename_i hts
          simp only [Option.some.injEq, Prod.mk.injEq] at hm
          obtain ⟨hlen, -, htopt⟩ := hm
          subst hlen; subst htopt
          exact ⟨by omega, fun h mi hh => by
            cases hh
            exact matchEmojiTimeSuffix_bounds hts⟩
        · simp only [Option.some.injEq, Prod.mk.injEq] at hm
          obtain ⟨hlen, -, htopt⟩ := hm
          subst hlen; subst htopt
          exact ⟨by omega, fun h mi hh => by cases hh⟩
    · exact absurd hm (by simp)

/-- A successful `moment(dateStr)` construction means the literal was valid
and the moment is its midnight. -/
theorem momentOfValid_some {y mo d : Nat} {m : Int} (h : momentOfValid y mo d = some m) :
    validYmdB y mo d = true ∧ m = momentOfYmd y mo d := by
  unfold momentOfValid at h
  split at h
  · refine ⟨by assumption, ?_⟩
    injection h with h
    exact h.symm
  · exact absurd h (by simp)

/-- Invariant of every field the emoji grammar produces: tasks format, the
pattern's own type, a well-formed span, and a date assembled from a valid
literal plus a two-digit-bounded (possibly overflowing) time. -/
def EmojiInv (tp : DateFieldType) (f : ParsedDateField) : Prop :=
  f.format = .tasks ∧ f.type = tp ∧ f.start ≤ f.stop ∧
  ∃ (y mo d h mi : Nat), validYmdB y mo d = true ∧ h ≤ 99 ∧ mi ≤ 99 ∧
    f.date = momentOfYmd y mo d + 60 * (h : Int) + (mi : Int) ∧
    (f.hasTime = false → h = 0 ∧ mi = 0)

/-- The emoji scan only produces fields satisfying `EmojiInv`. -/
theorem scanEmojiAux_inv (tp : DateFieldType) (syms : List Char) :
    ∀ fuel s i f, f ∈ scanEmojiAux tp syms fuel s i → EmojiInv tp f := by
  intro fuel
  induction fuel with
  | zero => intro s i f h; simp [scanEmojiAux] at h
  | succ n ih =>
    intro s i f h
    cases s with
    | nil => simp [scanEmojiAux] at h
    | cons c rest =>
      simp only [scanEmojiAux] at h
      rcases hm : matchEmojiAt syms (c :: rest) with _ | ⟨len, ⟨y, mo, d⟩, topt⟩ <;>
        simp only [hm] at h
      · exact ih rest (i + 1) f h
      · rcases hv : momentOfValid y mo d with _ | base <;> simp only [hv] at h
        · exact ih _ _ f h
        · obtain ⟨hvalid, hbase⟩ := momentOfValid_some hv
          rcases topt with _ | ⟨hh, hmi⟩
          · rcases List.mem_cons.mp h with rfl | h
            · exact ⟨rfl, rfl, by simp, y, mo, d, 0, 0, hvalid, by omega, by omega,
                by simp [hbase], fun _ => ⟨rfl, rfl⟩⟩
            · exact ih _ _ f h
          · rcases List.mem_cons.mp h with rfl | h
            · obtain ⟨hb1, hb2⟩ := (matchEmojiAt_some hm).2 hh hmi rfl
              refine ⟨rfl, rfl, by simp, y, mo, d, hh, hmi, hvalid, hb1, hb2, ?_,
                fun hfalse => by simp at hfalse⟩
              simp only [hbase, setClock_momentOfYmd]
            · exact ih _ _ f h

/-- All fields of `extractEmojiDates` satisfy the emoji invariant for one of
the six patterns. -/
theorem extractEmojiDates_inv (line : List Char) (f : ParsedDateField)
    (h : f ∈ extractEmojiDates line) :
    ∃ p ∈ EMOJI_DATE_PATTERNS, EmojiInv p.1 f := by
  unfold extractEmojiDates at h
  rw [List.mem_flatten] at h
  obtain ⟨l, hl, hf⟩ := h
  rw [List.mem_map] at hl
  obtain ⟨p, hp, rfl⟩ := hl
  exact ⟨p, hp, scanEmojiAux_inv p.1 p.2 _ _ _ f hf⟩

/-- Invariant of simple-format fields: always `Due`, no time, midnight date. -/
def SimpleInv (f : ParsedDateField) : Prop :=
  f.format = .simple ∧ f.type = .Due ∧ f.hasTime = false ∧ f.start ≤ f.stop ∧
  ∃ (y mo d : Nat), validYmdB y mo d = true ∧ f.date = momentOfYmd y mo d

/-- The simple scan only produces fields satisfying `SimpleInv`. -/
theorem scanSimpleAux_inv :
    ∀ fuel s i f, f ∈ scanSimpleAux fuel s i → SimpleInv f := by
  intro fuel
  induction fuel with
  | zero => intro s i f h; simp [scanSimpleAux] at h
  | succ n ih =>
    intro s i f h
    cases s with
    | nil => simp [scanSimpleAux] at h
    | cons c rest =>
      simp only [scanSimpleAux] at h
      rcases hm : matchSimpleAt (c :: rest) with _ | ⟨len, ⟨y, mo, d⟩⟩ <;>
        simp only [hm] at h
      · exact ih rest (i + 1) f h
      · rcases hv : momentOfValid y mo d with _ | base <;> simp only [hv] at h
        · exact ih _ _ f h
        · obtain ⟨hvalid, hbase⟩ := momentOfValid_some hv
          rcases List.mem_cons.mp h with rfl | h
          · exact ⟨rfl, rfl, rfl, by simp, y, mo, d, hvalid, hbase⟩
          · exact ih _ _ f h

/-- A line-level Kanban time value, as minutes added past midnight. -/
def kanbanTimeAdd : Option (Nat × Nat) → Int
  | some (h, mi) => 60 * (h : Int) + (mi : Int)
  | none => 0

/-- Invariant of Kanban fields: always `Due`, kanban format, `hasTime` set
exactly when a line time exists, and that time applied to every date. -/
def KanbanInv (topt : Option (Nat × Nat)) (f : ParsedDateField) : Prop :=
  f.format = .kanban ∧ f.type = .Due ∧ f.start ≤ f.stop ∧ f.hasTime = topt.isSome ∧
  ∃ (y mo d : Nat), validYmdB y mo d = true ∧
    f.date = momentOfYmd y mo d + kanbanTimeAdd topt

/-- The Kanban date scan only produces fields satisfying `KanbanInv`. -/
theorem scanKanbanAux_inv (topt : Option (Nat × Nat)) :
    ∀ fuel s i f, f ∈ scanKanbanAux topt fuel s i → KanbanInv topt f := by
  intro fuel
  induction fuel with
  | zero => intro s i f h; simp [scanKanbanAux] at h
  | succ n ih =>
    intro s i f h
    cases s with
    | nil => simp [scanKanbanAux] at h
    | cons c rest =>
      simp only [scanKanbanAux] at h
      rcases hm : matchKanbanDateAt (c :: rest) with _ | ⟨y, mo, d⟩ <;>
        simp only [hm] at h
      · exact ih rest (i + 1) f h
      · rcases hv : momentOfValid y mo d with _ | base <;> simp only [hv] at h
        · exact ih _ _ f h
        · obtain ⟨hvalid, hbase⟩ := momentOfValid_some hv
          rcases topt with _ | ⟨hh, hmi⟩
          · rcases List.mem_cons.mp h with rfl | h
            · exact ⟨rfl, rfl, by simp, rfl, y, mo, d, hvalid, by simp [hbase, kanbanTimeAdd]⟩
            · exact ih _ _ f h
          · rcases List.mem_cons.mp h with rfl | h
            · refine ⟨rfl, rfl, by simp, rfl, y, mo, d, hvalid, ?_⟩
              simp only [hbase, setClock_momentOfYmd, kanbanTimeAdd]
              ring
            · exact ih _ _ f h

/-- Bounds on a matched Kanban time token. -/
theorem matchKanbanTimeAt_bounds {s : List Char} {h mi : Nat}
    (hm : matchKanbanTimeAt s = some (h, mi)) : h ≤ 99 ∧ mi ≤ 99 := by
  unfold matchKanbanTimeAt at hm
  split at hm
  · split at hm
    · rename_i hc
      simp only [Bool.and_eq_true, decide_eq_true_eq] at hc
      obtain ⟨⟨⟨⟨⟨h1, h2⟩, -⟩, h4⟩, h5⟩, -⟩ := hc
      simp only [Option.some.injEq, Prod.mk.injEq] at hm
      obtain ⟨hh, hmi⟩ := hm
      subst hh; subst hmi
      have := digitVal_le _ h1
      have := digitVal_le _ h2
      have := digitVal_le _ h4
      have := digitVal_le _ h5
      omega
    · split at hm
      · rename_i hc
        simp only [Bool.and_eq_true, decide_eq_true_eq] at hc
        obtain ⟨⟨⟨⟨h1, -⟩, h3⟩, h4⟩, -⟩ := hc
        simp only [Option.some.injEq, Prod.mk.injEq] at hm
        obtain ⟨hh, hmi⟩ := hm
        subst hh; subst hmi
        have := digitVal_le _ h1
        have := digitVal_le _ h3
        have := digitVal_le _ h4
        omega
      · exact absurd hm (by simp)
  · split at hm
    · rename_i hc
      simp only [Bool.and_eq_true, decide_eq_true_eq] at hc
      obtain ⟨⟨⟨⟨h1, -⟩, h3⟩, h4⟩, -⟩ := hc
      simp only [Option.some.injEq, Prod.mk.injEq] at hm
      obtain ⟨hh, hmi⟩ := hm
      subst hh; subst hmi
      have := digitVal_le _ h1
      have := digitVal_le _ h3
      have := digitVal_le _ h4
      omega
    · exact absurd hm (by simp)
  · exact absurd hm (by simp)

/-- Bounds on the line-level Kanban time. -/
theorem firstKanbanTime_bounds {line : List Char} {h mi : Nat}
    (hm : firstKanbanTime line = some (h, mi)) : h ≤ 99 ∧ mi ≤ 99 := by
  induction line with
  | nil => simp [firstKanbanTime] at hm
  | cons c rest ih =>
    unfold firstKanbanTime at hm
    split at hm
    · rename_i hma
      injection hm with hm
      subst hm
      exact matchKanbanTimeAt_bounds hma
    · exact ih hm

/-- `indexOfAux` never returns an index below its counter. -/
theorem indexOfAux_ge {pat : List Char} :
    ∀ {l : List Char} {i j : Nat}, indexOfAux pat l i = some j → i ≤ j := by
  intro l
  induction l with
  | nil => intro i j h; simp [indexOfAux] at h
  | cons c r ih =>
    intro i j h
    unfold indexOfAux at h
    split at h
    · injection h with h; omega
    · have := ih h; omega

/-- `indexOf` results sit at or after the search start. -/
theorem indexOfFrom_ge {l pat : List Char} {s j : Nat}
    (h : indexOfFrom l pat s = some j) : s ≤ j := by
  unfold indexOfFrom at h
  rcases ha : indexOfAux pat (l.drop s) 0 with _ | k <;> rw [ha] at h <;> simp at h
  omega

/-- The separator of a Dataview key sits after the key start. -/
theorem findDataviewSeparator_ge {line : List Char} {st : Nat} {key : List Char} {vi : Nat}
    (h : findDataviewSeparator line st = some (key, vi)) : st + 2 ≤ vi := by
  unfold findDataviewSeparator at h
  rcases hs : indexOfFrom line [':', ':'] st with _ | sep <;> rw [hs] at h
  · simp at h
  · injection h with h
    have := indexOfFrom_ge hs
    have h2 := congrArg Prod.snd h
    simp at h2
    omega

/-- The closing-bracket walk never returns an index below its counter. -/
theorem fcbAux_ge {openC closeC : Char} :
    ∀ {l : List Char} {i : Nat} {n : Int} {e : Bool} {j : Nat},
      fcbAux openC closeC l i n e = some j → i ≤ j := by
  intro l
  induction l with
  | nil => intro i n e j h; simp [fcbAux] at h
  | cons c r ih =>
    intro i n e j h
    simp only [fcbAux] at h
    repeat' split at h
    all_goals first
      | (injection h with h; omega)
      | (have hij := ih h; omega)

/-- A found closing bracket ends strictly after the value start. -/
theorem findClosingBracket_ge {line : List Char} {st : Nat} {openC closeC : Char}
    {v : List Char} {e : Nat}
    (h : findClosingBracket line st openC closeC = some (v, e)) : st < e := by
  unfold findClosingBracket at h
  rcases hf : fcbAux openC closeC (line.drop st) st 0 false with _ | j <;> rw [hf] at h
  · simp at h
  · injection h with h
    have := fcbAux_ge hf
    have h2 := congrArg Prod.snd h
    simp at h2
    omega

/-- Invariant of Dataview fields: the wrapper's format tag, no time flag,
well-formed span, and a midnight date built from the leading ten-character
literal only. -/
def DvInv (fmt : FieldFormat) (f : ParsedDateField) : Prop :=
  f.format = fmt ∧ f.hasTime = false ∧ f.start ≤ f.stop ∧
  ∃ (y mo d : Nat), validYmdB y mo d = true ∧ f.date = momentOfYmd y mo d

/-- The Dataview wrapper loop only produces fields satisfying `DvInv`. -/
theorem dvLoop_inv (line : List Char) (openC closeC : Char) (fmt : FieldFormat) :
    ∀ fuel si f, f ∈ dvLoop line openC closeC fmt fuel si → DvInv fmt f := by
  intro fuel
  induction fuel with
  | zero => intro si f h; simp [dvLoop] at h
  | succ n ih =>
    intro si f h
    simp only [dvLoop] at h
    split at h
    · rcases hfi : indexOfFrom line [openC] si with _ | foundIndex <;> simp only [hfi] at h
      · simp at h
      · rcases hsep : findDataviewSeparator line (foundIndex + 1) with _ | ⟨key, valueIndex⟩ <;>
          simp only [hsep] at h
        · exact ih _ f h
        · split at h
          · exact ih _ f h
          · rcases hcb : findClosingBracket line valueIndex openC closeC with
              _ | ⟨value, endIndex⟩ <;> simp only [hcb] at h
            · exact ih _ f h
            · rcases hal : aliasLookup key with _ | dateType <;> simp only [hal] at h
              · exact ih _ f h
              · rcases hiso : isoPrefixMatch (trimJs value) with _ | ⟨y, mo, d⟩ <;>
                  simp only [hiso] at h
                · exact ih _ f h
                · rcases hv : momentOfValid y mo d with _ | base <;> simp only [hv] at h
                  · exact ih _ f h
                  · obtain ⟨hvalid, hbase⟩ := momentOfValid_some hv
                    rcases List.mem_cons.mp h with rfl | h
                    · refine ⟨rfl, rfl, ?_, y, mo, d, hvalid, hbase⟩
                      have h1 := findDataviewSeparator_ge hsep
                      have h2 := findClosingBracket_ge hcb
                      simp only []
                      omega
                    · exact ih _ f h
    · simp at h

/-- All fields of `extractDataviewDates` satisfy `DvInv` for one of the two
wrapper styles. -/
theorem extractDataviewDates_inv (line : List Char) (f : ParsedDateField)
    (h : f ∈ extractDataviewDates line) :
    DvInv .dataviewBracket f ∨ DvInv .dataviewParen f := by
  unfold extractDataviewDates at h
  rcases List.mem_append.mp h with h | h
  · exact Or.inl (dvLoop_inv line '[' ']' .dataviewBracket _ _ f h)
  · exact Or.inr (dvLoop_inv line '(' ')' .dataviewParen _ _ f h)

/-- Every collected field has a well-formed span. -/
theorem collectAllDates_wf (line : List Char) (fil : Option DateFormatType) :
    ∀ f ∈ collectAllDates line fil, f.start ≤ f.stop := by
  intro f h
  unfold collectAllDates at h
  rcases List.mem_append.mp h with h | h
  · rcases List.mem_append.mp h with h | h
    · rcases List.mem_append.mp h with h | h
      · split at h
        · obtain ⟨p, -, hinv⟩ := extractEmojiDates_inv line f h
          exact hinv.2.2.1
        · simp at h
      · split at h
        · rcases extractDataviewDates_inv line f h with hinv | hinv <;> exact hinv.2.2.1
        · simp at h
    · split at h
      · exact (scanSimpleAux_inv _ _ _ f h).2.2.2.1
      · simp at h
  · split at h
    · exact (scanKanbanAux_inv _ _ _ _ f h).2.2.1
    · simp at h

/-- C1: `extractAllDates` equals the greedy earliest-match-wins walk over the
stably sorted concatenation of all grammar matches; the stable sort keeps
relative order at equal positions; and the returned list is pairwise
non-overlapping (each field ends at or before the next begins) and sorted by
ascending start offset — dropped fields are simply absent, never merged. -/
theorem claim_C1_extraction (line : List Char) (fil : Option DateFormatType) :
    extractAllDates line fil = dropOverlaps (sortByStart (collectAllDates line fil)) ∧
    (∀ k, (sortByStart (collectAllDates line fil)).filter (fun f => f.start == k) =
          (collectAllDates line fil).filter (fun f => f.start == k)) ∧
    (extractAllDates line fil).Pairwise (fun a b => a.stop ≤ b.start) ∧
    (extractAllDates line fil).Pairwise (fun a b => a.start ≤ b.start) := by
  have hwf : ∀ f ∈ sortByStart (collectAllDates line fil), f.start ≤ f.stop := by
    intro f hf
    exact collectAllDates_wf line fil f ((sortByStart_mem f _).mp hf)
  have hpair : (extractAllDates line fil).Pairwise (fun a b => a.stop ≤ b.start) :=
    dropOverlapsAux_pairwise _ hwf none
  refine ⟨rfl, fun k => sortByStart_stable _ k, hpair, ?_⟩
  refine List.Pairwise.imp_of_mem ?_ hpair
  intro a b ha hb hab
  have haw : a.start ≤ a.stop := by
    have : a ∈ sortByStart (collectAllDates line fil) :=
      dropOverlapsAux_subset _ none a ha
    exact hwf a this
  omega

/-! ## Claim C7: Kanban line-scoped time -/

/-- C7 counterexample: with the time token `@@\x7b25:00\x7d`, the resulting
field does not carry "that clock time" — the out-of-range hour bubbles into
the following day (moment setter semantics), leaving a 01:00 clock on
2025-03-02 rather than 25:00 on 2025-03-01. -/
theorem claim_C7_counterexample :
    extractKanbanDates "@\x7b2025-03-01\x7d @@\x7b25:00\x7d".toList =
      [{ type := .Due, date := momentOfYmd 2025 3 1 + 1500,
         raw := "@\x7b2025-03-01\x7d".toList,
         start := 0, stop := 13, format := .kanban, hasTime := true }] ∧
    mHours (momentOfYmd 2025 3 1 + 1500) = 1 ∧ (1 : Nat) ≠ 25 ∧
    mDayIdx (momentOfYmd 2025 3 1 + 1500) ≠ mDayIdx (momentOfYmd 2025 3 1) := by
  exact ⟨by decide, by decide, by decide, by decide⟩

/-- C7 (amended): the Kanban grammar looks for at most one time token (the
first `@@\x7bHH:mm\x7d` match on the line); when present, its hour and minute
counts are added to the midnight of every date token on the line (equal to
"that clock time" exactly when the hour is below 24 and the minute below 60;
larger values bubble into following days, moment-style) and every field has
`hasTime` true; with no time token no time is applied anywhere.  Every
Kanban field has type `Due`. -/
theorem claim_C7_amended (line : List Char) (f : ParsedDateField)
    (h : f ∈ extractKanbanDates line) :
    f.type = .Due ∧ f.format = .kanban ∧
    (match firstKanbanTime line with
     | none => f.hasTime = false ∧
         ∃ (y mo d : Nat), validYmdB y mo d = true ∧ f.date = momentOfYmd y mo d
     | some (hh, mi) => f.hasTime = true ∧ hh ≤ 99 ∧ mi ≤ 99 ∧
         ∃ (y mo d : Nat), validYmdB y mo d = true ∧
           f.date = momentOfYmd y mo d + 60 * (hh : Int) + (mi : Int)) := by
  unfold extractKanbanDates at h
  have hinv := scanKanbanAux_inv (firstKanbanTime line) _ _ _ f h
  obtain ⟨hfmt, htp, -, hht, y, mo, d, hv, hd⟩ := hinv
  refine ⟨htp, hfmt, ?_⟩
  rcases ht : firstKanbanTime line with _ | ⟨hh, mi⟩
  · rw [ht] at hht hd
    refine ⟨hht, y, mo, d, hv, ?_⟩
    simpa [kanbanTimeAdd] using hd
  · rw [ht] at hht hd
    obtain ⟨hb1, hb2⟩ := firstKanbanTime_bounds ht
    refine ⟨hht, hb1, hb2, y, mo, d, hv, ?_⟩
    rw [hd]
    simp [kanbanTimeAdd]
    ring

/-- C7 witness: the specified scenario line carries one `Due` field with
time 09:00 applied. -/
theorem claim_C7_witness :
    ({ type := .Due, date := momentOfYmd 2025 3 1 + 540,
       raw := "@\x7b2025-03-01\x7d".toList, start := 0, stop := 13,
       format := .kanban, hasTime := true } : ParsedDateField).type = .Due ∧
    (momentOfYmd 2025 3 1 + 540 : Int) = momentOfYmd 2025 3 1 + 60 * (9 : Int) + (0 : Int) := by
  have h := claim_C7_amended "@\x7b2025-03-01\x7d @@\x7b09:00\x7d".toList
    { type := .Due, date := momentOfYmd 2025 3 1 + 540,
      raw := "@\x7b2025-03-01\x7d".toList, start := 0, stop := 13,
      format := .kanban, hasTime := true }
    (by decide)
  obtain ⟨h1, -, h3⟩ := h
  have hft : firstKanbanTime "@\x7b2025-03-01\x7d @@\x7b09:00\x7d".toList = some (9, 0) := by
    decide
  rw [hft] at h3
  exact ⟨h1, by decide⟩

/-! ## Claim C8: Dataview T-time handling -/

/-- C8 counterexample: for `[start:: 2025-01-15T14:30]` the extractor hands
only the matched ten-character literal to the date constructor
(`moment(dateMatch[0])`), so the constructed date is midnight of
2025-01-15 — the 14:30 time component does not flow through. -/
theorem claim_C8_counterexample :
    (extractDataviewDates "[start:: 2025-01-15T14:30]".toList).map (fun f => (f.type, f.date)) =
      [(DateFieldType.Start, momentOfYmd 2025 1 15)] ∧
    momentOfYmd 2025 1 15 ≠ momentOfYmd 2025 1 15 + (14 * 60 + 30) := by
  exact ⟨by decide, by decide⟩

/-- C8 (amended): the Dataview extractor parses only the leading ten
characters of the trimmed value as the date and feeds just that literal to
the date constructor; any trailing `T`-time is ignored, every Dataview
field's date is the literal's midnight moment, and `hasTime` is never set. -/
theorem claim_C8_amended (line : List Char) (f : ParsedDateField)
    (h : f ∈ extractDataviewDates line) :
    f.hasTime = false ∧ f.date % 1440 = 0 ∧
    ∃ (y mo d : Nat), validYmdB y mo d = true ∧ f.date = momentOfYmd y mo d := by
  rcases extractDataviewDates_inv line f h with hinv | hinv <;>
  · obtain ⟨-, hht, -, y, mo, d, hv, hd⟩ := hinv
    refine ⟨hht, ?_, y, mo, d, hv, hd⟩
    simp [hd, momentOfYmd, Int.mul_emod_right]

/-- C8 witness: the counterexample input's field is indeed flagged timeless
with a midnight date. -/
theorem claim_C8_witness :
    ({ type := .Start, date := momentOfYmd 2025 1 15,
       raw := "[start:: 2025-01-15T14:30]".toList, start := 0, stop := 26,
       format := .dataviewBracket, hasTime := false } : ParsedDateField).hasTime = false ∧
    (momentOfYmd 2025 1 15 : Int) % 1440 = 0 :=
  ⟨(claim_C8_amended "[start:: 2025-01-15T14:30]".toList _ (by decide)).1,
   (claim_C8_amended "[start:: 2025-01-15T14:30]".toList
     { type := .Start, date := momentOfYmd 2025 1 15,
       raw := "[start:: 2025-01-15T14:30]".toList, start := 0, stop := 26,
       format := .dataviewBracket, hasTime := false } (by decide)).2.1⟩

/-! ## Calendar correctness: civil date of a day index -/

set_option maxRecDepth 4000 in
/-- Month walk, non-leap year: the walk returns a valid month/day pair whose
day prefix reproduces the input index. -/
theorem mdOfYearDay_spec_false : ∀ n < 365,
    1 ≤ (mdOfYearDay false n).1 ∧ (mdOfYearDay false n).1 ≤ 12 ∧
    1 ≤ (mdOfYearDay false n).2 ∧
    (mdOfYearDay false n).2 ≤ daysInMonthB false (mdOfYearDay false n).1 ∧
    daysBeforeMonthB false (mdOfYearDay false n).1 + ((mdOfYearDay false n).2 - 1) = n := by
  decide

set_option maxRecDepth 4000 in
/-- Month walk, leap year. -/
theorem mdOfYearDay_spec_true : ∀ n < 366,
    1 ≤ (mdOfYearDay true n).1 ∧ (mdOfYearDay true n).1 ≤ 12 ∧
    1 ≤ (mdOfYearDay true n).2 ∧
    (mdOfYearDay true n).2 ≤ daysInMonthB true (mdOfYearDay true n).1 ∧
    daysBeforeMonthB true (mdOfYearDay true n).1 + ((mdOfYearDay true n).2 - 1) = n := by
  decide

/-- The leap-year test spelt as a proposition. -/
theorem daysInYear_eq (y : Nat) :
    daysInYear y = if y % 4 = 0 ∧ (¬ y % 100 = 0 ∨ y % 400 = 0) then 366 else 365 := by
  unfold daysInYear daysInYearB isLeapYear
  by_cases h4 : y % 4 = 0 <;> by_cases h100 : y % 100 = 0 <;> by_cases h400 : y % 400 = 0 <;>
    simp [h4, h100, h400]

set_option maxHeartbeats 1000000 in
/-- The closed-form year-start day count satisfies the year recurrence. -/
theorem yearStartDays_succ (y : Nat) :
    yearStartDays (y + 1) = yearStartDays y + daysInYear y := by
  rw [daysInYear_eq]
  unfold yearStartDays leapsBefore
  split <;> omega

/-- Lower bound on the year-start day count. -/
theorem yearStartDays_lower (y : Nat) : 365 * y ≤ yearStartDays y := by
  unfold yearStartDays
  omega

/-- Upper bound on the year-start day count. -/
theorem yearStartDays_upper (y : Nat) : yearStartDays y ≤ 366 * y := by
  unfold yearStartDays leapsBefore
  omega

/-- The year-peeling walk lands on a valid civil date whose day index is the
input, provided the fuel covers the target year. -/
theorem ymdAux_spec : ∀ (fuel y0 n : Nat),
    yearStartDays y0 + n < yearStartDays (y0 + fuel) →
    validYmdB (ymdAux fuel y0 n).1 (ymdAux fuel y0 n).2.1 (ymdAux fuel y0 n).2.2 = true ∧
    daysOfYmd (ymdAux fuel y0 n).1 (ymdAux fuel y0 n).2.1 (ymdAux fuel y0 n).2.2 =
      yearStartDays y0 + n := by
  intro fuel
  induction fuel with
  | zero =>
    intro y0 n hfuel
    rw [Nat.add_zero] at hfuel
    omega
  | succ k ih =>
    intro y0 n hfuel
    by_cases hn : n < daysInYear y0
    · have hmd : 1 ≤ (mdOfYearDay (isLeapYear y0) n).1 ∧ (mdOfYearDay (isLeapYear y0) n).1 ≤ 12 ∧
          1 ≤ (mdOfYearDay (isLeapYear y0) n).2 ∧
          (mdOfYearDay (isLeapYear y0) n).2 ≤ daysInMonthB (isLeapYear y0) (mdOfYearDay (isLeapYear y0) n).1 ∧
          daysBeforeMonthB (isLeapYear y0) (mdOfYearDay (isLeapYear y0) n).1 +
            ((mdOfYearDay (isLeapYear y0) n).2 - 1) = n := by
        cases hL : isLeapYear y0
        · refine mdOfYearDay_spec_false n ?_
          rw [daysInYear, hL] at hn
          simpa [daysInYearB] using hn
        · refine mdOfYearDay_spec_true n ?_
          rw [daysInYear, hL] at hn
          simpa [daysInYearB] using hn
      obtain ⟨hm1, hm2, hd1, hd2, hsum⟩ := hmd
      have hrw : ymdAux (k + 1) y0 n =
          (y0, (mdOfYearDay (isLeapYear y0) n).1, (mdOfYearDay (isLeapYear y0) n).2) := by
        simp [ymdAux, hn]
      rw [hrw]
      constructor
      · simp only [validYmdB, daysInMonth, Bool.and_eq_true, decide_eq_true_eq]
        exact ⟨⟨⟨hm1, hm2⟩, hd1⟩, hd2⟩
      · simp only [daysOfYmd]
        omega
    · have hrw : ymdAux (k + 1) y0 n = ymdAux k (y0 + 1) (n - daysInYear y0) := by
        simp [ymdAux, hn]
      rw [hrw]
      have hsc := yearStartDays_succ y0
      have hfuel' : yearStartDays (y0 + 1) + (n - daysInYear y0) < yearStartDays (y0 + 1 + k) := by
        have : y0 + 1 + k = y0 + (k + 1) := by omega
        rw [this]
        omega
      have := ih (y0 + 1) (n - daysInYear y0) hfuel'
      refine ⟨this.1, ?_⟩
      rw [this.2]
      omega

/-- The civil date of any nonnegative day index is valid and maps back to
that day index. -/
theorem ymdOfDay_spec (n : Nat) :
    validYmdB (ymdOfDay n).1 (ymdOfDay n).2.1 (ymdOfDay n).2.2 = true ∧
    daysOfYmd (ymdOfDay n).1 (ymdOfDay n).2.1 (ymdOfDay n).2.2 = n := by
  unfold ymdOfDay
  have hle : yearStartDays (n / 366) ≤ n := by
    have h1 := yearStartDays_upper (n / 366)
    have h2 : 366 * (n / 366) ≤ n := by omega
    omega
  have hfuel : yearStartDays (n / 366) + (n - yearStartDays (n / 366)) <
      yearStartDays (n / 366 + (n + 1)) := by
    have h3 := yearStartDays_lower (n / 366 + (n + 1))
    omega
  have := ymdAux_spec (n + 1) (n / 366) (n - yearStartDays (n / 366)) hfuel
  refine ⟨this.1, ?_⟩
  rw [this.2]
  omega

/-! ## Printed digits: classification and re-parsing -/

/-- The digit-character constructor only depends on the last decimal digit. -/
theorem digitChar10_mod (n : Nat) : digitChar10 n = digitChar10 (n % 10) := by
  unfold digitChar10
  rw [Nat.mod_mod_of_dvd n (by norm_num)]

/-- Bundle of classification facts about single decimal digit characters. -/
theorem digitChar10_class : ∀ k < 10,
    isDigitCh (digitChar10 k) = true ∧ digitVal (digitChar10 k) = k ∧
    isJsWs (digitChar10 k) = false ∧
    digitChar10 k ≠ '@' ∧ digitChar10 k ≠ '[' ∧ digitChar10 k ≠ ']' ∧
    digitChar10 k ≠ '(' ∧ digitChar10 k ≠ ')' ∧ digitChar10 k ≠ '{' ∧
    digitChar10 k ≠ '}' ∧ digitChar10 k ≠ ':' ∧ digitChar10 k ≠ '-' ∧
    digitChar10 k ≠ '\\' ∧ digitChar10 k ≠ vs16 ∧
    (∀ tp : DateFieldType, (DATE_SYMBOLS tp).contains (digitChar10 k) = false) := by
  decide

/-- A printed digit always reads as a digit. -/
theorem isDigitCh_digitChar10 (n : Nat) : isDigitCh (digitChar10 n) = true := by
  rw [digitChar10_mod]
  exact (digitChar10_class (n % 10) (Nat.mod_lt n (by norm_num))).1

/-- A printed digit re-parses to the last decimal digit. -/
theorem digitVal_digitChar10 (n : Nat) : digitVal (digitChar10 n) = n % 10 := by
  rw [digitChar10_mod]
  exact (digitChar10_class (n % 10) (Nat.mod_lt n (by norm_num))).2.1

/-- A printed digit is not whitespace. -/
theorem isJsWs_digitChar10 (n : Nat) : isJsWs (digitChar10 n) = false := by
  rw [digitChar10_mod]
  exact (digitChar10_class (n % 10) (Nat.mod_lt n (by norm_num))).2.2.1

/-- A printed digit differs from the given scaffold character. -/
theorem digitChar10_ne (n : Nat) {c : Char}
    (hc : c.toNat < 48 ∨ 57 < c.toNat) : digitChar10 n ≠ c := by
  intro h
  have hd := isDigitCh_digitChar10 n
  rw [h] at hd
  simp only [isDigitCh, Bool.and_eq_true, decide_eq_true_eq] at hd
  omega

/-- A printed digit never matches an emoji date symbol. -/
theorem symbols_not_digitChar10 (tp : DateFieldType) (n : Nat) :
    (DATE_SYMBOLS tp).contains (digitChar10 n) = false := by
  rw [digitChar10_mod]
  exact (digitChar10_class (n % 10) (Nat.mod_lt n (by norm_num))).2.2.2.2.2.2.2.2.2.2.2.2.2.2 tp

/-- Two printed digits re-parse to the value below 100. -/
theorem read2_pad2 (n : Nat) (hn : n < 100) (r : List Char) :
    read2 (pad2 n ++ r) = some (n, r) := by
  simp only [pad2, List.cons_append, List.nil_append, read2,
    isDigitCh_digitChar10, Bool.and_self, if_true, digitVal_digitChar10]
  refine congrArg some (Prod.ext ?_ rfl)
  simp only []
  omega

/-- Four printed digits re-parse to the value below 10000. -/
theorem read4_pad4 (n : Nat) (hn : n < 10000) (r : List Char) :
    read4 (pad4 n ++ r) = some (n, r) := by
  simp only [pad4, List.cons_append, List.nil_append, read4,
    isDigitCh_digitChar10, Bool.and_self, if_true, digitVal_digitChar10]
  refine congrArg some (Prod.ext ?_ rfl)
  simp only []
  omega

/-- A printed date literal re-parses to its components. -/
theorem parseIso_pad (y mo d : Nat) (hy : y < 10000) (hmo : mo < 100) (hd : d < 100)
    (r : List Char) :
    parseIso (pad4 y ++ '-' :: (pad2 mo ++ '-' :: (pad2 d ++ r))) = some ((y, mo, d), r) := by
  unfold parseIso
  rw [read4_pad4 y hy]
  simp only []
  rw [read2_pad2 mo hmo]
  simp only []
  rw [read2_pad2 d hd]

/-- A printed date literal at the very end of the input re-parses fully. -/
theorem parseIso_pad_nil (y mo d : Nat) (hy : y < 10000) (hmo : mo < 100) (hd : d < 100) :
    parseIso (pad4 y ++ '-' :: (pad2 mo ++ '-' :: pad2 d)) = some ((y, mo, d), []) := by
  rw [show pad4 y ++ '-' :: (pad2 mo ++ '-' :: pad2 d) =
      pad4 y ++ '-' :: (pad2 mo ++ '-' :: (pad2 d ++ ([] : List Char))) by simp]
  exact parseIso_pad y mo d hy hmo hd []

/-- A printed time re-parses through the backtracking time matcher. -/
theorem matchTime_pad (h mi : Nat) (hh : h < 100) (hmi : mi < 100) (r : List Char) :
    matchTime (pad2 h ++ ':' :: (pad2 mi ++ r)) = some (5, h, mi) := by
  simp only [pad2, List.cons_append, List.nil_append, matchTime,
    isDigitCh_digitChar10, Bool.and_self, Bool.true_and, Bool.and_true, if_true,
    digitVal_digitChar10]
  rw [if_pos (by simp [isDigitCh_digitChar10])]
  refine congrArg some ?_
  refine Prod.ext rfl (Prod.ext ?_ ?_) <;> simp only [] <;> omega

/-- A printed time at the end of the input re-parses fully. -/
theorem matchTime_pad_nil (h mi : Nat) (hh : h < 100) (hmi : mi < 100) :
    matchTime (pad2 h ++ ':' :: pad2 mi) = some (5, h, mi) := by
  rw [show pad2 h ++ ':' :: pad2 mi = pad2 h ++ ':' :: (pad2 mi ++ ([] : List Char)) by simp]
  exact matchTime_pad h mi hh hmi []

/-! ## Printing a nonnegative moment's date -/

/-- Year component of the printed date of a moment. -/
def mYear (m : Int) : Nat := (ymdOfDay (m / 1440).toNat).1

/-- Month component of the printed date of a moment. -/
def mMonthD (m : Int) : Nat := (ymdOfDay (m / 1440).toNat).2.1

/-- Day-of-month component of the printed date of a moment. -/
def mDom (m : Int) : Nat := (ymdOfDay (m / 1440).toNat).2.2

/-- Any month length is at most 31. -/
theorem daysInMonthB_le (L : Bool) (mo : Nat) : daysInMonthB L mo ≤ 31 := by
  unfold daysInMonthB
  split
  · split <;> omega
  · split <;> omega

/-- The printed components of a nonnegative moment form a valid date whose
day index is the moment's day. -/
theorem mYmd_spec (m : Int) (_h0 : 0 ≤ m) :
    validYmdB (mYear m) (mMonthD m) (mDom m) = true ∧
    daysOfYmd (mYear m) (mMonthD m) (mDom m) = (m / 1440).toNat ∧
    1 ≤ mMonthD m ∧ mMonthD m ≤ 12 ∧ 1 ≤ mDom m ∧ mDom m ≤ 31 := by
  have hs := ymdOfDay_spec (m / 1440).toNat
  refine ⟨hs.1, hs.2, ?_⟩
  have hv := hs.1
  simp only [validYmdB, daysInMonth, Bool.and_eq_true, decide_eq_true_eq] at hv
  have hle := daysInMonthB_le (isLeapYear (mYear m)) (mMonthD m)
  unfold mYear mMonthD mDom at *
  omega

/-- `format("YYYY-MM-DD")` of a nonnegative moment below year 10000 prints
the zero-padded components. -/
theorem fmtYmd_eq (m : Int) (h0 : 0 ≤ m) (hy : mYear m < 10000) :
    fmtYmd m = pad4 (mYear m) ++ '-' :: pad2 (mMonthD m) ++ '-' :: pad2 (mDom m) := by
  have hdiv : 0 ≤ m / 1440 := Int.ediv_nonneg h0 (by norm_num)
  unfold mYear at hy
  unfold fmtYmd ymdOfDayI mDayIdx mYear mMonthD mDom printYear
  rw [if_pos hdiv]
  rcases hc : ymdOfDay (m / 1440).toNat with ⟨Y, MO, D⟩
  rw [hc] at hy
  simp only []
  rw [if_neg (by omega : ¬ (Y : Int) < 0), Int.toNat_natCast, if_pos hy]

/-- Re-constructing a moment from its printed date gives back its midnight. -/
theorem momentOfValid_print (m : Int) (h0 : 0 ≤ m) :
    momentOfValid (mYear m) (mMonthD m) (mDom m) = some (1440 * (m / 1440)) := by
  have hs := mYmd_spec m h0
  unfold momentOfValid
  rw [if_pos hs.1]
  refine congrArg some ?_
  unfold momentOfYmd
  rw [hs.2.1, Int.toNat_of_nonneg (Int.ediv_nonneg h0 (by norm_num))]

/-- Day/clock decomposition facts of a midnight-plus-offset moment. -/
theorem shape_decomp (D : Nat) (c : Nat) (hc : c < 1440) :
    (0 : Int) ≤ 1440 * (D : Int) + (c : Int) ∧
    (1440 * (D : Int) + (c : Int)) / 1440 = (D : Int) ∧
    (1440 * (D : Int) + (c : Int)) % 1440 = (c : Int) := by
  refine ⟨by positivity, ?_, ?_⟩ <;> omega

/-! ## Character classes of formatted output -/

/-- The primary symbol used by the `tasks` formatter (`DATE_SYMBOLS[type][0]`). -/
def symChar (tp : DateFieldType) : Char := (DATE_SYMBOLS tp).getD 0 ' '

/-- Every emoji date symbol lies above the ASCII/Latin range. -/
theorem symbols_big : ∀ tp : DateFieldType, ∀ s ∈ DATE_SYMBOLS tp, 0x2000 ≤ s.toNat := by
  decide

/-- Primary symbols lie above the ASCII/Latin range. -/
theorem symChar_big : ∀ tp : DateFieldType, 0x2000 ≤ (symChar tp).toNat := by
  decide

/-- Low characters are never emoji date symbols. -/
theorem symbols_ascii (tp : DateFieldType) (c : Char) (hc : c.toNat < 0x2000) :
    (DATE_SYMBOLS tp).contains c = false := by
  by_contra h
  rw [Bool.not_eq_false] at h
  have := symbols_big tp c (List.mem_of_elem_eq_true h)
  omega

/-- A pattern never matches another pattern's primary symbol. -/
theorem sym_cross : ∀ tp tp' : DateFieldType, ¬ tp' = tp →
    (DATE_SYMBOLS tp').contains (symChar tp) = false := by
  decide

/-- A pattern always matches its own primary symbol. -/
theorem sym_self : ∀ tp : DateFieldType, (DATE_SYMBOLS tp).contains (symChar tp) = true := by
  decide

/-- A primary symbol differs from any low character. -/
theorem symChar_ne (tp : DateFieldType) {c : Char} (hc : c.toNat < 0x2000) :
    symChar tp ≠ c := by
  intro h
  have := symChar_big tp
  rw [h] at this
  omega

/-- Characters of a four-digit block are printed digits. -/
theorem mem_pad4_cases {c : Char} {y : Nat} (h : c ∈ pad4 y) : ∃ k, c = digitChar10 k := by
  simp only [pad4, List.mem_cons, List.not_mem_nil, or_false] at h
  rcases h with h | h | h | h <;> exact ⟨_, h⟩

/-- Characters of a two-digit block are printed digits. -/
theorem mem_pad2_cases {c : Char} {x : Nat} (h : c ∈ pad2 x) : ∃ k, c = digitChar10 k := by
  simp only [pad2, List.mem_cons, List.not_mem_nil, or_false] at h
  rcases h with h | h <;> exact ⟨_, h⟩

/-! ## Whitespace behaviour of printed pieces -/

/-- A non-whitespace head stops the whitespace span. -/
theorem spanWs_notWs {c : Char} (hc : isJsWs c = false) (r : List Char) :
    spanWs (c :: r) = (0, c :: r) := by
  simp [spanWs, hc]

/-- A whitespace head extends the whitespace span. -/
theorem spanWs_ws {c : Char} (hc : isJsWs c = true) (r : List Char) :
    spanWs (c :: r) = ((spanWs r).1 + 1, (spanWs r).2) := by
  simp [spanWs, hc]

/-- A digit block stops the whitespace span. -/
theorem spanWs_pad4 (y : Nat) (r : List Char) : spanWs (pad4 y ++ r) = (0, pad4 y ++ r) := by
  rw [show pad4 y ++ r = digitChar10 (y / 1000) :: (digitChar10 (y / 100) ::
    digitChar10 (y / 10) :: digitChar10 y :: r) from rfl]
  exact spanWs_notWs (isJsWs_digitChar10 _) _

/-- A two-digit block stops the whitespace span. -/
theorem spanWs_pad2 (x : Nat) (r : List Char) : spanWs (pad2 x ++ r) = (0, pad2 x ++ r) := by
  rw [show pad2 x ++ r = digitChar10 (x / 10) :: (digitChar10 x :: r) from rfl]
  exact spanWs_notWs (isJsWs_digitChar10 _) _

/-! ## Evaluating the scanners on freshly formatted strings -/

/-- The variation-selector skip on a space does nothing. -/
theorem skipVs16_space (r : List Char) : skipVs16 (' ' :: r) = (0, ' ' :: r) := by
  simp [skipVs16, vs16]

/-- An emoji pattern matches its formatted date-only output entirely. -/
theorem matchEmojiAt_print_notime (syms : List Char) (c : Char) (hc : syms.contains c = true)
    (y mo d : Nat) (hy : y < 10000) (hmo : mo < 100) (hd : d < 100) :
    matchEmojiAt syms (c :: ' ' :: (pad4 y ++ '-' :: (pad2 mo ++ '-' :: pad2 d))) =
      some (12, (y, mo, d), none) := by
  rw [matchEmojiAt.eq_2]
  simp only [hc, if_true, skipVs16_space]
  rw [spanWs_ws (by decide), spanWs_pad4]
  simp only [parseIso_pad_nil y mo d hy hmo hd, matchEmojiTimeSuffix, spanWs]
  norm_num

/-- An emoji pattern matches its formatted date-time output entirely. -/
theorem matchEmojiAt_print_time (syms : List Char) (c : Char) (hc : syms.contains c = true)
    (y mo d hh mi : Nat) (hy : y < 10000) (hmo : mo < 100) (hd : d < 100)
    (hhh : hh < 100) (hmi : mi < 100) :
    matchEmojiAt syms
      (c :: ' ' :: (pad4 y ++ '-' :: (pad2 mo ++ '-' :: (pad2 d ++
        ' ' :: (pad2 hh ++ ':' :: pad2 mi))))) =
      some (18, (y, mo, d), some (hh, mi)) := by
  rw [matchEmojiAt.eq_2]
  simp only [hc, if_true, skipVs16_space]
  rw [spanWs_ws (by decide), spanWs_pad4]
  simp only [parseIso_pad y mo d hy hmo hd]
  unfold matchEmojiTimeSuffix
  rw [spanWs_ws (by decide), spanWs_pad2]
  simp only [matchTime_pad_nil hh mi hhh hmi]
  norm_num

/-- The emoji scan of the empty string is empty. -/
theorem scanEmojiAux_nil_list (tp : DateFieldType) (syms : List Char) (fuel i : Nat) :
    scanEmojiAux tp syms fuel [] i = [] := by
  cases fuel <;> simp [scanEmojiAux]

/-- The optional time application of the emoji scan, with moment setters. -/
def emojiApply (B : Int) : Option (Nat × Nat) → Int
  | some (h, mi) => setMinutes (setHours B h) mi
  | none => B

/-- A string whose single match consumes it entirely scans to one field. -/
theorem scanEmojiAux_single (tp : DateFieldType) (syms : List Char) (S : List Char)
    (len y mo d : Nat) (topt : Option (Nat × Nat)) (B : Int)
    (hm : matchEmojiAt syms S = some (len, (y, mo, d), topt))
    (hv : momentOfValid y mo d = some B)
    (hlen : S.length = len) :
    scanEmojiAux tp syms (len + 1) S 0 =
      [{ type := tp, date := emojiApply B topt,
         raw := S, start := 0, stop := len, format := .tasks,
         hasTime := topt.isSome }] := by
  obtain ⟨hlen1, -⟩ := matchEmojiAt_some hm
  have hdrop : S.drop len = [] := by
    rw [← hlen]
    exact List.drop_length _
  have htake : S.take len = S := by
    rw [← hlen]
    exact List.take_length _
  rcases topt with _ | ⟨hh, mi⟩ <;>
  · cases S with
    | nil => simp at hlen; omega
    | cons c rest =>
      simp only [scanEmojiAux, hm, hv, hdrop, htake, scanEmojiAux_nil_list, Option.isSome,
        Nat.zero_add, emojiApply]

/-- The emoji scan finds nothing on a string free of its symbols. -/
theorem scanEmojiAux_noSym (tp : DateFieldType) (syms : List Char) :
    ∀ fuel s i, (∀ c ∈ s, syms.contains c = false) →
      scanEmojiAux tp syms fuel s i = [] := by
  intro fuel
  induction fuel with
  | zero => intro s i _; simp [scanEmojiAux]
  | succ n ih =>
    intro s i hs
    cases s with
    | nil => simp [scanEmojiAux]
    | cons c rest =>
      have hm : matchEmojiAt syms (c :: rest) = none := by
        rw [matchEmojiAt.eq_2, hs c (List.mem_cons_self _ _)]
        simp
      simp only [scanEmojiAux, hm]
      exact ih rest (i + 1) (fun x hx => hs x (List.mem_cons_of_mem _ hx))

/-- On a string that one emoji pattern matches entirely and whose characters
never touch the other patterns' symbol classes, `extractEmojiDates` returns
exactly that one field. -/
theorem extractEmojiDates_print (tp : DateFieldType) (S : List Char)
    (len y mo d : Nat) (topt : Option (Nat × Nat)) (B : Int)
    (hm : matchEmojiAt (DATE_SYMBOLS tp) S = some (len, (y, mo, d), topt))
    (hv : momentOfValid y mo d = some B)
    (hlen : S.length = len)
    (hsafe : ∀ tp' : DateFieldType, ¬ tp' = tp → ∀ c ∈ S, (DATE_SYMBOLS tp').contains c = false) :
    extractEmojiDates S =
      [{ type := tp, date := emojiApply B topt,
         raw := S, start := 0, stop := len, format := .tasks,
         hasTime := topt.isSome }] := by
  unfold extractEmojiDates EMOJI_DATE_PATTERNS
  rw [hlen]
  simp only [List.map_cons, List.map_nil, List.flatten_cons, List.flatten_nil,
    List.append_nil]
  cases tp
  · rw [scanEmojiAux_single .Due (DATE_SYMBOLS .Due) S len y mo d topt B hm hv hlen,
        scanEmojiAux_noSym .Start (DATE_SYMBOLS .Start) (len + 1) S 0 (hsafe .Start (by decide)),
        scanEmojiAux_noSym .Scheduled (DATE_SYMBOLS .Scheduled) (len + 1) S 0 (hsafe .Scheduled (by decide)),
        scanEmojiAux_noSym .Created (DATE_SYMBOLS .Created) (len + 1) S 0 (hsafe .Created (by decide)),
        scanEmojiAux_noSym .Done (DATE_SYMBOLS .Done) (len + 1) S 0 (hsafe .Done (by decide)),
        scanEmojiAux_noSym .Cancelled (DATE_SYMBOLS .Cancelled) (len + 1) S 0 (hsafe .Cancelled (by decide))]
    simp
  · rw [scanEmojiAux_single .Start (DATE_SYMBOLS .Start) S len y mo d topt B hm hv hlen,
        scanEmojiAux_noSym .Due (DATE_SYMBOLS .Due) (len + 1) S 0 (hsafe .Due (by decide)),
        scanEmojiAux_noSym .Scheduled (DATE_SYMBOLS .Scheduled) (len + 1) S 0 (hsafe .Scheduled (by decide)),
        scanEmojiAux_noSym .Created (DATE_SYMBOLS .Created) (len + 1) S 0 (hsafe .Created (by decide)),
        scanEmojiAux_noSym .Done (DATE_SYMBOLS .Done) (len + 1) S 0 (hsafe .Done (by decide)),
        scanEmojiAux_noSym .Cancelled (DATE_SYMBOLS .Cancelled) (len + 1) S 0 (hsafe .Cancelled (by decide))]
    simp
  · rw [scanEmojiAux_single .Scheduled (DATE_SYMBOLS .Scheduled) S len y mo d topt B hm hv hlen,
        scanEmojiAux_noSym .Due (DATE_SYMBOLS .Due) (len + 1) S 0 (hsafe .Due (by decide)),
        scanEmojiAux_noSym .Start (DATE_SYMBOLS .Start) (len + 1) S 0 (hsafe .Start (by decide)),
        scanEmojiAux_noSym .Created (DATE_SYMBOLS .Created) (len + 1) S 0 (hsafe .Created (by decide)),
        scanEmojiAux_noSym .Done (DATE_SYMBOLS .Done) (len + 1) S 0 (hsafe .Done (by decide)),
        scanEmojiAux_noSym .Cancelled (DATE_SYMBOLS .Cancelled) (len + 1) S 0 (hsafe .Cancelled (by decide))]
    simp
  · rw [scanEmojiAux_single .Created (DATE_SYMBOLS .Created) S len y mo d topt B hm hv hlen,
        scanEmojiAux_noSym .Due (DATE_SYMBOLS .Due) (len + 1) S 0 (hsafe .Due (by decide)),
        scanEmojiAux_noSym .Start (DATE_SYMBOLS .Start) (len + 1) S 0 (hsafe .Start (by decide)),
        scanEmojiAux_noSym .Scheduled (DATE_SYMBOLS .Scheduled) (len + 1) S 0 (hsafe .Scheduled (by decide)),
        scanEmojiAux_noSym .Done (DATE_SYMBOLS .Done) (len + 1) S 0 (hsafe .Done (by decide)),
        scanEmojiAux_noSym .Cancelled (DATE_SYMBOLS .Cancelled) (len + 1) S 0 (hsafe .Cancelled (by decide))]
    simp
  · rw [scanEmojiAux_single .Done (DATE_SYMBOLS .Done) S len y mo d topt B hm hv hlen,
        scanEmojiAux_noSym .Due (DATE_SYMBOLS .Due) (len + 1) S 0 (hsafe .Due (by decide)),
        scanEmojiAux_noSym .Start (DATE_SYMBOLS .Start) (len + 1) S 0 (hsafe .Start (by decide)),
        scanEmojiAux_noSym .Scheduled (DATE_SYMBOLS .Scheduled) (len + 1) S 0 (hsafe .Scheduled (by decide)),
        scanEmojiAux_noSym .Created (DATE_SYMBOLS .Created) (len + 1) S 0 (hsafe .Created (by decide)),
        scanEmojiAux_noSym .Cancelled (DATE_SYMBOLS .Cancelled) (len + 1) S 0 (hsafe .Cancelled (by decide))]
    simp
  · rw [scanEmojiAux_single .Cancelled (DATE_SYMBOLS .Cancelled) S len y mo d topt B hm hv hlen,
        scanEmojiAux_noSym .Due (DATE_SYMBOLS .Due) (len + 1) S 0 (hsafe .Due (by decide)),
        scanEmojiAux_noSym .Start (DATE_SYMBOLS .Start) (len + 1) S 0 (hsafe .Start (by decide)),
        scanEmojiAux_noSym .Scheduled (DATE_SYMBOLS .Scheduled) (len + 1) S 0 (hsafe .Scheduled (by decide)),
        scanEmojiAux_noSym .Created (DATE_SYMBOLS .Created) (len + 1) S 0 (hsafe .Created (by decide)),
        scanEmojiAux_noSym .Done (DATE_SYMBOLS .Done) (len + 1) S 0 (hsafe .Done (by decide))]
    simp

/-! ## C2: how the grammars behave on formatter output -/

/-- A two-digit block prints two characters. -/
theorem pad2_length (n : Nat) : (pad2 n).length = 2 := rfl

/-- A four-digit block prints four characters. -/
theorem pad4_length (n : Nat) : (pad4 n).length = 4 := rfl

/-- Characters of a printed `YYYY-MM-DD` block are digits or dashes. -/
theorem mem_dateStr {c : Char} {y mo d : Nat}
    (h : c ∈ pad4 y ++ '-' :: (pad2 mo ++ '-' :: pad2 d)) :
    (∃ k, c = digitChar10 k) ∨ c = '-' := by
  simp only [List.mem_append, List.mem_cons] at h
  rcases h with h | rfl | h | rfl | h
  · exact .inl (mem_pad4_cases h)
  · exact .inr rfl
  · exact .inl (mem_pad2_cases h)
  · exact .inr rfl
  · exact .inl (mem_pad2_cases h)

/-- Characters of a printed `HH:mm` block are digits or colons. -/
theorem mem_timeStr {c : Char} {hh mi : Nat}
    (h : c ∈ pad2 hh ++ ':' :: pad2 mi) :
    (∃ k, c = digitChar10 k) ∨ c = ':' := by
  simp only [List.mem_append, List.mem_cons] at h
  rcases h with h | rfl | h
  · exact .inl (mem_pad2_cases h)
  · exact .inr rfl
  · exact .inl (mem_pad2_cases h)

/-- Character facts about the dataview key strings (the enum values). -/
theorem value_class : ∀ tp : DateFieldType, ∀ c ∈ tp.value,
    c.toNat < 0x2000 ∧ ¬ c = ':' ∧ isJsWs c = false ∧ ('A' ≤ c && c ≤ 'Z') = false ∧
    ¬ c = '[' ∧ ¬ c = '(' ∧ ¬ c = ']' ∧ ¬ c = ')' ∧ ¬ c = '@' ∧ ¬ c = '{' := by
  decide

/-- The enum value of each type resolves to that type in the alias table. -/
theorem aliasLookup_value : ∀ tp : DateFieldType, aliasLookup tp.value = some tp := by
  decide

/-- A four-digit read fails on a non-digit head. -/
theorem read4_notDigit {c : Char} (h : isDigitCh c = false) (r : List Char) :
    read4 (c :: r) = none := by
  unfold read4
  split
  · rename_i c1 c2 c3 c4 r5 heq
    simp only [List.cons.injEq] at heq
    rw [← heq.1, h]
    rfl
  · rfl

/-- The ISO date pattern fails on a non-digit head. -/
theorem parseIso_notDigit {c : Char} (h : isDigitCh c = false) (r : List Char) :
    parseIso (c :: r) = none := by
  unfold parseIso
  rw [read4_notDigit h]

/-- The ISO date pattern fails on the empty string. -/
theorem parseIso_nil : parseIso [] = none := rfl

/-- The simple grammar needs an `@` sign to start a match. -/
theorem matchSimpleAt_noAt {c : Char} (hc : ¬ c = '@') (r : List Char) :
    matchSimpleAt (c :: r) = none := by
  unfold matchSimpleAt
  split
  · rename_i heq
    simp only [List.cons.injEq] at heq
    exact absurd heq.1 hc
  · rfl

/-- After an `@`, a character that is neither whitespace nor a digit
stops the simple grammar. -/
theorem matchSimpleAt_stuck {c : Char} (hws : isJsWs c = false) (hdg : isDigitCh c = false)
    (r : List Char) : matchSimpleAt ('@' :: c :: r) = none := by
  unfold matchSimpleAt
  simp only [spanWs_notWs hws, parseIso_notDigit hdg]

/-- A lone `@` matches nothing in the simple grammar. -/
theorem matchSimpleAt_one : matchSimpleAt ['@'] = none := by
  unfold matchSimpleAt
  simp only [spanWs, parseIso_nil]

/-- The Kanban date token needs an `@` sign to start a match. -/
theorem matchKanbanDateAt_noAt {c : Char} (hc : ¬ c = '@') (r : List Char) :
    matchKanbanDateAt (c :: r) = none := by
  unfold matchKanbanDateAt
  split
  · rename_i heq
    simp only [List.cons.injEq] at heq
    exact absurd heq.1 hc
  · rfl

/-- The Kanban date token needs an opening brace after the `@`. -/
theorem matchKanbanDateAt_noBrace {c : Char} (hc : ¬ c = '{') (r : List Char) :
    matchKanbanDateAt ('@' :: c :: r) = none := by
  unfold matchKanbanDateAt
  split
  · rename_i heq
    simp only [List.cons.injEq] at heq
    exact absurd heq.2.1 hc
  · rfl

/-- A lone `@` matches no Kanban date token. -/
theorem matchKanbanDateAt_one : matchKanbanDateAt ['@'] = none := by
  unfold matchKanbanDateAt
  split
  · rename_i heq
    exact absurd heq (by simp)
  · rfl

/-- The Kanban date token fails when no ISO literal follows the brace. -/
theorem matchKanbanDateAt_noIso {r : List Char} (h : parseIso r = none) :
    matchKanbanDateAt ('@' :: '{' :: r) = none := by
  rw [show matchKanbanDateAt ('@' :: '{' :: r) =
      (match parseIso r with
       | some ((y, mo, d), '}' :: _) => some (y, mo, d)
       | _ => none) from rfl, h]

/-- The Kanban date token succeeds on a braced ISO literal. -/
theorem matchKanbanDateAt_pos {r r' : List Char} {y mo d : Nat}
    (h : parseIso r = some ((y, mo, d), '}' :: r')) :
    matchKanbanDateAt ('@' :: '{' :: r) = some (y, mo, d) := by
  rw [show matchKanbanDateAt ('@' :: '{' :: r) =
      (match parseIso r with
       | some ((y, mo, d), '}' :: _) => some (y, mo, d)
       | _ => none) from rfl, h]
  rfl

/-- The Kanban time token needs an `@` sign to start a match. -/
theorem matchKanbanTimeAt_noAt {c : Char} (hc : ¬ c = '@') (r : List Char) :
    matchKanbanTimeAt (c :: r) = none := by
  unfold matchKanbanTimeAt
  split
  · rename_i heq
    simp only [List.cons.injEq] at heq
    exact absurd heq.1 hc
  · rename_i heq
    simp only [List.cons.injEq] at heq
    exact absurd heq.1 hc
  · rfl

/-- The Kanban time token needs a second `@` sign. -/
theorem matchKanbanTimeAt_sndNoAt {c : Char} (hc : ¬ c = '@') (r : List Char) :
    matchKanbanTimeAt ('@' :: c :: r) = none := by
  unfold matchKanbanTimeAt
  split
  · rename_i heq
    simp only [List.cons.injEq] at heq
    exact absurd heq.2.1 hc
  · rename_i heq
    simp only [List.cons.injEq] at heq
    exact absurd heq.2.1 hc
  · rfl

/-- A lone `@` matches no Kanban time token. -/
theorem matchKanbanTimeAt_one : matchKanbanTimeAt ['@'] = none := by
  unfold matchKanbanTimeAt
  split
  · rename_i heq
    exact absurd heq (by simp)
  · rename_i heq
    exact absurd heq (by simp)
  · rfl

/-- The printed `@@\x7bHH:mm\x7d` token re-parses to its hour and minute counts. -/
theorem matchKanbanTimeAt_print (hh mi : Nat) (hhh : hh < 100) (hmi : mi < 100) (r : List Char) :
    matchKanbanTimeAt ('@' :: '@' :: '{' :: (pad2 hh ++ ':' :: (pad2 mi ++ '}' :: r))) =
      some (hh, mi) := by
  simp only [pad2, List.cons_append, List.nil_append]
  unfold matchKanbanTimeAt
  simp only [isDigitCh_digitChar10, digitVal_digitChar10, Bool.true_and, Bool.and_true]
  norm_num
  constructor <;> omega

/-- The simple scan of the empty line is empty. -/
theorem scanSimpleAux_nil_list (fuel i : Nat) : scanSimpleAux fuel [] i = [] := by
  cases fuel <;> rfl

/-- One failing position advances the simple scan cursor. -/
theorem scanSimpleAux_step {c : Char} {r : List Char} (h : matchSimpleAt (c :: r) = none)
    (f i : Nat) : scanSimpleAux (f + 1) (c :: r) i = scanSimpleAux f r (i + 1) := by
  simp only [scanSimpleAux, h]

/-- A line without `@` signs yields no simple fields. -/
theorem scanSimpleAux_noAt {s : List Char} (h : ∀ c ∈ s, ¬ c = '@') :
    ∀ fuel i, scanSimpleAux fuel s i = [] := by
  induction s with
  | nil => exact scanSimpleAux_nil_list
  | cons c r ih =>
    intro fuel i
    cases fuel with
    | zero => rfl
    | succ f =>
      rw [scanSimpleAux_step (matchSimpleAt_noAt (h c (List.mem_cons_self c r)) r)]
      exact ih (fun x hx => h x (List.mem_cons_of_mem c hx)) f (i + 1)

/-- The simple scan slides over an `@`-free prefix. -/
theorem scanSimpleAux_skip {pre : List Char} (h : ∀ c ∈ pre, ¬ c = '@') (rest : List Char) :
    ∀ f i, scanSimpleAux (pre.length + f) (pre ++ rest) i = scanSimpleAux f rest (i + pre.length) := by
  induction pre with
  | nil => intro f i; simp
  | cons c r ih =>
    intro f i
    rw [List.cons_append, List.length_cons,
      show r.length + 1 + f = (r.length + f) + 1 from by omega,
      scanSimpleAux_step (matchSimpleAt_noAt (h c (List.mem_cons_self c r)) (r ++ rest)),
      ih (fun x hx => h x (List.mem_cons_of_mem c hx)) f (i + 1),
      show i + 1 + r.length = i + (r.length + 1) from by omega]

/-- The Kanban date scan of the empty line is empty. -/
theorem scanKanbanAux_nil_list (topt : Option (Nat × Nat)) (fuel i : Nat) :
    scanKanbanAux topt fuel [] i = [] := by
  cases fuel <;> rfl

/-- One failing position advances the Kanban date scan cursor. -/
theorem scanKanbanAux_step {c : Char} {r : List Char} (h : matchKanbanDateAt (c :: r) = none)
    (topt : Option (Nat × Nat)) (f i : Nat) :
    scanKanbanAux topt (f + 1) (c :: r) i = scanKanbanAux topt f r (i + 1) := by
  simp only [scanKanbanAux, h]

/-- A line without `@` signs yields no Kanban date fields. -/
theorem scanKanbanAux_noAt {s : List Char} (h : ∀ c ∈ s, ¬ c = '@')
    (topt : Option (Nat × Nat)) : ∀ fuel i, scanKanbanAux topt fuel s i = [] := by
  induction s with
  | nil => exact scanKanbanAux_nil_list topt
  | cons c r ih =>
    intro fuel i
    cases fuel with
    | zero => rfl
    | succ f =>
      rw [scanKanbanAux_step (matchKanbanDateAt_noAt (h c (List.mem_cons_self c r)) r)]
      exact ih (fun x hx => h x (List.mem_cons_of_mem c hx)) f (i + 1)

/-- A failing position advances the line-level time search. -/
theorem firstKanbanTime_step {c : Char} {r : List Char} (h : matchKanbanTimeAt (c :: r) = none) :
    firstKanbanTime (c :: r) = firstKanbanTime r := by
  simp only [firstKanbanTime, h]

/-- A line without `@` signs carries no Kanban time token. -/
theorem firstKanbanTime_noAt {s : List Char} (h : ∀ c ∈ s, ¬ c = '@') :
    firstKanbanTime s = none := by
  induction s with
  | nil => rfl
  | cons c r ih =>
    rw [firstKanbanTime_step (matchKanbanTimeAt_noAt (h c (List.mem_cons_self c r)) r)]
    exact ih (fun x hx => h x (List.mem_cons_of_mem c hx))

/-- The time search slides over an `@`-free prefix. -/
theorem firstKanbanTime_skip {pre : List Char} (h : ∀ c ∈ pre, ¬ c = '@') (rest : List Char) :
    firstKanbanTime (pre ++ rest) = firstKanbanTime rest := by
  induction pre with
  | nil => rfl
  | cons c r ih =>
    rw [List.cons_append,
      firstKanbanTime_step (matchKanbanTimeAt_noAt (h c (List.mem_cons_self c r)) (r ++ rest))]
    exact ih (fun x hx => h x (List.mem_cons_of_mem c hx))

/-- A single-character search fails on a string avoiding that character. -/
theorem indexOfAux_none_single {x : Char} {l : List Char} (h : ∀ c ∈ l, ¬ c = x) :
    ∀ i, indexOfAux [x] l i = none := by
  induction l with
  | nil => intro i; rfl
  | cons c r ih =>
    intro i
    unfold indexOfAux
    have hpre : [x].isPrefixOf (c :: r) = false := by
      have hcx : ¬ c = x := h c (List.mem_cons_self c r)
      simp only [List.isPrefixOf, List.isPrefixOf_nil_left, Bool.and_true,
        beq_eq_false_iff_ne, ne_eq]
      exact fun hxc => hcx hxc.symm
    rw [hpre]
    simp only [Bool.false_eq_true, if_false]
    exact ih (fun x hx => h x (List.mem_cons_of_mem c hx)) (i + 1)

/-- `indexOf` fails on a string avoiding the searched character. -/
theorem indexOfFrom_none_single {x : Char} {l : List Char} (h : ∀ c ∈ l, ¬ c = x)
    (start : Nat) : indexOfFrom l [x] start = none := by
  unfold indexOfFrom
  rw [indexOfAux_none_single (fun c hc => h c (List.mem_of_mem_drop hc)) 0]
  rfl

/-- A search that matches at the current position stops there. -/
theorem indexOfAux_here {pat : List Char} {l : List Char} (hpat : ¬ pat = [])
    (h : pat.isPrefixOf l = true) (i : Nat) : indexOfAux pat l i = some i := by
  cases l with
  | nil =>
    cases pat with
    | nil => exact absurd rfl hpat
    | cons p pr => simp [List.isPrefixOf] at h
  | cons c r =>
    rw [indexOfAux.eq_2]
    simp [h]

/-- The search walks over positions where the pattern does not occur. -/
theorem indexOfAux_append {pat pre l : List Char}
    (h : ∀ n, n < pre.length → pat.isPrefixOf (pre.drop n ++ l) = false) :
    ∀ i, indexOfAux pat (pre ++ l) i = indexOfAux pat l (i + pre.length) := by
  induction pre with
  | nil => intro i; simp
  | cons c r ih =>
    intro i
    have h0 := h 0 (by simp)
    simp only [List.drop_zero, List.cons_append] at h0
    rw [List.cons_append, indexOfAux.eq_2, h0]
    simp only [Bool.false_eq_true, if_false]
    rw [ih (fun n hn => h (n + 1) (by simpa using hn)) (i + 1), List.length_cons,
      show i + 1 + r.length = i + (r.length + 1) from by omega]

/-- A two-colon search fails at a position holding no colon. -/
theorem colon2_not_prefix {c : Char} (h : ¬ c = ':') (r : List Char) :
    [':', ':'].isPrefixOf (c :: r) = false := by
  simp only [List.isPrefixOf, Bool.and_eq_false_iff, beq_eq_false_iff_ne, ne_eq]
  exact .inl (fun hc => h hc.symm)

/-- Dropping inside a nonempty list exposes a member as the head. -/
theorem drop_mem_head {l : List Char} {n : Nat} (hn : n < l.length) :
    ∃ c r, l.drop n = c :: r ∧ c ∈ l := by
  rcases hd : l.drop n with _ | ⟨c, r⟩
  · exact absurd (List.drop_eq_nil_iff_le.mp hd) (by omega)
  · refine ⟨c, r, rfl, ?_⟩
    have : c ∈ l.drop n := by rw [hd]; exact List.mem_cons_self c r
    exact List.mem_of_mem_drop this

/-- The escape-aware bracket walk slides over neutral characters. -/
theorem fcbAux_skip {openC closeC : Char} {pre : List Char}
    (h : ∀ c ∈ pre, ¬ c = '\\' ∧ ¬ c = openC ∧ ¬ c = closeC) (rest : List Char) :
    ∀ i, fcbAux openC closeC (pre ++ rest) i 0 false = fcbAux openC closeC rest (i + pre.length) 0 false := by
  induction pre with
  | nil => intro i; simp
  | cons c r ih =>
    intro i
    obtain ⟨h1, h2, h3⟩ := h c (List.mem_cons_self c r)
    rw [List.cons_append, fcbAux.eq_2, if_neg h1]
    simp only [Bool.false_eq_true, if_false, if_neg h2, if_neg h3]
    norm_num
    rw [ih (fun x hx => h x (List.mem_cons_of_mem c hx)) (i + 1),
      show i + 1 + r.length = i + (r.length + 1) from by omega]

/-- The bracket walk stops at an unnested closing bracket. -/
theorem fcbAux_close {openC closeC : Char} (hne : ¬ closeC = '\\') (hoc : ¬ closeC = openC)
    (r : List Char) (i : Nat) : fcbAux openC closeC (closeC :: r) i 0 false = some i := by
  rw [fcbAux.eq_2, if_neg hne]
  simp only [Bool.false_eq_true, if_false, if_neg hoc, if_pos rfl]
  norm_num

/-- `dropWhile` is the identity on whitespace-free strings. -/
theorem dropWhile_noWs {l : List Char} (h : ∀ c ∈ l, isJsWs c = false) :
    l.dropWhile isJsWs = l := by
  cases l with
  | nil => rfl
  | cons c r => simp [List.dropWhile_cons, h c (List.mem_cons_self c r)]

/-- `trim` is the identity on whitespace-free strings. -/
theorem trimJs_noWs {l : List Char} (h : ∀ c ∈ l, isJsWs c = false) : trimJs l = l := by
  unfold trimJs
  rw [dropWhile_noWs h, dropWhile_noWs (fun c hc => h c (List.mem_reverse.mp hc)),
    List.reverse_reverse]

/-- `trim` swallows a leading space. -/
theorem trimJs_space (l : List Char) : trimJs (' ' :: l) = trimJs l := by
  unfold trimJs
  rw [List.dropWhile_cons_of_pos (by decide)]

/-- ASCII lower-casing is the identity on strings without capital letters. -/
theorem toLowerAscii_noUpper {l : List Char} (h : ∀ c ∈ l, ('A' ≤ c && c ≤ 'Z') = false) :
    toLowerAscii l = l := by
  unfold toLowerAscii
  induction l with
  | nil => rfl
  | cons c r ih =>
    rw [List.map_cons, h c (List.mem_cons_self c r)]
    simp only [Bool.false_eq_true, if_false]
    rw [ih (fun x hx => h x (List.mem_cons_of_mem c hx))]

/-- The dataview wrapper loop stops at the end of the line. -/
theorem dvLoop_ge {line : List Char} {si : Nat} (h : line.length ≤ si)
    (openC closeC : Char) (fmt : FieldFormat) (fuel : Nat) :
    dvLoop line openC closeC fmt fuel si = [] := by
  cases fuel with
  | zero => rfl
  | succ f =>
    rw [dvLoop.eq_2, if_neg (by omega)]

/-- A line avoiding the opening wrapper yields no dataview fields. -/
theorem dvLoop_noOpen {line : List Char} {openC : Char} (h : ∀ c ∈ line, ¬ c = openC)
    (closeC : Char) (fmt : FieldFormat) (fuel si : Nat) :
    dvLoop line openC closeC fmt fuel si = [] := by
  cases fuel with
  | zero => rfl
  | succ f =>
    rw [dvLoop.eq_2]
    split
    · rw [indexOfFrom_none_single h si]
    · rfl

/-- `substring(a, b)` as a drop-then-take slice. -/
theorem jsSubstring_eq (l : List Char) (a b : Nat) :
    jsSubstring l a b = (l.drop a).take (b - a) := by
  unfold jsSubstring
  rw [List.drop_take]

/-- Printed date characters are neither whitespace nor wrapper characters. -/
theorem dateStr_class {openC closeC : Char}
    (hscaf : ¬ '-' = openC ∧ ¬ '-' = closeC ∧
      (∀ k, ¬ digitChar10 k = openC ∧ ¬ digitChar10 k = closeC))
    {Y MO D : Nat} : ∀ c ∈ pad4 Y ++ '-' :: (pad2 MO ++ '-' :: pad2 D),
      isJsWs c = false ∧ ¬ c = '\\' ∧ ¬ c = openC ∧ ¬ c = closeC := by
  intro c hc
  rcases mem_dateStr hc with ⟨k, rfl⟩ | rfl
  · exact ⟨isJsWs_digitChar10 k, digitChar10_ne k (by right; decide),
      (hscaf.2.2 k).1, (hscaf.2.2 k).2⟩
  · exact ⟨by decide, by decide, hscaf.1, hscaf.2.1⟩

/-- The dataview wrapper loop on one fully-printed inline field yields exactly
that field: the braced key resolves through the alias table and the trimmed
value's ten leading characters rebuild the date. -/
theorem dvLoop_print (openC closeC : Char) (fmt : FieldFormat) (key : List Char)
    (tp : DateFieldType) (Y MO D : Nat) (B : Int) (f : Nat)
    (halias : aliasLookup key = some tp)
    (hY : Y < 10000) (hMO : MO < 100) (hD : D < 100)
    (hv : momentOfValid Y MO D = some B)
    (hkey : ∀ c ∈ key, ¬ c = ':' ∧ isJsWs c = false ∧ ('A' ≤ c && c ≤ 'Z') = false ∧
      ¬ c = '[' ∧ ¬ c = '(' ∧ ¬ c = ']' ∧ ¬ c = ')')
    (hscaf : ¬ ' ' = openC ∧ ¬ ' ' = closeC ∧ ¬ '-' = openC ∧ ¬ '-' = closeC ∧
      (∀ k, ¬ digitChar10 k = openC ∧ ¬ digitChar10 k = closeC) ∧
      ¬ closeC = '\\' ∧ ¬ closeC = openC) :
    dvLoop (openC :: (key ++ ':' :: ':' :: ' ' :: ((pad4 Y ++ '-' :: (pad2 MO ++ '-' :: pad2 D)) ++ [closeC])))
        openC closeC fmt (f + 1) 0 =
      [{ type := tp, date := B,
         raw := openC :: (key ++ ':' :: ':' :: ' ' :: ((pad4 Y ++ '-' :: (pad2 MO ++ '-' :: pad2 D)) ++ [closeC])),
         start := 0, stop := key.length + 15, format := fmt, hasTime := false }] := by
  obtain ⟨hso, hsc, hdo, hdc, hdig, hcb, hco⟩ := hscaf
  set dS : List Char := pad4 Y ++ '-' :: (pad2 MO ++ '-' :: pad2 D) with hdS
  set S : List Char := openC :: (key ++ ':' :: ':' :: ' ' :: (dS ++ [closeC])) with hS
  have hdSlen : dS.length = 10 := by
    simp [hdS, pad4, pad2]
  have hlenS : S.length = key.length + 15 := by
    simp [hS, hdSlen]
  have hdrop1 : S.drop 1 = key ++ ':' :: ':' :: ' ' :: (dS ++ [closeC]) := rfl
  -- the first opening wrapper is at position 0
  have hopen : indexOfFrom S [openC] 0 = some 0 := by
    unfold indexOfFrom
    rw [List.drop_zero, indexOfAux_here (by simp) (by simp [hS, List.isPrefixOf]) 0]
    rfl
  -- the separator search from position 1 lands right after the key
  have hp2 : [':', ':'].isPrefixOf (':' :: ':' :: ' ' :: (dS ++ [closeC])) = true := by
    simp [List.isPrefixOf]
  have hsep : indexOfFrom S [':', ':'] 1 = some (key.length + 1) := by
    unfold indexOfFrom
    rw [hdrop1, indexOfAux_append ?hpre 0, indexOfAux_here (by simp) hp2 (0 + key.length)]
    case hpre =>
      intro n hn
      obtain ⟨c, r, hd, hcmem⟩ := drop_mem_head hn
      rw [hd, List.cons_append]
      exact colon2_not_prefix (hkey c hcmem).1 _
    simp
  -- the captured key slice is the key itself
  have hslice : jsSubstring S 1 (key.length + 1) = key := by
    rw [jsSubstring_eq, hdrop1, Nat.add_sub_cancel, List.take_left' rfl]
  have hkeyid : toLowerAscii (trimJs key) = key := by
    rw [trimJs_noWs (fun c hc => (hkey c hc).2.1),
      toLowerAscii_noUpper (fun c hc => (hkey c hc).2.2.1)]
  -- no invalid characters inside the key slice
  have hinv : key.any (fun c => c = '[' || c = '(' || c = ']' || c = ')') = false := by
    rw [List.any_eq_false]
    intro c hc
    obtain ⟨-, -, -, h4, h5, h6, h7⟩ := hkey c hc
    simp [h4, h5, h6, h7]
  -- the closing bracket search captures the value slice
  have hdropV : S.drop (key.length + 3) = ' ' :: (dS ++ [closeC]) := by
    rw [hS, show key.length + 3 = (key.length + 2) + 1 from rfl, List.drop_succ_cons,
      show key.length + 2 = (key ++ [':', ':']).length + 0 from by simp,
      show key ++ ':' :: ':' :: ' ' :: (dS ++ [closeC]) =
        (key ++ [':', ':']) ++ ' ' :: (dS ++ [closeC]) from by simp,
      List.drop_append]
    rfl
  have hfcb : fcbAux openC closeC (S.drop (key.length + 3)) (key.length + 3) 0 false =
      some (key.length + 14) := by
    rw [hdropV, show (' ' :: (dS ++ [closeC])) = (' ' :: dS) ++ [closeC] from by simp,
      fcbAux_skip ?hneutral [closeC] (key.length + 3),
      fcbAux_close hcb hco]
    · rw [show (' ' :: dS).length = 11 from by simp [hdSlen],
        show key.length + 3 + 11 = key.length + 14 from by omega]
    case hneutral =>
      intro c hc
      rcases List.mem_cons.mp hc with rfl | hc
      · exact ⟨by decide, hso, hsc⟩
      · obtain ⟨-, h2, h3, h4⟩ := dateStr_class ⟨hdo, hdc, hdig⟩ c hc
        exact ⟨h2, h3, h4⟩
  have hvalSlice : jsSubstring S (key.length + 3) (key.length + 14) = ' ' :: dS := by
    rw [jsSubstring_eq, hdropV, show key.length + 14 - (key.length + 3) = 11 from by omega,
      show (11 : Nat) = (' ' :: dS).length from by simp [hdSlen],
      show (' ' :: (dS ++ [closeC])) = (' ' :: dS) ++ [closeC] from by simp,
      List.take_left]
  have hvalTrim : trimJs (' ' :: dS) = dS := by
    rw [trimJs_space, trimJs_noWs (fun c hc => (dateStr_class ⟨hdo, hdc, hdig⟩ c hc).1)]
  have hiso : isoPrefixMatch dS = some (Y, MO, D) := by
    unfold isoPrefixMatch
    rw [hdS, parseIso_pad_nil Y MO D hY hMO hD]
    rfl
  have hvalTrim2 : trimJs dS = dS :=
    trimJs_noWs (fun c hc => (dateStr_class ⟨hdo, hdc, hdig⟩ c hc).1)
  have hraw : jsSubstring S 0 (key.length + 15) = S := by
    rw [jsSubstring_eq, List.drop_zero, Nat.sub_zero, ← hlenS, List.take_length]
  -- now run the loop body once
  rw [dvLoop.eq_2, if_pos (by rw [hlenS]; omega), hopen]
  unfold findDataviewSeparator
  simp only [Nat.zero_add, hsep]
  rw [show key.length + 1 + 2 - 2 = key.length + 1 from by omega,
    show key.length + 1 + 2 = key.length + 3 from by omega, hslice, hinv]
  simp only [Bool.false_eq_true, if_false]
  unfold findClosingBracket
  rw [hfcb]
  simp only [hvalSlice, hvalTrim, hkeyid, halias, hvalTrim2, hiso, hv,
    show key.length + 14 + 1 = key.length + 15 from by omega, hraw]
  rw [dvLoop_ge (le_of_eq hlenS) openC closeC fmt f]

/-- A date block followed by anything regroups as nested appends. -/
theorem dateStr_append (y mo d : Nat) (r : List Char) :
    (pad4 y ++ '-' :: (pad2 mo ++ '-' :: pad2 d)) ++ r =
      pad4 y ++ '-' :: (pad2 mo ++ '-' :: (pad2 d ++ r)) := by
  simp

/-- The simple grammar fully matches its formatted output. -/
theorem matchSimpleAt_print (Y MO D : Nat) (hY : Y < 10000) (hMO : MO < 100) (hD : D < 100) :
    matchSimpleAt ('@' :: ' ' :: (pad4 Y ++ '-' :: (pad2 MO ++ '-' :: pad2 D))) =
      some (12, (Y, MO, D)) := by
  unfold matchSimpleAt
  simp only [spanWs_ws (by decide : isJsWs ' ' = true), spanWs_pad4,
    parseIso_pad_nil Y MO D hY hMO hD]

/-- A string fully consumed by one simple match scans to one field. -/
theorem scanSimpleAux_single (S : List Char) (Y MO D : Nat) (B : Int)
    (hm : matchSimpleAt S = some (12, (Y, MO, D)))
    (hv : momentOfValid Y MO D = some B)
    (hlen : S.length = 12) :
    scanSimpleAux (12 + 1) S 0 =
      [{ type := .Due, date := B, raw := S, start := 0, stop := 12,
         format := .simple, hasTime := false }] := by
  have hdrop : S.drop 12 = [] := by rw [← hlen, List.drop_length]
  have htake : S.take 12 = S := by rw [← hlen, List.take_length]
  cases S with
  | nil => simp at hlen
  | cons c rest =>
    simp only [scanSimpleAux, hm, hv, hdrop, htake, scanSimpleAux_nil_list, Nat.zero_add]

/-- One leading Kanban date match emits a field and jumps past the token. -/
theorem scanKanbanAux_first (topt : Option (Nat × Nat)) (S : List Char) (Y MO D : Nat)
    (B : Int) (f i : Nat)
    (hm : matchKanbanDateAt S = some (Y, MO, D))
    (hv : momentOfValid Y MO D = some B)
    (hcons : ¬ S = []) :
    scanKanbanAux topt (f + 1) S i =
      { type := .Due, date := emojiApply B topt, raw := S.take 13, start := i, stop := i + 13,
        format := .kanban, hasTime := topt.isSome } :: scanKanbanAux topt f (S.drop 13) (i + 13) := by
  cases S with
  | nil => exact absurd rfl hcons
  | cons c rest =>
    rcases topt with _ | ⟨h, mi⟩ <;>
      simp only [scanKanbanAux, hm, hv, emojiApply, Option.isSome]

/-- An all-ASCII string contains no emoji fields. -/
theorem emoji_nil_of_ascii {S : List Char} (h : ∀ c ∈ S, c.toNat < 0x2000) :
    extractEmojiDates S = [] := by
  unfold extractEmojiDates EMOJI_DATE_PATTERNS
  simp only [List.map_cons, List.map_nil, List.flatten_cons, List.flatten_nil, List.append_nil]
  rw [scanEmojiAux_noSym .Due (DATE_SYMBOLS .Due) (S.length + 1) S 0
      (fun c hc => symbols_ascii _ c (h c hc)),
    scanEmojiAux_noSym .Start (DATE_SYMBOLS .Start) (S.length + 1) S 0
      (fun c hc => symbols_ascii _ c (h c hc)),
    scanEmojiAux_noSym .Scheduled (DATE_SYMBOLS .Scheduled) (S.length + 1) S 0
      (fun c hc => symbols_ascii _ c (h c hc)),
    scanEmojiAux_noSym .Created (DATE_SYMBOLS .Created) (S.length + 1) S 0
      (fun c hc => symbols_ascii _ c (h c hc)),
    scanEmojiAux_noSym .Done (DATE_SYMBOLS .Done) (S.length + 1) S 0
      (fun c hc => symbols_ascii _ c (h c hc)),
    scanEmojiAux_noSym .Cancelled (DATE_SYMBOLS .Cancelled) (S.length + 1) S 0
      (fun c hc => symbols_ascii _ c (h c hc))]
  simp

/-- A string avoiding both wrapper openers contains no dataview fields. -/
theorem dataview_nil_of_noBrackets {S : List Char}
    (hbr : ∀ c ∈ S, ¬ c = '[') (hpr : ∀ c ∈ S, ¬ c = '(') :
    extractDataviewDates S = [] := by
  unfold extractDataviewDates
  rw [dvLoop_noOpen hbr ']' .dataviewBracket (S.length + 1) 0,
    dvLoop_noOpen hpr ')' .dataviewParen (S.length + 1) 0]
  rfl

/-- A string without `@` signs contains no simple fields. -/
theorem simple_nil_of_noAt {S : List Char} (hat : ∀ c ∈ S, ¬ c = '@') :
    extractSimpleDates S = [] := scanSimpleAux_noAt hat _ _

/-- A string without `@` signs contains no Kanban fields. -/
theorem kanban_nil_of_noAt {S : List Char} (hat : ∀ c ∈ S, ¬ c = '@') :
    extractKanbanDates S = [] := scanKanbanAux_noAt hat _ _ _

/-- With no filter, all four grammars contribute, in source order. -/
theorem collectAllDates_none_eq (S : List Char) :
    collectAllDates S none =
      ((extractEmojiDates S ++ extractDataviewDates S) ++ extractSimpleDates S) ++
        extractKanbanDates S := rfl

/-- A single collected field survives sorting and overlap removal. -/
theorem extractAllDates_of_single {S : List Char} {g : ParsedDateField}
    (h : collectAllDates S none = [g]) : extractAllDates S none = [g] := by
  unfold extractAllDates
  rw [h]
  rfl

/-- Character cases of the date-only tasks output. -/
theorem mem_tasksStr_notime {c : Char} {tp : DateFieldType} {Y MO D : Nat}
    (h : c ∈ symChar tp :: ' ' :: (pad4 Y ++ '-' :: (pad2 MO ++ '-' :: pad2 D))) :
    c = symChar tp ∨ c = ' ' ∨ (∃ k, c = digitChar10 k) ∨ c = '-' ∨ c = ':' := by
  rcases List.mem_cons.mp h with rfl | h
  · exact .inl rfl
  · rcases List.mem_cons.mp h with rfl | h
    · exact .inr (.inl rfl)
    · rcases mem_dateStr h with h | h
      · exact .inr (.inr (.inl h))
      · exact .inr (.inr (.inr (.inl h)))

/-- Character cases of the date-and-time tasks output. -/
theorem mem_tasksStr_time {c : Char} {tp : DateFieldType} {Y MO D H Mi : Nat}
    (h : c ∈ symChar tp :: ' ' :: (pad4 Y ++ '-' :: (pad2 MO ++ '-' :: (pad2 D ++
      ' ' :: (pad2 H ++ ':' :: pad2 Mi))))) :
    c = symChar tp ∨ c = ' ' ∨ (∃ k, c = digitChar10 k) ∨ c = '-' ∨ c = ':' := by
  simp only [List.mem_cons, List.mem_append] at h
  rcases h with rfl | rfl | h | rfl | h | rfl | h | rfl | h | rfl | h
  · exact .inl rfl
  · exact .inr (.inl rfl)
  · exact .inr (.inr (.inl (mem_pad4_cases h)))
  · exact .inr (.inr (.inr (.inl rfl)))
  · exact .inr (.inr (.inl (mem_pad2_cases h)))
  · exact .inr (.inr (.inr (.inl rfl)))
  · exact .inr (.inr (.inl (mem_pad2_cases h)))
  · exact .inr (.inl rfl)
  · exact .inr (.inr (.inl (mem_pad2_cases h)))
  · exact .inr (.inr (.inr (.inr rfl)))
  · exact .inr (.inr (.inl (mem_pad2_cases h)))

/-- A tasks-class character never matches a foreign symbol class, is no
wrapper opener and no `@` sign. -/
theorem tasksChar_facts {c : Char} {tp : DateFieldType}
    (h : c = symChar tp ∨ c = ' ' ∨ (∃ k, c = digitChar10 k) ∨ c = '-' ∨ c = ':') :
    (∀ tp' : DateFieldType, ¬ tp' = tp → (DATE_SYMBOLS tp').contains c = false) ∧
    ¬ c = '@' ∧ ¬ c = '[' ∧ ¬ c = '(' := by
  rcases h with rfl | rfl | ⟨k, rfl⟩ | rfl | rfl
  · exact ⟨fun tp' htp' => sym_cross tp tp' htp',
      symChar_ne tp (by decide), symChar_ne tp (by decide), symChar_ne tp (by decide)⟩
  · exact ⟨fun tp' _ => symbols_ascii tp' ' ' (by decide), by decide, by decide, by decide⟩
  · exact ⟨fun tp' _ => symbols_not_digitChar10 tp' k,
      digitChar10_ne k (by right; decide), digitChar10_ne k (by right; decide),
      digitChar10_ne k (by left; decide)⟩
  · exact ⟨fun tp' _ => symbols_ascii tp' '-' (by decide), by decide, by decide, by decide⟩
  · exact ⟨fun tp' _ => symbols_ascii tp' ':' (by decide), by decide, by decide, by decide⟩

/-- Full extraction of a date-only tasks output: one emoji field. -/
theorem extractAllDates_tasks_notime (tp : DateFieldType) (Y MO D : Nat) (B : Int)
    (hY : Y < 10000) (hMO : MO < 100) (hD : D < 100)
    (hv : momentOfValid Y MO D = some B) :
    extractAllDates (symChar tp :: ' ' :: (pad4 Y ++ '-' :: (pad2 MO ++ '-' :: pad2 D))) none =
      [{ type := tp, date := B,
         raw := symChar tp :: ' ' :: (pad4 Y ++ '-' :: (pad2 MO ++ '-' :: pad2 D)),
         start := 0, stop := 12, format := .tasks, hasTime := false }] := by
  set S := symChar tp :: ' ' :: (pad4 Y ++ '-' :: (pad2 MO ++ '-' :: pad2 D)) with hS
  have hclass : ∀ c ∈ S,
      (∀ tp' : DateFieldType, ¬ tp' = tp → (DATE_SYMBOLS tp').contains c = false) ∧
      ¬ c = '@' ∧ ¬ c = '[' ∧ ¬ c = '(' :=
    fun c hc => tasksChar_facts (mem_tasksStr_notime hc)
  have hE : extractEmojiDates S =
      [{ type := tp, date := B, raw := S, start := 0, stop := 12,
         format := .tasks, hasTime := false }] :=
    extractEmojiDates_print tp S 12 Y MO D none B
      (matchEmojiAt_print_notime _ _ (sym_self tp) Y MO D hY hMO hD)
      hv (by simp [hS, pad4, pad2]) (fun tp' htp' c hc => (hclass c hc).1 tp' htp')
  apply extractAllDates_of_single
  rw [collectAllDates_none_eq, hE,
    dataview_nil_of_noBrackets (fun c hc => (hclass c hc).2.2.1) (fun c hc => (hclass c hc).2.2.2),
    simple_nil_of_noAt (fun c hc => (hclass c hc).2.1),
    kanban_nil_of_noAt (fun c hc => (hclass c hc).2.1)]
  simp

/-- Full extraction of a date-and-time tasks output: one emoji field whose
date carries the re-parsed clock through the moment setters. -/
theorem extractAllDates_tasks_time (tp : DateFieldType) (Y MO D H Mi : Nat) (B : Int)
    (hY : Y < 10000) (hMO : MO < 100) (hD : D < 100) (hH : H < 100) (hMi : Mi < 100)
    (hv : momentOfValid Y MO D = some B) :
    extractAllDates (symChar tp :: ' ' :: (pad4 Y ++ '-' :: (pad2 MO ++ '-' :: (pad2 D ++
        ' ' :: (pad2 H ++ ':' :: pad2 Mi))))) none =
      [{ type := tp, date := setMinutes (setHours B H) Mi,
         raw := symChar tp :: ' ' :: (pad4 Y ++ '-' :: (pad2 MO ++ '-' :: (pad2 D ++
           ' ' :: (pad2 H ++ ':' :: pad2 Mi)))),
         start := 0, stop := 18, format := .tasks, hasTime := true }] := by
  set S := symChar tp :: ' ' :: (pad4 Y ++ '-' :: (pad2 MO ++ '-' :: (pad2 D ++
    ' ' :: (pad2 H ++ ':' :: pad2 Mi)))) with hS
  have hclass : ∀ c ∈ S,
      (∀ tp' : DateFieldType, ¬ tp' = tp → (DATE_SYMBOLS tp').contains c = false) ∧
      ¬ c = '@' ∧ ¬ c = '[' ∧ ¬ c = '(' :=
    fun c hc => tasksChar_facts (mem_tasksStr_time hc)
  have hE : extractEmojiDates S =
      [{ type := tp, date := setMinutes (setHours B H) Mi, raw := S, start := 0, stop := 18,
         format := .tasks, hasTime := true }] :=
    extractEmojiDates_print tp S 18 Y MO D (some (H, Mi)) B
      (matchEmojiAt_print_time _ _ (sym_self tp) Y MO D H Mi hY hMO hD hH hMi)
      hv (by simp [hS, pad4, pad2]) (fun tp' htp' c hc => (hclass c hc).1 tp' htp')
  apply extractAllDates_of_single
  rw [collectAllDates_none_eq, hE,
    dataview_nil_of_noBrackets (fun c hc => (hclass c hc).2.2.1) (fun c hc => (hclass c hc).2.2.2),
    simple_nil_of_noAt (fun c hc => (hclass c hc).2.1),
    kanban_nil_of_noAt (fun c hc => (hclass c hc).2.1)]
  simp

/-- Printed digits stay in the ASCII range. -/
theorem digitChar10_ascii (k : Nat) : (digitChar10 k).toNat < 0x2000 := by
  rw [digitChar10_mod]
  have h10 : k % 10 < 10 := Nat.mod_lt k (by norm_num)
  have hall : ∀ m < 10, (digitChar10 m).toNat < 0x2000 := by decide
  exact hall (k % 10) h10

/-- Character cases of a printed dataview inline field. -/
theorem mem_dvStr {c oc cc : Char} {key : List Char} {Y MO D : Nat}
    (h : c ∈ oc :: (key ++ ':' :: ':' :: ' ' ::
      ((pad4 Y ++ '-' :: (pad2 MO ++ '-' :: pad2 D)) ++ [cc]))) :
    c = oc ∨ c ∈ key ∨ c = ':' ∨ c = ' ' ∨ (∃ k, c = digitChar10 k) ∨ c = '-' ∨ c = cc := by
  simp only [List.mem_cons, List.mem_append, List.not_mem_nil, or_false] at h
  rcases h with rfl | h | rfl | rfl | rfl | h | rfl
  · exact .inl rfl
  · exact .inr (.inl h)
  · exact .inr (.inr (.inl rfl))
  · exact .inr (.inr (.inl rfl))
  · exact .inr (.inr (.inr (.inl rfl)))
  · rcases h with h | rfl | h | rfl | h
    · exact .inr (.inr (.inr (.inr (.inl (mem_pad4_cases h)))))
    · exact .inr (.inr (.inr (.inr (.inr (.inl rfl)))))
    · exact .inr (.inr (.inr (.inr (.inl (mem_pad2_cases h)))))
    · exact .inr (.inr (.inr (.inr (.inr (.inl rfl)))))
    · exact .inr (.inr (.inr (.inr (.inl (mem_pad2_cases h)))))
  · exact .inr (.inr (.inr (.inr (.inr (.inr rfl)))))

/-- A bracket-family character is ASCII and starts no other grammar. -/
theorem dvBracketChar_facts {c : Char} {tp : DateFieldType}
    (h : c = '[' ∨ c ∈ tp.value ∨ c = ':' ∨ c = ' ' ∨ (∃ k, c = digitChar10 k) ∨
      c = '-' ∨ c = ']') :
    c.toNat < 0x2000 ∧ ¬ c = '@' ∧ ¬ c = '(' := by
  rcases h with rfl | h | rfl | rfl | ⟨k, rfl⟩ | rfl | rfl
  · exact ⟨by decide, by decide, by decide⟩
  · obtain ⟨h1, -, -, -, -, h6, -, -, h9, -⟩ := value_class tp c h
    exact ⟨h1, h9, h6⟩
  · exact ⟨by decide, by decide, by decide⟩
  · exact ⟨by decide, by decide, by decide⟩
  · exact ⟨digitChar10_ascii k, digitChar10_ne k (by right; decide),
      digitChar10_ne k (by left; decide)⟩
  · exact ⟨by decide, by decide, by decide⟩
  · exact ⟨by decide, by decide, by decide⟩

/-- A paren-family character is ASCII and starts no other grammar. -/
theorem dvParenChar_facts {c : Char} {tp : DateFieldType}
    (h : c = '(' ∨ c ∈ tp.value ∨ c = ':' ∨ c = ' ' ∨ (∃ k, c = digitChar10 k) ∨
      c = '-' ∨ c = ')') :
    c.toNat < 0x2000 ∧ ¬ c = '@' ∧ ¬ c = '[' := by
  rcases h with rfl | h | rfl | rfl | ⟨k, rfl⟩ | rfl | rfl
  · exact ⟨by decide, by decide, by decide⟩
  · obtain ⟨h1, -, -, -, h5, -, -, -, h9, -⟩ := value_class tp c h
    exact ⟨h1, h9, h5⟩
  · exact ⟨by decide, by decide, by decide⟩
  · exact ⟨by decide, by decide, by decide⟩
  · exact ⟨digitChar10_ascii k, digitChar10_ne k (by right; decide),
      digitChar10_ne k (by right; decide)⟩
  · exact ⟨by decide, by decide, by decide⟩
  · exact ⟨by decide, by decide, by decide⟩

/-- Full extraction of a printed bracket-style dataview field. -/
theorem extractAllDates_dvBracket (tp : DateFieldType) (Y MO D : Nat) (B : Int)
    (hY : Y < 10000) (hMO : MO < 100) (hD : D < 100)
    (hv : momentOfValid Y MO D = some B) :
    extractAllDates ('[' :: (tp.value ++ ':' :: ':' :: ' ' ::
        ((pad4 Y ++ '-' :: (pad2 MO ++ '-' :: pad2 D)) ++ [']']))) none =
      [{ type := tp, date := B,
         raw := '[' :: (tp.value ++ ':' :: ':' :: ' ' ::
           ((pad4 Y ++ '-' :: (pad2 MO ++ '-' :: pad2 D)) ++ [']'])),
         start := 0, stop := tp.value.length + 15,
         format := .dataviewBracket, hasTime := false }] := by
  set S := '[' :: (tp.value ++ ':' :: ':' :: ' ' ::
    ((pad4 Y ++ '-' :: (pad2 MO ++ '-' :: pad2 D)) ++ [']'])) with hS
  have hclass : ∀ c ∈ S, c.toNat < 0x2000 ∧ ¬ c = '@' ∧ ¬ c = '(' :=
    fun c hc => dvBracketChar_facts (mem_dvStr hc)
  have hDV : extractDataviewDates S =
      [{ type := tp, date := B, raw := S, start := 0, stop := tp.value.length + 15,
         format := .dataviewBracket, hasTime := false }] := by
    unfold extractDataviewDates
    rw [dvLoop_print '[' ']' .dataviewBracket tp.value tp Y MO D B S.length
        (aliasLookup_value tp) hY hMO hD hv
        (fun c hc => by
          obtain ⟨-, h2, h3, h4, h5, h6, h7, h8, -, -⟩ := value_class tp c hc
          exact ⟨h2, h3, h4, h5, h6, h7, h8⟩)
        ⟨by decide, by decide, by decide, by decide,
         fun k => ⟨digitChar10_ne k (by right; decide), digitChar10_ne k (by right; decide)⟩,
         by decide, by decide⟩,
      dvLoop_noOpen (fun c hc => (hclass c hc).2.2) ')' .dataviewParen (S.length + 1) 0]
    simp [hS]
  apply extractAllDates_of_single
  rw [collectAllDates_none_eq, hDV, emoji_nil_of_ascii (fun c hc => (hclass c hc).1),
    simple_nil_of_noAt (fun c hc => (hclass c hc).2.1),
    kanban_nil_of_noAt (fun c hc => (hclass c hc).2.1)]
  simp

/-- Full extraction of a printed paren-style dataview field. -/
theorem extractAllDates_dvParen (tp : DateFieldType) (Y MO D : Nat) (B : Int)
    (hY : Y < 10000) (hMO : MO < 100) (hD : D < 100)
    (hv : momentOfValid Y MO D = some B) :
    extractAllDates ('(' :: (tp.value ++ ':' :: ':' :: ' ' ::
        ((pad4 Y ++ '-' :: (pad2 MO ++ '-' :: pad2 D)) ++ [')']))) none =
      [{ type := tp, date := B,
         raw := '(' :: (tp.value ++ ':' :: ':' :: ' ' ::
           ((pad4 Y ++ '-' :: (pad2 MO ++ '-' :: pad2 D)) ++ [')'])),
         start := 0, stop := tp.value.length + 15,
         format := .dataviewParen, hasTime := false }] := by
  set S := '(' :: (tp.value ++ ':' :: ':' :: ' ' ::
    ((pad4 Y ++ '-' :: (pad2 MO ++ '-' :: pad2 D)) ++ [')'])) with hS
  have hclass : ∀ c ∈ S, c.toNat < 0x2000 ∧ ¬ c = '@' ∧ ¬ c = '[' :=
    fun c hc => dvParenChar_facts (mem_dvStr hc)
  have hDV : extractDataviewDates S =
      [{ type := tp, date := B, raw := S, start := 0, stop := tp.value.length + 15,
         format := .dataviewParen, hasTime := false }] := by
    unfold extractDataviewDates
    rw [dvLoop_print '(' ')' .dataviewParen tp.value tp Y MO D B S.length
        (aliasLookup_value tp) hY hMO hD hv
        (fun c hc => by
          obtain ⟨-, h2, h3, h4, h5, h6, h7, h8, -, -⟩ := value_class tp c hc
          exact ⟨h2, h3, h4, h5, h6, h7, h8⟩)
        ⟨by decide, by decide, by decide, by decide,
         fun k => ⟨digitChar10_ne k (by left; decide), digitChar10_ne k (by left; decide)⟩,
         by decide, by decide⟩,
      dvLoop_noOpen (fun c hc => (hclass c hc).2.2) ']' .dataviewBracket (S.length + 1) 0]
    simp [hS]
  apply extractAllDates_of_single
  rw [collectAllDates_none_eq, hDV, emoji_nil_of_ascii (fun c hc => (hclass c hc).1),
    simple_nil_of_noAt (fun c hc => (hclass c hc).2.1),
    kanban_nil_of_noAt (fun c hc => (hclass c hc).2.1)]
  simp

/-- Printed dates contain no `@` sign. -/
theorem dateStr_noAt {c : Char} {Y MO D : Nat}
    (h : c ∈ pad4 Y ++ '-' :: (pad2 MO ++ '-' :: pad2 D)) : ¬ c = '@' := by
  rcases mem_dateStr h with ⟨k, rfl⟩ | rfl
  · exact digitChar10_ne k (by right; decide)
  · decide

/-- Printed times contain no `@` sign. -/
theorem timeStr_noAt {c : Char} {H Mi : Nat}
    (h : c ∈ pad2 H ++ ':' :: pad2 Mi) : ¬ c = '@' := by
  rcases mem_timeStr h with ⟨k, rfl⟩ | rfl
  · exact digitChar10_ne k (by right; decide)
  · decide

/-- Character cases of the printed simple format. -/
theorem mem_simpleStr {c : Char} {Y MO D : Nat}
    (h : c ∈ '@' :: ' ' :: (pad4 Y ++ '-' :: (pad2 MO ++ '-' :: pad2 D))) :
    c = '@' ∨ c = ' ' ∨ (∃ k, c = digitChar10 k) ∨ c = '-' := by
  rcases List.mem_cons.mp h with rfl | h
  · exact .inl rfl
  · rcases List.mem_cons.mp h with rfl | h
    · exact .inr (.inl rfl)
    · rcases mem_dateStr h with h | h
      · exact .inr (.inr (.inl h))
      · exact .inr (.inr (.inr h))

/-- A simple-format character is ASCII and opens no wrapper. -/
theorem simpleChar_facts {c : Char}
    (h : c = '@' ∨ c = ' ' ∨ (∃ k, c = digitChar10 k) ∨ c = '-') :
    c.toNat < 0x2000 ∧ ¬ c = '[' ∧ ¬ c = '(' := by
  rcases h with rfl | rfl | ⟨k, rfl⟩ | rfl
  · exact ⟨by decide, by decide, by decide⟩
  · exact ⟨by decide, by decide, by decide⟩
  · exact ⟨digitChar10_ascii k, digitChar10_ne k (by right; decide),
      digitChar10_ne k (by left; decide)⟩
  · exact ⟨by decide, by decide, by decide⟩

/-- Full extraction of a printed simple field. -/
theorem extractAllDates_simple (Y MO D : Nat) (B : Int)
    (hY : Y < 10000) (hMO : MO < 100) (hD : D < 100)
    (hv : momentOfValid Y MO D = some B) :
    extractAllDates ('@' :: ' ' :: (pad4 Y ++ '-' :: (pad2 MO ++ '-' :: pad2 D))) none =
      [{ type := .Due, date := B,
         raw := '@' :: ' ' :: (pad4 Y ++ '-' :: (pad2 MO ++ '-' :: pad2 D)),
         start := 0, stop := 12, format := .simple, hasTime := false }] := by
  set S := '@' :: ' ' :: (pad4 Y ++ '-' :: (pad2 MO ++ '-' :: pad2 D)) with hS
  have hclass : ∀ c ∈ S, c.toNat < 0x2000 ∧ ¬ c = '[' ∧ ¬ c = '(' :=
    fun c hc => simpleChar_facts (mem_simpleStr hc)
  have hlen : S.length = 12 := by simp [hS, pad4, pad2]
  have htailAt : ∀ c ∈ ' ' :: (pad4 Y ++ '-' :: (pad2 MO ++ '-' :: pad2 D)), ¬ c = '@' := by
    intro c hc
    rcases List.mem_cons.mp hc with rfl | hc
    · decide
    · exact dateStr_noAt hc
  have hSi : extractSimpleDates S =
      [{ type := .Due, date := B, raw := S, start := 0, stop := 12,
         format := .simple, hasTime := false }] := by
    unfold extractSimpleDates
    rw [hlen]
    exact scanSimpleAux_single S Y MO D B (matchSimpleAt_print Y MO D hY hMO hD) hv hlen
  have hK : extractKanbanDates S = [] := by
    unfold extractKanbanDates
    rw [hlen]
    rw [scanKanbanAux_step (matchKanbanDateAt_noBrace (by decide) _) _ 12 0]
    exact scanKanbanAux_noAt htailAt _ 12 1
  apply extractAllDates_of_single
  rw [collectAllDates_none_eq, hSi, emoji_nil_of_ascii (fun c hc => (hclass c hc).1),
    dataview_nil_of_noBrackets (fun c hc => (hclass c hc).2.1) (fun c hc => (hclass c hc).2.2),
    hK]
  simp

/-- The ISO pattern rejects a printed clock. -/
theorem parseIso_time_nil (H Mi : Nat) (r : List Char) :
    parseIso (pad2 H ++ ':' :: (pad2 Mi ++ r)) = none := by
  simp only [pad2, List.cons_append, List.nil_append]
  unfold parseIso read4
  simp [show isDigitCh ':' = false from rfl]

/-- Character cases of the printed date-only Kanban format. -/
theorem mem_kanbanStr_notime {c : Char} {Y MO D : Nat}
    (h : c ∈ '@' :: '{' :: ((pad4 Y ++ '-' :: (pad2 MO ++ '-' :: pad2 D)) ++ ['}'])) :
    c = '@' ∨ c = '{' ∨ (∃ k, c = digitChar10 k) ∨ c = '-' ∨ c = '}' ∨ c = ' ' ∨ c = ':' := by
  rcases List.mem_cons.mp h with rfl | h
  · exact .inl rfl
  · rcases List.mem_cons.mp h with rfl | h
    · exact .inr (.inl rfl)
    · rcases List.mem_append.mp h with h | h
      · rcases mem_dateStr h with h | h
        · exact .inr (.inr (.inl h))
        · exact .inr (.inr (.inr (.inl h)))
      · rcases List.mem_cons.mp h with rfl | h
        · exact .inr (.inr (.inr (.inr (.inl rfl))))
        · exact absurd h (List.not_mem_nil c)

/-- Character cases of the printed date-and-time Kanban format. -/
theorem mem_kanbanStr_time {c : Char} {Y MO D H Mi : Nat}
    (h : c ∈ '@' :: '{' :: ((pad4 Y ++ '-' :: (pad2 MO ++ '-' :: pad2 D)) ++
      '}' :: ' ' :: '@' :: '@' :: '{' :: ((pad2 H ++ ':' :: pad2 Mi) ++ ['}']))) :
    c = '@' ∨ c = '{' ∨ (∃ k, c = digitChar10 k) ∨ c = '-' ∨ c = '}' ∨ c = ' ' ∨ c = ':' := by
  rcases List.mem_cons.mp h with rfl | h
  · exact .inl rfl
  · rcases List.mem_cons.mp h with rfl | h
    · exact .inr (.inl rfl)
    · rcases List.mem_append.mp h with h | h
      · rcases mem_dateStr h with h | h
        · exact .inr (.inr (.inl h))
        · exact .inr (.inr (.inr (.inl h)))
      · rcases List.mem_cons.mp h with rfl | h
        · exact .inr (.inr (.inr (.inr (.inl rfl))))
        · rcases List.mem_cons.mp h with rfl | h
          · exact .inr (.inr (.inr (.inr (.inr (.inl rfl)))))
          · rcases List.mem_cons.mp h with rfl | h
            · exact .inl rfl
            · rcases List.mem_cons.mp h with rfl | h
              · exact .inl rfl
              · rcases List.mem_cons.mp h with rfl | h
                · exact .inr (.inl rfl)
                · rcases List.mem_append.mp h with h | h
                  · rcases mem_timeStr h with h | h
                    · exact .inr (.inr (.inl h))
                    · exact .inr (.inr (.inr (.inr (.inr (.inr h)))))
                  · rcases List.mem_cons.mp h with rfl | h
                    · exact .inr (.inr (.inr (.inr (.inl rfl))))
                    · exact absurd h (List.not_mem_nil c)

/-- A Kanban-format character is ASCII and opens no wrapper. -/
theorem kanbanChar_facts {c : Char}
    (h : c = '@' ∨ c = '{' ∨ (∃ k, c = digitChar10 k) ∨ c = '-' ∨ c = '}' ∨ c = ' ' ∨ c = ':') :
    c.toNat < 0x2000 ∧ ¬ c = '[' ∧ ¬ c = '(' := by
  rcases h with rfl | rfl | ⟨k, rfl⟩ | rfl | rfl | rfl | rfl
  · exact ⟨by decide, by decide, by decide⟩
  · exact ⟨by decide, by decide, by decide⟩
  · exact ⟨digitChar10_ascii k, digitChar10_ne k (by right; decide),
      digitChar10_ne k (by left; decide)⟩
  · exact ⟨by decide, by decide, by decide⟩
  · exact ⟨by decide, by decide, by decide⟩
  · exact ⟨by decide, by decide, by decide⟩
  · exact ⟨by decide, by decide, by decide⟩

/-- Full extraction of a printed date-only Kanban token. -/
theorem extractAllDates_kanban_notime (Y MO D : Nat) (B : Int)
    (hY : Y < 10000) (hMO : MO < 100) (hD : D < 100)
    (hv : momentOfValid Y MO D = some B) :
    extractAllDates ('@' :: '{' :: ((pad4 Y ++ '-' :: (pad2 MO ++ '-' :: pad2 D)) ++ ['}'])) none =
      [{ type := .Due, date := B,
         raw := '@' :: '{' :: ((pad4 Y ++ '-' :: (pad2 MO ++ '-' :: pad2 D)) ++ ['}']),
         start := 0, stop := 13, format := .kanban, hasTime := false }] := by
  set S := '@' :: '{' :: ((pad4 Y ++ '-' :: (pad2 MO ++ '-' :: pad2 D)) ++ ['}']) with hS
  have hclass : ∀ c ∈ S, c.toNat < 0x2000 ∧ ¬ c = '[' ∧ ¬ c = '(' :=
    fun c hc => kanbanChar_facts (mem_kanbanStr_notime hc)
  have hlen : S.length = 13 := by simp [hS, pad4, pad2]
  have htail : ∀ c ∈ '{' :: ((pad4 Y ++ '-' :: (pad2 MO ++ '-' :: pad2 D)) ++ ['}']),
      ¬ c = '@' := by
    intro c hc
    rcases List.mem_cons.mp hc with rfl | hc
    · decide
    · rcases List.mem_append.mp hc with hc | hc
      · exact dateStr_noAt hc
      · rcases List.mem_cons.mp hc with rfl | hc
        · decide
        · exact absurd hc (List.not_mem_nil c)
  have hiso : parseIso ((pad4 Y ++ '-' :: (pad2 MO ++ '-' :: pad2 D)) ++ ['}']) =
      some ((Y, MO, D), '}' :: []) := by
    rw [dateStr_append]
    exact parseIso_pad Y MO D hY hMO hD ['}']
  have hm : matchKanbanDateAt S = some (Y, MO, D) := matchKanbanDateAt_pos hiso
  have htime : firstKanbanTime S = none := by
    rw [hS, firstKanbanTime_step (matchKanbanTimeAt_sndNoAt (by decide) _)]
    exact firstKanbanTime_noAt htail
  have hdrop : S.drop 13 = [] := by simp [hS, pad4, pad2]
  have htake : S.take 13 = S := by rw [← hlen, List.take_length]
  have hK : extractKanbanDates S =
      [{ type := .Due, date := B, raw := S, start := 0, stop := 13,
         format := .kanban, hasTime := false }] := by
    unfold extractKanbanDates
    rw [htime, hlen, scanKanbanAux_first none S Y MO D B 13 0 hm hv (by simp [hS]),
      hdrop, htake, scanKanbanAux_nil_list]
    rfl
  have hstuck : matchSimpleAt ('@' :: '{' ::
      ((pad4 Y ++ '-' :: (pad2 MO ++ '-' :: pad2 D)) ++ ['}'])) = none :=
    matchSimpleAt_stuck (by decide) (by decide) _
  have hSi : extractSimpleDates S = [] := by
    unfold extractSimpleDates
    rw [hlen, hS, scanSimpleAux_step hstuck 13 0]
    exact scanSimpleAux_noAt htail 13 1
  apply extractAllDates_of_single
  rw [collectAllDates_none_eq, hK, hSi, emoji_nil_of_ascii (fun c hc => (hclass c hc).1),
    dataview_nil_of_noBrackets (fun c hc => (hclass c hc).2.1) (fun c hc => (hclass c hc).2.2)]
  simp

/-- Full extraction of a printed Kanban date token with its time token: the
line-level time is applied to the single date field. -/
theorem extractAllDates_kanban_time (Y MO D H Mi : Nat) (B : Int)
    (hY : Y < 10000) (hMO : MO < 100) (hD : D < 100) (hH : H < 100) (hMi : Mi < 100)
    (hv : momentOfValid Y MO D = some B) :
    extractAllDates ('@' :: '{' :: ((pad4 Y ++ '-' :: (pad2 MO ++ '-' :: pad2 D)) ++
        '}' :: ' ' :: '@' :: '@' :: '{' :: ((pad2 H ++ ':' :: pad2 Mi) ++ ['}']))) none =
      [{ type := .Due, date := setMinutes (setHours B H) Mi,
         raw := '@' :: '{' :: ((pad4 Y ++ '-' :: (pad2 MO ++ '-' :: pad2 D)) ++ ['}']),
         start := 0, stop := 13, format := .kanban, hasTime := true }] := by
  set dS : List Char := pad4 Y ++ '-' :: (pad2 MO ++ '-' :: pad2 D) with hdS
  set tS : List Char := pad2 H ++ ':' :: pad2 Mi with htS
  set S : List Char := '@' :: '{' :: (dS ++ '}' :: ' ' :: '@' :: '@' :: '{' :: (tS ++ ['}']))
    with hS
  have hclass : ∀ c ∈ S, c.toNat < 0x2000 ∧ ¬ c = '[' ∧ ¬ c = '(' :=
    fun c hc => kanbanChar_facts (mem_kanbanStr_time hc)
  have hlen : S.length = 23 := by simp [hS, hdS, htS, pad4, pad2]
  have htailTime : ∀ c ∈ '{' :: (tS ++ ['}']), ¬ c = '@' := by
    intro c hc
    rcases List.mem_cons.mp hc with rfl | hc
    · decide
    · rcases List.mem_append.mp hc with hc | hc
      · exact timeStr_noAt hc
      · rcases List.mem_cons.mp hc with rfl | hc
        · decide
        · exact absurd hc (List.not_mem_nil c)
  have hpre : ∀ c ∈ '{' :: (dS ++ ['}', ' ']), ¬ c = '@' := by
    intro c hc
    rcases List.mem_cons.mp hc with rfl | hc
    · decide
    · rcases List.mem_append.mp hc with hc | hc
      · exact dateStr_noAt hc
      · rcases List.mem_cons.mp hc with rfl | hc
        · decide
        · rcases List.mem_cons.mp hc with rfl | hc
          · decide
          · exact absurd hc (List.not_mem_nil c)
  have hsplit : '{' :: (dS ++ '}' :: ' ' :: '@' :: '@' :: '{' :: (tS ++ ['}'])) =
      ('{' :: (dS ++ ['}', ' '])) ++ '@' :: '@' :: '{' :: (tS ++ ['}']) := by
    simp
  have hprelen : ('{' :: (dS ++ ['}', ' '])).length = 13 := by
    simp [hdS, pad4, pad2]
  have htshape : tS ++ ['}'] = pad2 H ++ ':' :: (pad2 Mi ++ '}' :: []) := by
    simp [htS]
  have hprint : matchKanbanTimeAt ('@' :: '@' :: '{' :: (tS ++ ['}'])) = some (H, Mi) := by
    rw [htshape]
    exact matchKanbanTimeAt_print H Mi hH hMi []
  have htime : firstKanbanTime S = some (H, Mi) := by
    rw [hS, firstKanbanTime_step (matchKanbanTimeAt_sndNoAt (by decide) _), hsplit,
      firstKanbanTime_skip hpre _]
    simp only [firstKanbanTime, hprint]
  have hiso : parseIso (dS ++ '}' :: ' ' :: '@' :: '@' :: '{' :: (tS ++ ['}'])) =
      some ((Y, MO, D), '}' :: ' ' :: '@' :: '@' :: '{' :: (tS ++ ['}'])) := by
    rw [hdS, dateStr_append]
    exact parseIso_pad Y MO D hY hMO hD _
  have hm : matchKanbanDateAt S = some (Y, MO, D) := matchKanbanDateAt_pos hiso
  have hdrop : S.drop 13 = ' ' :: '@' :: '@' :: '{' :: (tS ++ ['}']) := by
    simp [hS, hdS, pad4, pad2]
  have htake : S.take 13 = '@' :: '{' :: (dS ++ ['}']) := by
    simp [hS, hdS, pad4, pad2]
  have hiso2 : parseIso (tS ++ ['}']) = none := by
    rw [htshape]
    exact parseIso_time_nil H Mi _
  have hnd1 : matchKanbanDateAt (' ' :: '@' :: '@' :: '{' :: (tS ++ ['}'])) = none :=
    matchKanbanDateAt_noAt (by decide) _
  have hnd2 : matchKanbanDateAt ('@' :: '@' :: '{' :: (tS ++ ['}'])) = none :=
    matchKanbanDateAt_noBrace (by decide) _
  have hnd3 : matchKanbanDateAt ('@' :: '{' :: (tS ++ ['}'])) = none :=
    matchKanbanDateAt_noIso hiso2
  have hK : extractKanbanDates S =
      [{ type := .Due, date := setMinutes (setHours B H) Mi,
         raw := '@' :: '{' :: (dS ++ ['}']), start := 0, stop := 13,
         format := .kanban, hasTime := true }] := by
    unfold extractKanbanDates
    rw [htime, hlen, scanKanbanAux_first (some (H, Mi)) S Y MO D B 23 0 hm hv (by simp [hS]),
      hdrop, htake, show (23 : Nat) = 22 + 1 from rfl, scanKanbanAux_step hnd1 _ 22,
      show (22 : Nat) = 21 + 1 from rfl, scanKanbanAux_step hnd2 _ 21,
      show (21 : Nat) = 20 + 1 from rfl, scanKanbanAux_step hnd3 _ 20,
      scanKanbanAux_noAt htailTime _ 20]
    rfl
  have hstuck1 : matchSimpleAt ('@' :: '{' ::
      (dS ++ '}' :: ' ' :: '@' :: '@' :: '{' :: (tS ++ ['}']))) = none :=
    matchSimpleAt_stuck (by decide) (by decide) _
  have hstuck2 : matchSimpleAt ('@' :: '@' :: '{' :: (tS ++ ['}'])) = none :=
    matchSimpleAt_stuck (by decide) (by decide) _
  have hstuck3 : matchSimpleAt ('@' :: '{' :: (tS ++ ['}'])) = none :=
    matchSimpleAt_stuck (by decide) (by decide) _
  have hSi : extractSimpleDates S = [] := by
    unfold extractSimpleDates
    rw [hlen, hS, scanSimpleAux_step hstuck1 23 0, hsplit,
      show (23 : Nat) = ('{' :: (dS ++ ['}', ' '])).length + 10 from by rw [hprelen],
      scanSimpleAux_skip hpre _ 10 1,
      show (10 : Nat) = 9 + 1 from rfl, scanSimpleAux_step hstuck2 9,
      show (9 : Nat) = 8 + 1 from rfl, scanSimpleAux_step hstuck3 8,
      scanSimpleAux_noAt htailTime 8]
  apply extractAllDates_of_single
  rw [collectAllDates_none_eq, hK, hSi, emoji_nil_of_ascii (fun c hc => (hclass c hc).1),
    dataview_nil_of_noBrackets (fun c hc => (hclass c hc).2.1) (fun c hc => (hclass c hc).2.2)]
  simp [hdS]

/-- The clock of any moment is under a day. -/
theorem mClock_lt (m : Int) : mClock m < 1440 := by
  unfold mClock
  omega

/-- Hours of a moment are a clock value. -/
theorem mHours_lt (m : Int) : mHours m < 24 := by
  have := mClock_lt m
  unfold mHours
  omega

/-- Minutes of a moment are a clock value. -/
theorem mMinutes_lt (m : Int) : mMinutes m < 60 := by
  have := mClock_lt m
  unfold mMinutes mClock at *
  omega

/-- Setting the printed clock back onto the printed midnight reproduces the
moment. -/
theorem setClock_recon (m : Int) (h0 : 0 ≤ m) :
    setMinutes (setHours (1440 * (m / 1440)) (mHours m)) (mMinutes m) = m := by
  simp only [setMinutes, setHours, mClock, mHours, mMinutes]
  omega

/-- A zero printed clock forces a midnight moment. -/
theorem clock_zero {m : Int} (hh : mHours m = 0) (hmi : mMinutes m = 0) : m % 1440 = 0 := by
  unfold mHours mMinutes mClock at *
  omega

/-- Midnights are fixed by day rounding. -/
theorem midnight_round {m : Int} (hc : m % 1440 = 0) : 1440 * (m / 1440) = m := by omega

/-- Civil midnights are nonnegative. -/
theorem momentOfYmd_nonneg (y mo d : Nat) : 0 ≤ momentOfYmd y mo d := by
  unfold momentOfYmd
  positivity

/-- Civil midnights have a zero clock. -/
theorem momentOfYmd_mod (y mo d : Nat) : momentOfYmd y mo d % 1440 = 0 := by
  unfold momentOfYmd
  omega

/-- Month and day components print with two digits. -/
theorem mYmd_small (m : Int) (h0 : 0 ≤ m) : mMonthD m < 100 ∧ mDom m < 100 := by
  obtain ⟨-, -, -, h4, -, h6⟩ := mYmd_spec m h0
  omega

/-- Round trip of a tasks-format field whose year still prints in four
digits: formatting re-extracts one equal field. -/
theorem roundtrip_tasks (tp : DateFieldType) (m : Int) (ht : Bool)
    (h0 : 0 ≤ m) (hy : mYear m < 10000)
    (hmid : ht = false → m % 1440 = 0) :
    ∃ g, extractAllDates (formatDate tp m .tasks ht) none = [g] ∧
      g.type = tp ∧ g.date = m ∧ g.format = .tasks := by
  obtain ⟨hMO, hD⟩ := mYmd_small m h0
  have hv := momentOfValid_print m h0
  unfold formatDate
  simp only []
  cases hB : (ht && (decide (mHours m ≠ 0) || decide (mMinutes m ≠ 0))) with
  | false =>
    simp only [Bool.false_eq_true, if_false]
    rw [fmtYmd_eq m h0 hy, show ((DATE_SYMBOLS tp).getD 0 ' ') = symChar tp from rfl]
    have hmid' : m % 1440 = 0 := by
      rcases Bool.and_eq_false_iff.mp hB with hB | hB
      · exact hmid hB
      · rcases Bool.or_eq_false_iff.mp hB with ⟨h1, h2⟩
        simp only [decide_eq_false_iff_not, not_not] at h1 h2
        exact clock_zero h1 h2
    refine ⟨_, extractAllDates_tasks_notime tp _ _ _ _ hy hMO hD hv, rfl, ?_, rfl⟩
    exact midnight_round hmid'
  | true =>
    simp only [if_true]
    rw [fmtYmd_eq m h0 hy, show ((DATE_SYMBOLS tp).getD 0 ' ') = symChar tp from rfl]
    refine ⟨_, extractAllDates_tasks_time tp _ _ _ (mHours m) (mMinutes m) _ hy hMO hD
      (by have := mHours_lt m; omega) (by have := mMinutes_lt m; omega) hv, rfl, ?_, rfl⟩
    exact setClock_recon m h0

/-- Round trip of a bracket dataview field (always time-free). -/
theorem roundtrip_dvBracket (tp : DateFieldType) (m : Int)
    (h0 : 0 ≤ m) (hy : mYear m < 10000) (hmid : m % 1440 = 0) :
    ∃ g, extractAllDates (formatDate tp m .dataviewBracket false) none = [g] ∧
      g.type = tp ∧ g.date = m ∧ g.format = .dataviewBracket := by
  obtain ⟨hMO, hD⟩ := mYmd_small m h0
  have hv := momentOfValid_print m h0
  have hshape : formatDate tp m .dataviewBracket false =
      '[' :: (tp.value ++ ':' :: ':' :: ' ' ::
        ((pad4 (mYear m) ++ '-' :: (pad2 (mMonthD m) ++ '-' :: pad2 (mDom m))) ++ [']'])) := by
    unfold formatDate
    simp [fmtYmd_eq m h0 hy]
  rw [hshape]
  exact ⟨_, extractAllDates_dvBracket tp _ _ _ _ hy hMO hD hv, rfl, midnight_round hmid, rfl⟩

/-- Round trip of a paren dataview field (always time-free). -/
theorem roundtrip_dvParen (tp : DateFieldType) (m : Int)
    (h0 : 0 ≤ m) (hy : mYear m < 10000) (hmid : m % 1440 = 0) :
    ∃ g, extractAllDates (formatDate tp m .dataviewParen false) none = [g] ∧
      g.type = tp ∧ g.date = m ∧ g.format = .dataviewParen := by
  obtain ⟨hMO, hD⟩ := mYmd_small m h0
  have hv := momentOfValid_print m h0
  have hshape : formatDate tp m .dataviewParen false =
      '(' :: (tp.value ++ ':' :: ':' :: ' ' ::
        ((pad4 (mYear m) ++ '-' :: (pad2 (mMonthD m) ++ '-' :: pad2 (mDom m))) ++ [')'])) := by
    unfold formatDate
    simp [fmtYmd_eq m h0 hy]
  rw [hshape]
  exact ⟨_, extractAllDates_dvParen tp _ _ _ _ hy hMO hD hv, rfl, midnight_round hmid, rfl⟩

/-- Round trip of a simple field (the formatter never prints its time). -/
theorem roundtrip_simple (m : Int) (ht : Bool)
    (h0 : 0 ≤ m) (hy : mYear m < 10000) (hmid : m % 1440 = 0) :
    ∃ g, extractAllDates (formatDate .Due m .simple ht) none = [g] ∧
      g.type = .Due ∧ g.date = m ∧ g.format = .simple := by
  obtain ⟨hMO, hD⟩ := mYmd_small m h0
  have hv := momentOfValid_print m h0
  have hshape : formatDate .Due m .simple ht =
      '@' :: ' ' :: (pad4 (mYear m) ++ '-' :: (pad2 (mMonthD m) ++ '-' :: pad2 (mDom m))) := by
    unfold formatDate
    simp [fmtYmd_eq m h0 hy]
  rw [hshape]
  exact ⟨_, extractAllDates_simple _ _ _ _ hy hMO hD hv, rfl, midnight_round hmid, rfl⟩

/-- Round trip of a Kanban field whose year still prints in four digits. -/
theorem roundtrip_kanban (m : Int) (ht : Bool)
    (h0 : 0 ≤ m) (hy : mYear m < 10000)
    (hmid : ht = false → m % 1440 = 0) :
    ∃ g, extractAllDates (formatDate .Due m .kanban ht) none = [g] ∧
      g.type = .Due ∧ g.date = m ∧ g.format = .kanban := by
  obtain ⟨hMO, hD⟩ := mYmd_small m h0
  have hv := momentOfValid_print m h0
  unfold formatDate
  simp only []
  cases hB : (ht && (decide (mHours m ≠ 0) || decide (mMinutes m ≠ 0))) with
  | false =>
    simp only [Bool.false_eq_true, if_false]
    rw [fmtYmd_eq m h0 hy]
    have hmid' : m % 1440 = 0 := by
      rcases Bool.and_eq_false_iff.mp hB with hB | hB
      · exact hmid hB
      · rcases Bool.or_eq_false_iff.mp hB with ⟨h1, h2⟩
        simp only [decide_eq_false_iff_not, not_not] at h1 h2
        exact clock_zero h1 h2
    exact ⟨_, extractAllDates_kanban_notime _ _ _ _ hy hMO hD hv, rfl,
      midnight_round hmid', rfl⟩
  | true =>
    simp only [if_true]
    rw [fmtYmd_eq m h0 hy]
    exact ⟨_, extractAllDates_kanban_time _ _ _ (mHours m) (mMinutes m) _ hy hMO hD
      (by have := mHours_lt m; omega) (by have := mMinutes_lt m; omega) hv, rfl,
      setClock_recon m h0, rfl⟩

/-- C2 (amended): a field extracted by `extractAllDates` whose date still
prints with a four-digit year round-trips: formatting it re-extracts exactly
one field with the same type, date and moment value. -/
theorem claim_C2_amended (line : List Char) (fil : Option DateFormatType)
    (f : ParsedDateField) (hf : f ∈ extractAllDates line fil)
    (hy : mYear f.date < 10000) :
    ∃ g, extractAllDates (formatDate f.type f.date f.format f.hasTime) none = [g] ∧
      g.type = f.type ∧ g.date = f.date ∧ g.format = f.format := by
  have hmem : f ∈ collectAllDates line fil :=
    (sortByStart_mem f _).mp (dropOverlapsAux_subset _ none f hf)
  unfold collectAllDates at hmem
  rcases List.mem_append.mp hmem with h | h
  · rcases List.mem_append.mp h with h | h
    · rcases List.mem_append.mp h with h | h
      · split at h
        · obtain ⟨p, -, hfmt, htp, -, y, mo, d, hh, hmi, hvld, hhb, hmib, hdate, hzero⟩ :=
            extractEmojiDates_inv line f h
          have h0 : 0 ≤ f.date := by
            have := momentOfYmd_nonneg y mo d
            omega
          have hmid : f.hasTime = false → f.date % 1440 = 0 := by
            intro hht
            obtain ⟨rfl, rfl⟩ := hzero hht
            have := momentOfYmd_mod y mo d
            omega
          rw [hfmt]
          exact roundtrip_tasks f.type f.date f.hasTime h0 hy hmid
        · simp at h
      · split at h
        · rcases extractDataviewDates_inv line f h with
            ⟨hfmt, hht, -, y, mo, d, hvld, hdate⟩ | ⟨hfmt, hht, -, y, mo, d, hvld, hdate⟩
          · have h0 : 0 ≤ f.date := by
              have := momentOfYmd_nonneg y mo d
              omega
            have hmid : f.date % 1440 = 0 := by
              have := momentOfYmd_mod y mo d
              omega
            rw [hfmt, hht]
            exact roundtrip_dvBracket f.type f.date h0 hy hmid
          · have h0 : 0 ≤ f.date := by
              have := momentOfYmd_nonneg y mo d
              omega
            have hmid : f.date % 1440 = 0 := by
              have := momentOfYmd_mod y mo d
              omega
            rw [hfmt, hht]
            exact roundtrip_dvParen f.type f.date h0 hy hmid
        · simp at h
    · split at h
      · obtain ⟨hfmt, htp, hht, -, y, mo, d, hvld, hdate⟩ := scanSimpleAux_inv _ _ _ f h
        have h0 : 0 ≤ f.date := by
          have := momentOfYmd_nonneg y mo d
          omega
        have hmid : f.date % 1440 = 0 := by
          have := momentOfYmd_mod y mo d
          omega
        rw [hfmt, htp, hht]
        exact roundtrip_simple f.date false h0 hy hmid
      · simp at h
  · split at h
    · obtain ⟨hfmt, htp, -, hht, y, mo, d, hvld, hdate⟩ :=
        scanKanbanAux_inv (firstKanbanTime line) _ _ _ f h
      have hka : 0 ≤ kanbanTimeAdd (firstKanbanTime line) := by
        unfold kanbanTimeAdd
        split <;> positivity
      have h0 : 0 ≤ f.date := by
        have := momentOfYmd_nonneg y mo d
        omega
      have hmid : f.hasTime = false → f.date % 1440 = 0 := by
        intro hh2
        rw [hh2] at hht
        have hnone : firstKanbanTime line = none := by
          rcases hopt : firstKanbanTime line with _ | t
          · rfl
          · rw [hopt] at hht
            simp at hht
        rw [hnone] at hdate
        have := momentOfYmd_mod y mo d
        simp only [kanbanTimeAdd] at hdate
        omega
      rw [hfmt, htp]
      exact roundtrip_kanban f.date f.hasTime h0 hy hmid
    · simp at h

/-! ## Claim C2: format/extract round trip -/

/-- A concrete task line whose emoji time token overflows into year 10000. -/
def c2Line : List Char := "📅 9999-12-31 24:00".toList

/-- C2 counterexample: the `24:00` time on `9999-12-31` bubbles into
10000-01-01; `formatDate` prints the five-digit year `10000`, which the
fixed-width `\d{4}` date grammars no longer recognise, so re-extraction
finds nothing at all — no equal field exists. -/
theorem claim_C2_counterexample :
    ∃ f ∈ extractAllDates c2Line none,
      extractAllDates (formatDate f.type f.date f.format f.hasTime) none = [] := by
  decide

/-- The witness line for the amended round trip. -/
def c2WLine : List Char := "📅 2025-03-07 09:30".toList

/-- The single field `extractAllDates` finds on the witness line. -/
def c2WField : ParsedDateField :=
  { type := .Due, date := 1065142650, raw := c2WLine, start := 0, stop := 18,
    format := .tasks, hasTime := true }

/-- The amended round trip at a concrete extracted field. -/
theorem claim_C2_witness :
    ∃ g, extractAllDates (formatDate c2WField.type c2WField.date c2WField.format
        c2WField.hasTime) none = [g] ∧
      g.type = c2WField.type ∧ g.date = c2WField.date ∧ g.format = c2WField.format :=
  claim_C2_amended c2WLine none c2WField (by decide) (by decide)
